import Mathlib

/-!
# Verification of the Allie chess position core (`src/lib/game.cpp`)

A shallow embedding of the position core of the Allie chess engine.  The
`Game` structure and the operations on it (`makeMove`, `processMove`,
`setFen`, `stateOfGameToFen`, `pseudoLegalMoves`, `isChecked`,
`isCastleLegal`, ...) are translated from `src/lib/game.cpp`.  The value
types `Square`, `Move` and `BitBoard` and the helper components `Movegen`
and `Notation` live in headers that are not part of the sources; they are
modelled from the specification (marked `Modelled from the spec:` below).

Bitboards are modelled as finite sets of the 64 board indices; squares carry
their byte encoding `file + 8*rank` with 64 as the invalid sentinel.
-/

namespace Allie

/-- Modelled from the spec: the two-valued army tag (§3). -/
inductive Army where
  | White
  | Black
deriving DecidableEq, Repr

/-- Modelled from the spec: piece kinds plus the sentinel `Unknown` (§3). -/
inductive PieceType where
  | Unknown
  | King
  | Queen
  | Rook
  | Bishop
  | Knight
  | Pawn
deriving DecidableEq, Repr

/-- Modelled from the spec: the castle side tag (§3). -/
inductive Castle where
  | KingSide
  | QueenSide
deriving DecidableEq, Repr

open Army PieceType Castle

/-- Modelled from the spec: a square is one byte, `file + 8*rank`, with a
sentinel (here 64) denoting "invalid"; `is_valid ⇔ data < 64` (§3). -/
structure Square where
  data : Nat
deriving DecidableEq, Repr

/-- The invalid sentinel square (the default-constructed `Square()`). -/
def Square.invalid : Square := ⟨64⟩

instance : Inhabited Square := ⟨Square.invalid⟩

/-- Modelled from the spec: construct from (file, rank); out-of-range
coordinates give the invalid square (§3, and the unit tests on `Square`). -/
def Square.mk2 (f r : Int) : Square :=
  if 0 ≤ f ∧ f < 8 ∧ 0 ≤ r ∧ r < 8 then ⟨(f + 8 * r).toNat⟩ else Square.invalid

def Square.isValid (s : Square) : Bool := s.data < 64

def Square.file (s : Square) : Nat := s.data % 8

def Square.rank (s : Square) : Nat := s.data / 8

/-- Modelled from the spec: a bitboard is a set over the 64 squares (§3).
We model it as a finite set of board indices. -/
abbrev BitBoard := Finset (Fin 64)

/-- `test(i)`: bit query; out-of-range indices test false. -/
def BitBoard.testBit (b : BitBoard) (i : Nat) : Bool :=
  if h : i < 64 then decide ((⟨i, h⟩ : Fin 64) ∈ b) else false

/-- `set(i, v)`: set or clear one bit (out-of-range indices are a
programming error in the source; modelled as a no-op). -/
def BitBoard.setBit (b : BitBoard) (i : Nat) (v : Bool) : BitBoard :=
  if h : i < 64 then
    (if v then insert (⟨i, h⟩ : Fin 64) b else b.erase ⟨i, h⟩)
  else b

/-- Set the bit of a square (`BitBoard::setSquare`). -/
def BitBoard.setSquare (b : BitBoard) (s : Square) : BitBoard :=
  b.setBit s.data true

def BitBoard.isClear (b : BitBoard) : Bool := decide (b = (∅ : BitBoard))

def BitBoard.count (b : BitBoard) : Nat := b.card

/-- Symmetric difference, the `^` of the source. -/
def BitBoard.xor (a b : BitBoard) : BitBoard := (a \ b) ∪ (b \ a)

/-- `BitBoard::squareToIndex`. -/
def BitBoard.squareToIndex (s : Square) : Nat := s.data

def Square.ofFin (i : Fin 64) : Square := ⟨i.val⟩

/-- Modelled from the spec: the iterator yields each set square exactly once,
ascending by index; `occupied_squares` is the same sequence materialized
(§4.1). -/
def BitBoard.occupiedSquares (b : BitBoard) : List Square :=
  ((List.finRange 64).filter (fun i => decide (i ∈ b))).map Square.ofFin

/-- Modelled from the spec: the packed move record (§3).  The `end` square is
called `endSq` because `end` is reserved. -/
structure Move where
  start : Square := Square.invalid
  endSq : Square := Square.invalid
  piece : PieceType := PieceType.Unknown
  promotion : PieceType := PieceType.Unknown
  capture : Bool := false
  check : Bool := false
  checkMate : Bool := false
  staleMate : Bool := false
  enPassant : Bool := false
  castle : Bool := false
  castleSide : Castle := Castle.KingSide
deriving DecidableEq, Repr

/-- The default-constructed move. -/
def Move.null : Move := {}

instance : Inhabited Move := ⟨Move.null⟩

/-- A move is valid iff both its start and end squares are valid (§3). -/
def Move.isValid (m : Move) : Bool := m.start.isValid && m.endSq.isValid

def Move.setCapture (m : Move) (v : Bool) : Move := { m with capture := v }

def Move.setCheck (m : Move) (v : Bool) : Move := { m with check := v }

/-- The position aggregate of `game.h`/`game.cpp` (§3).  Field names follow
the `m_...` members of the source. -/
structure Game where
  whitePositionBoard : BitBoard := (∅ : BitBoard)
  blackPositionBoard : BitBoard := (∅ : BitBoard)
  kingsBoard : BitBoard := (∅ : BitBoard)
  queensBoard : BitBoard := (∅ : BitBoard)
  rooksBoard : BitBoard := (∅ : BitBoard)
  bishopsBoard : BitBoard := (∅ : BitBoard)
  knightsBoard : BitBoard := (∅ : BitBoard)
  pawnsBoard : BitBoard := (∅ : BitBoard)
  fileOfKingsRook : Nat := 0
  fileOfQueensRook : Nat := 0
  hasWhiteKingCastle : Bool := false
  hasBlackKingCastle : Bool := false
  hasWhiteQueenCastle : Bool := false
  hasBlackQueenCastle : Bool := false
  enPassantTarget : Square := Square.invalid
  halfMoveClock : Nat := 0
  halfMoveNumber : Nat := 2
  activeArmy : Army := Army.White
  lastMove : Move := Move.null
  repetitions : Int := -1
deriving DecidableEq

instance : Inhabited Game := ⟨{}⟩

/-- `Game::board(PieceType)`: the bitboard of one piece kind (`Unknown` is
never queried by the source; it is modelled as the empty board). -/
def Game.board (g : Game) : PieceType → BitBoard
  | PieceType.King => g.kingsBoard
  | PieceType.Queen => g.queensBoard
  | PieceType.Rook => g.rooksBoard
  | PieceType.Bishop => g.bishopsBoard
  | PieceType.Knight => g.knightsBoard
  | PieceType.Pawn => g.pawnsBoard
  | PieceType.Unknown => (∅ : BitBoard)

/-- `Game::board(Army)`: the occupancy bitboard of one color. -/
def Game.colorBoard (g : Game) : Army → BitBoard
  | Army.White => g.whitePositionBoard
  | Army.Black => g.blackPositionBoard

/-- `Game::hasPieceAt`. -/
def Game.hasPieceAt (g : Game) (index : Nat) (army : Army) : Bool :=
  (g.colorBoard army).testBit index

/-- `Game::pieceTypeAt`: probe the piece boards from most numerous kind to
least, exactly as the source does. -/
def Game.pieceTypeAt (g : Game) (index : Nat) : PieceType :=
  if ((g.board Pawn ∩ g.whitePositionBoard).testBit index
      || (g.board Pawn ∩ g.blackPositionBoard).testBit index) then Pawn
  else if ((g.board Knight ∩ g.whitePositionBoard).testBit index
      || (g.board Knight ∩ g.blackPositionBoard).testBit index) then Knight
  else if ((g.board Bishop ∩ g.whitePositionBoard).testBit index
      || (g.board Bishop ∩ g.blackPositionBoard).testBit index) then Bishop
  else if ((g.board Rook ∩ g.whitePositionBoard).testBit index
      || (g.board Rook ∩ g.blackPositionBoard).testBit index) then Rook
  else if ((g.board Queen ∩ g.whitePositionBoard).testBit index
      || (g.board Queen ∩ g.blackPositionBoard).testBit index) then Queen
  else if ((g.board King ∩ g.whitePositionBoard).testBit index
      || (g.board King ∩ g.blackPositionBoard).testBit index) then King
  else Unknown

/-- `Game::hasPieceTypeAt`. -/
def Game.hasPieceTypeAt (g : Game) (index : Nat) (piece : PieceType) : Bool :=
  (g.board piece).testBit index

/-- Replace one piece bitboard (writing `Unknown` is a programming error in
the source; modelled as a no-op). -/
def Game.setPieceBoard (g : Game) (p : PieceType) (b : BitBoard) : Game :=
  match p with
  | PieceType.King => { g with kingsBoard := b }
  | PieceType.Queen => { g with queensBoard := b }
  | PieceType.Rook => { g with rooksBoard := b }
  | PieceType.Bishop => { g with bishopsBoard := b }
  | PieceType.Knight => { g with knightsBoard := b }
  | PieceType.Pawn => { g with pawnsBoard := b }
  | PieceType.Unknown => g

/-- Replace one color bitboard. -/
def Game.setColorBoard (g : Game) (a : Army) (b : BitBoard) : Game :=
  match a with
  | Army.White => { g with whitePositionBoard := b }
  | Army.Black => { g with blackPositionBoard := b }

/-- Modelled from the spec: `Game::togglePieceAt` (declared in the header,
which is not among the sources) sets or clears the bit `index` in both the
piece board of `piece` and the color board of `army` (§3, §4.4e). -/
def Game.togglePieceAt (g : Game) (index : Nat) (army : Army) (piece : PieceType)
    (turnOn : Bool) : Game :=
  let g1 := g.setPieceBoard piece ((g.board piece).setBit index turnOn)
  g1.setColorBoard army ((g1.colorBoard army).setBit index turnOn)

end Allie

namespace Allie

open Army PieceType Castle

/-- The opposite army (`army == White ? Black : White`). -/
def otherArmy : Army → Army
  | Army.White => Army.Black
  | Army.Black => Army.White

/-- A bitboard with exactly the bit of one square (the implicit
`Square → BitBoard` conversion of the source). -/
def squareBB (s : Square) : BitBoard := BitBoard.setBit (∅ : BitBoard) s.data true

/-- Board index for in-range (file, rank) coordinates. -/
def finOfCoords (f r : Int) : Option (Fin 64) :=
  if h : 0 ≤ f ∧ f < 8 ∧ 0 ≤ r ∧ r < 8 then
    some ⟨(f + 8 * r).toNat, by omega⟩
  else none

/-- The squares reached by a fixed list of (file, rank) offsets. -/
def leaperBoard (sq : Square) (deltas : List (Int × Int)) : BitBoard :=
  (deltas.filterMap
    (fun d => finOfCoords ((sq.file : Int) + d.1) ((sq.rank : Int) + d.2))).toFinset

/-- Modelled from the spec: king attack offsets (§4.2). -/
def kingDeltas : List (Int × Int) :=
  [(-1, -1), (0, -1), (1, -1), (-1, 0), (1, 0), (-1, 1), (0, 1), (1, 1)]

/-- Modelled from the spec: knight attack offsets (§4.2). -/
def knightDeltas : List (Int × Int) :=
  [(-2, -1), (-1, -2), (1, -2), (2, -1), (-2, 1), (-1, 2), (1, 2), (2, 1)]

/-- Modelled from the spec: `Movegen::kingMoves` — per-square leaper table
minus friendly occupancy (§4.2). -/
def kingMoves (sq : Square) (friends _enemies : BitBoard) : BitBoard :=
  leaperBoard sq kingDeltas \ friends

/-- Modelled from the spec: `Movegen::knightMoves` (§4.2). -/
def knightMoves (sq : Square) (friends _enemies : BitBoard) : BitBoard :=
  leaperBoard sq knightDeltas \ friends

/-- The pawn push direction of an army. -/
def pawnDir : Army → Int
  | Army.White => 1
  | Army.Black => -1

/-- The pawn home rank of an army. -/
def pawnHomeRank : Army → Nat
  | Army.White => 1
  | Army.Black => 6

/-- Modelled from the spec: `Movegen::pawnMoves` — a single push is allowed
iff the target is empty, a double push iff both the one-ahead and two-ahead
squares are empty and the pawn is on its home rank (§4.2). -/
def pawnMoves (army : Army) (sq : Square) (friends enemies : BitBoard) : BitBoard :=
  let occ := friends ∪ enemies
  let f : Int := sq.file
  let r : Int := sq.rank
  let d := pawnDir army
  let oneB : BitBoard :=
    match finOfCoords f (r + d) with
    | some s1 => if s1 ∈ occ then (∅ : BitBoard) else {s1}
    | none => (∅ : BitBoard)
  let twoB : BitBoard :=
    match finOfCoords f (r + d), finOfCoords f (r + 2 * d) with
    | some s1, some s2 =>
        if sq.rank = pawnHomeRank army ∧ s1 ∉ occ ∧ s2 ∉ occ then {s2}
        else (∅ : BitBoard)
    | _, _ => (∅ : BitBoard)
  oneB ∪ twoB

/-- Modelled from the spec: `Movegen::pawnAttacks` — diagonal captures into
enemy occupancy, friendly occupancy subtracted (§4.2). -/
def pawnAttacks (army : Army) (sq : Square) (friends enemies : BitBoard) : BitBoard :=
  (leaperBoard sq [(-1, pawnDir army), (1, pawnDir army)] ∩ enemies) \ friends

/-- One sliding ray from (f, r) along (df, dr): extend until (and including)
the first blocker (§4.2).  The fuel bounds the walk by the board size. -/
def rayAux (f r df dr : Int) (occ : BitBoard) : Nat → BitBoard
  | 0 => (∅ : BitBoard)
  | fuel + 1 =>
    match finOfCoords (f + df) (r + dr) with
    | none => (∅ : BitBoard)
    | some s =>
        insert s (if s ∈ occ then (∅ : BitBoard) else rayAux (f + df) (r + dr) df dr occ fuel)

/-- A full ray from a square. -/
def ray (sq : Square) (df dr : Int) (occ : BitBoard) : BitBoard :=
  rayAux (sq.file : Int) (sq.rank : Int) df dr occ 8

/-- Modelled from the spec: `Movegen::rookMoves` — blocker-aware sliding
attacks along the four rank/file rays, minus friendly occupancy (§4.2). -/
def rookMoves (sq : Square) (friends enemies : BitBoard) : BitBoard :=
  let occ := friends ∪ enemies
  (ray sq 1 0 occ ∪ ray sq (-1) 0 occ ∪ ray sq 0 1 occ ∪ ray sq 0 (-1) occ) \ friends

/-- Modelled from the spec: `Movegen::bishopMoves` (§4.2). -/
def bishopMoves (sq : Square) (friends enemies : BitBoard) : BitBoard :=
  let occ := friends ∪ enemies
  (ray sq 1 1 occ ∪ ray sq (-1) 1 occ ∪ ray sq 1 (-1) occ ∪ ray sq (-1) (-1) occ) \ friends

/-- Modelled from the spec: queen attacks are rook ∪ bishop from the same
square (§4.2). -/
def queenMoves (sq : Square) (friends enemies : BitBoard) : BitBoard :=
  rookMoves sq friends enemies ∪ bishopMoves sq friends enemies

/-- Fold a move generator over the squares of a piece board
(the `BitBoard::Iterator` loops of the attack-board methods). -/
def attackFold (pieces : BitBoard) (gen : Square → BitBoard) : BitBoard :=
  pieces.occupiedSquares.foldl (fun bits sq => bits ∪ gen sq) (∅ : BitBoard)

/-- `Game::kingAttackBoard`. -/
def Game.kingAttackBoard (g : Game) (army : Army) : BitBoard :=
  let friends := g.colorBoard army
  let enemies := g.colorBoard (otherArmy army)
  attackFold (friends ∩ g.board King) (fun sq => kingMoves sq friends enemies)

/-- `Game::queenAttackBoard`. -/
def Game.queenAttackBoard (g : Game) (army : Army) : BitBoard :=
  let friends := g.colorBoard army
  let enemies := g.colorBoard (otherArmy army)
  attackFold (friends ∩ g.board Queen) (fun sq => queenMoves sq friends enemies)

/-- `Game::rookAttackBoard`. -/
def Game.rookAttackBoard (g : Game) (army : Army) : BitBoard :=
  let friends := g.colorBoard army
  let enemies := g.colorBoard (otherArmy army)
  attackFold (friends ∩ g.board Rook) (fun sq => rookMoves sq friends enemies)

/-- `Game::bishopAttackBoard`. -/
def Game.bishopAttackBoard (g : Game) (army : Army) : BitBoard :=
  let friends := g.colorBoard army
  let enemies := g.colorBoard (otherArmy army)
  attackFold (friends ∩ g.board Bishop) (fun sq => bishopMoves sq friends enemies)

/-- `Game::knightAttackBoard`. -/
def Game.knightAttackBoard (g : Game) (army : Army) : BitBoard :=
  let friends := g.colorBoard army
  let enemies := g.colorBoard (otherArmy army)
  attackFold (friends ∩ g.board Knight) (fun sq => knightMoves sq friends enemies)

/-- `Game::pawnAttackBoard` — the en-passant target is added to the enemy
occupancy as a pseudo-enemy square. -/
def Game.pawnAttackBoard (g : Game) (army : Army) : BitBoard :=
  let friends := g.colorBoard army
  let enemies := g.colorBoard (otherArmy army)
  let enemiesPlusEnpassant :=
    if g.enPassantTarget.isValid then enemies.setSquare g.enPassantTarget else enemies
  attackFold (friends ∩ g.board Pawn) (fun sq => pawnAttacks army sq friends enemiesPlusEnpassant)

end Allie

namespace Allie

open Army PieceType Castle

/-- The union of all six enemy attack boards probed by `Game::isChecked`
and `Game::isCastleLegal`. -/
def Game.attackBoard (g : Game) (army : Army) : BitBoard :=
  g.kingAttackBoard army ∪ g.queenAttackBoard army ∪ g.rookAttackBoard army ∪
    g.bishopAttackBoard army ∪ g.knightAttackBoard army ∪ g.pawnAttackBoard army

/-- `Game::isChecked`: probe queen, rook, bishop, knight, king, pawn attack
boards in turn with an early exit; as a side effect record the result in
`last_move.check`.  Returns the result together with the updated position. -/
def Game.isChecked (g : Game) (army : Army) : Bool × Game :=
  let kingBoard := g.colorBoard army ∩ g.board King
  let enemies := otherArmy army
  let r :=
    !(kingBoard ∩ g.queenAttackBoard enemies).isClear ||
    !(kingBoard ∩ g.rookAttackBoard enemies).isClear ||
    !(kingBoard ∩ g.bishopAttackBoard enemies).isClear ||
    !(kingBoard ∩ g.knightAttackBoard enemies).isClear ||
    !(kingBoard ∩ g.kingAttackBoard enemies).isClear ||
    !(kingBoard ∩ g.pawnAttackBoard enemies).isClear
  (r, { g with lastMove := g.lastMove.setCheck r })

/-- `boardBetweenOnSameRank`: the squares strictly between two squares of
one rank, plus the two endpoints when `inclusive`. -/
def boardBetweenOnSameRank (a b : Square) (inclusive : Bool) : BitBoard :=
  let base : BitBoard :=
    if inclusive then ((∅ : BitBoard).setBit a.data true).setBit b.data true
    else (∅ : BitBoard)
  let lo := min a.file b.file
  let hi := max a.file b.file
  (List.range' (lo + 1) (hi - lo - 1)).foldl
    (fun bb f => bb.setBit (Square.mk2 (f : Int) (a.rank : Int)).data true) base

/-- `Game::isCastleAvailable`: a pure flag read. -/
def Game.isCastleAvailable (g : Game) (army : Army) (castle : Castle) : Bool :=
  match army, castle with
  | Army.White, Castle.KingSide => g.hasWhiteKingCastle
  | Army.White, Castle.QueenSide => g.hasWhiteQueenCastle
  | Army.Black, Castle.KingSide => g.hasBlackKingCastle
  | Army.Black, Castle.QueenSide => g.hasBlackQueenCastle

/-- The home rank of an army (0 for White, 7 for Black). -/
def homeRank : Army → Nat
  | Army.White => 0
  | Army.Black => 7

/-- `Game::isCastleLegal`, translated clause by clause. -/
def Game.isCastleLegal (g : Game) (army : Army) (castle : Castle) : Bool :=
  if !(g.isCastleAvailable army castle) then false
  else
    let rookStart := Square.mk2
      ((if castle = Castle.KingSide then g.fileOfKingsRook else g.fileOfQueensRook) : Int)
      ((homeRank army : Nat) : Int)
    let rookBoard := squareBB rookStart ∩ g.board Rook ∩ g.colorBoard army
    if rookBoard.isClear then false
    else
      let chosenRook := rookBoard.occupiedSquares.headD Square.invalid
      let kingBoard := g.board King ∩ g.colorBoard army
      let king := kingBoard.occupiedSquares.headD Square.invalid
      let pieces := g.colorBoard Army.White ∪ g.colorBoard Army.Black
      let between := boardBetweenOnSameRank king chosenRook false ∩ pieces
      if !between.isClear then false
      else
        let kingTo := Square.mk2 ((if castle = Castle.KingSide then 6 else 2) : Int) (king.rank : Int)
        let kingMovesThrough := boardBetweenOnSameRank king kingTo true
        let rookTo := Square.mk2 ((if castle = Castle.KingSide then 5 else 3) : Int) (chosenRook.rank : Int)
        let rookMovesThrough := boardBetweenOnSameRank chosenRook rookTo true
        let throughMinusKAndR :=
          (((kingMovesThrough ∪ rookMovesThrough).xor rookBoard).xor kingBoard) ∩ pieces
        if !throughMinusKAndR.isClear then false
        else
          let atb := g.attackBoard (otherArmy army)
          if !(kingMovesThrough ∩ atb).isClear then false
          else true

/-- `Game::generateMove`: emit one candidate move, expanded into the four
promotion choices Queen, Knight, Rook, Bishop when a pawn reaches the last
rank.  The sink is modelled as the returned list. -/
def Game.generateMove (g : Game) (piece : PieceType) (start endSq : Square) : List Move :=
  let army := g.activeArmy
  let isPromotion := piece = Pawn &&
    (match army with | Army.White => endSq.rank = 7 | Army.Black => endSq.rank = 0 : Bool)
  let isCapture := (g.colorBoard (otherArmy army)).testBit endSq.data
  let mv : Move := { start := start, endSq := endSq, piece := piece, capture := isCapture }
  if isPromotion then
    [{ mv with promotion := Queen }, { mv with promotion := Knight },
     { mv with promotion := Rook }, { mv with promotion := Bishop }]
  else [mv]

/-- `Game::generateCastle`: a castle is encoded internally as king takes
the chosen castling rook. -/
def Game.generateCastle (g : Game) (army : Army) (castleSide : Castle) : Move :=
  { piece := King,
    start := (g.board King ∩ g.colorBoard army).occupiedSquares.headD Square.invalid,
    endSq := Square.mk2
      ((if castleSide = Castle.KingSide then g.fileOfKingsRook else g.fileOfQueensRook) : Int)
      ((homeRank army : Nat) : Int),
    castle := true,
    castleSide := castleSide }

/-- One non-pawn section of `Game::pseudoLegalMoves`: iterate the squares of
one piece kind and the destinations its generator yields. -/
def Game.movesSection (g : Game) (piece : PieceType) (gen : Square → BitBoard) : List Move :=
  let friends := g.colorBoard g.activeArmy
  (friends ∩ g.board piece).occupiedSquares.flatMap
    (fun sq => (gen sq).occupiedSquares.flatMap (fun d => g.generateMove piece sq d))

/-- The pawn-push part of `Game::pseudoLegalMoves` for one pawn: a target
two ranks away is dropped when the square directly ahead is occupied
("can't move through another piece"). -/
def Game.pawnPushMoves (g : Game) (friends enemies : BitBoard) (sq : Square) : List Move :=
  (pawnMoves g.activeArmy sq friends enemies).occupiedSquares.flatMap (fun d =>
    let forwardTwo := ((d.rank : Int) - (sq.rank : Int)).natAbs > 1
    let forwardOne := Square.mk2 (d.file : Int)
      (if g.activeArmy = Army.White then (d.rank : Int) - 1 else (d.rank : Int) + 1)
    if forwardTwo && (friends ∪ enemies).testBit forwardOne.data then []
    else g.generateMove Pawn sq d)

/-- The pawn section of `Game::pseudoLegalMoves`. -/
def Game.pawnSection (g : Game) : List Move :=
  let army := g.activeArmy
  let friends := g.colorBoard army
  let enemies := g.colorBoard (otherArmy army)
  let enemiesPlusEnpassant :=
    if g.enPassantTarget.isValid then enemies.setSquare g.enPassantTarget else enemies
  (friends ∩ g.board Pawn).occupiedSquares.flatMap (fun sq =>
    g.pawnPushMoves friends enemies sq ++
    (pawnAttacks army sq friends enemiesPlusEnpassant).occupiedSquares.flatMap
      (fun d => g.generateMove Pawn sq d))

/-- `Game::pseudoLegalMoves`: the candidate moves written to the sink, in
the order the source emits them (king, queen, rook, bishop, knight, pawns,
castles). -/
def Game.pseudoLegalMoves (g : Game) : List Move :=
  let army := g.activeArmy
  let friends := g.colorBoard army
  let enemies := g.colorBoard (otherArmy army)
  g.movesSection King (fun sq => kingMoves sq friends enemies) ++
  g.movesSection Queen (fun sq => queenMoves sq friends enemies) ++
  g.movesSection Rook (fun sq => rookMoves sq friends enemies) ++
  g.movesSection Bishop (fun sq => bishopMoves sq friends enemies) ++
  g.movesSection Knight (fun sq => knightMoves sq friends enemies) ++
  g.pawnSection ++
  ((if g.isCastleLegal army Castle.KingSide then [g.generateCastle army Castle.KingSide] else []) ++
   (if g.isCastleLegal army Castle.QueenSide then [g.generateCastle army Castle.QueenSide] else []))

end Allie

namespace Allie

open Army PieceType Castle

/-- `Game::processMove`: apply a filled-out move for `army`, translated
branch by branch from the source. -/
def Game.processMove (g0 : Game) (army : Army) (move : Move) : Game :=
  let g := { g0 with lastMove := move, enPassantTarget := Square.invalid }
  let g :=
    match army with
    | Army.White =>
      let g :=
        if move.piece = King then
          { g with hasWhiteKingCastle := false, hasWhiteQueenCastle := false }
        else if move.piece = Rook then
          (if move.start = Square.mk2 (g.fileOfQueensRook : Int) 0 then
             { g with hasWhiteQueenCastle := false }
           else if move.start = Square.mk2 (g.fileOfKingsRook : Int) 0 then
             { g with hasWhiteKingCastle := false }
           else g)
        else if move.piece = Pawn ∧ ((move.start.rank : Int) - (move.endSq.rank : Int)).natAbs = 2 then
          { g with enPassantTarget := Square.mk2 (move.endSq.file : Int) ((move.endSq.rank : Int) - 1) }
        else g
      let start := move.start.data
      let endI := move.endSq.data
      let capture := g.hasPieceAt endI Army.Black || move.enPassant
      let g :=
        if capture then
          let g := { g with lastMove := g.lastMove.setCapture true }
          let capturedPieceIndex :=
            if move.enPassant then
              (Square.mk2 (move.endSq.file : Int) ((move.endSq.rank : Int) - 1)).data
            else endI
          let type := g.pieceTypeAt capturedPieceIndex
          let g := g.togglePieceAt capturedPieceIndex Army.Black type false
          if type = Rook then
            (if move.endSq.file = g.fileOfKingsRook then { g with hasBlackKingCastle := false }
             else { g with hasBlackQueenCastle := false })
          else g
        else g
      let g :=
        if move.piece ≠ Pawn ∧ capture = false then { g with halfMoveClock := g.halfMoveClock + 1 }
        else { g with halfMoveClock := 0 }
      let g := g.togglePieceAt start Army.White move.piece false
      if move.castle then
        (if move.castleSide = Castle.KingSide then
           let g := g.togglePieceAt (Square.mk2 (g.fileOfKingsRook : Int) 0).data Army.White Rook false
           let g := g.togglePieceAt (Square.mk2 5 0).data Army.White Rook true
           g.togglePieceAt (Square.mk2 6 0).data Army.White King true
         else
           let g := g.togglePieceAt (Square.mk2 (g.fileOfQueensRook : Int) 0).data Army.White Rook false
           let g := g.togglePieceAt (Square.mk2 3 0).data Army.White Rook true
           g.togglePieceAt (Square.mk2 2 0).data Army.White King true)
      else if move.promotion ≠ Unknown then g.togglePieceAt endI Army.White move.promotion true
      else g.togglePieceAt endI Army.White move.piece true
    | Army.Black =>
      let g :=
        if move.piece = King then
          { g with hasBlackKingCastle := false, hasBlackQueenCastle := false }
        else if move.piece = Rook then
          (if move.start = Square.mk2 (g.fileOfQueensRook : Int) 7 then
             { g with hasBlackQueenCastle := false }
           else if move.start = Square.mk2 (g.fileOfKingsRook : Int) 7 then
             { g with hasBlackKingCastle := false }
           else g)
        else if move.piece = Pawn ∧ ((move.start.rank : Int) - (move.endSq.rank : Int)).natAbs = 2 then
          { g with enPassantTarget := Square.mk2 (move.endSq.file : Int) ((move.endSq.rank : Int) + 1) }
        else g
      let start := move.start.data
      let endI := move.endSq.data
      let capture := g.hasPieceAt endI Army.White || move.enPassant
      let g :=
        if capture then
          let g := { g with lastMove := g.lastMove.setCapture true }
          let capturedPieceIndex :=
            if move.enPassant then
              (Square.mk2 (move.endSq.file : Int) ((move.endSq.rank : Int) + 1)).data
            else endI
          let type := g.pieceTypeAt capturedPieceIndex
          let g := g.togglePieceAt capturedPieceIndex Army.White type false
          if type = Rook then
            (if move.endSq.file = g.fileOfKingsRook then { g with hasWhiteKingCastle := false }
             else { g with hasWhiteQueenCastle := false })
          else g
        else g
      let g :=
        if move.piece ≠ Pawn ∧ capture = false then { g with halfMoveClock := g.halfMoveClock + 1 }
        else { g with halfMoveClock := 0 }
      let g := g.togglePieceAt start Army.Black move.piece false
      if move.castle then
        (if move.castleSide = Castle.KingSide then
           let g := g.togglePieceAt (Square.mk2 (g.fileOfKingsRook : Int) 7).data Army.Black Rook false
           let g := g.togglePieceAt (Square.mk2 5 7).data Army.Black Rook true
           g.togglePieceAt (Square.mk2 6 7).data Army.Black King true
         else
           let g := g.togglePieceAt (Square.mk2 (g.fileOfQueensRook : Int) 7).data Army.Black Rook false
           let g := g.togglePieceAt (Square.mk2 3 7).data Army.Black Rook true
           g.togglePieceAt (Square.mk2 2 7).data Army.Black King true)
      else if move.promotion ≠ Unknown then g.togglePieceAt endI Army.Black move.promotion true
      else g.togglePieceAt endI Army.Black move.piece true
  { g with
    repetitions := -1,
    halfMoveNumber := g.halfMoveNumber + 1,
    activeArmy := if g.activeArmy = Army.White then Army.Black else Army.White }

/-- `Game::fillOutStart`: succeeds only when the move is valid with a valid
start square (the source's search for a start square is never reached and
always fails). -/
def Game.fillOutStart (_g : Game) (_army : Army) (move : Move) : Bool :=
  if !move.isValid then false
  else if move.start.isValid then true
  else false

/-- The first step of `Game::fillOutMove`: a castle move without an end
square gets the outer-rule destination (file 6 or 2 on the home rank). -/
def synthesizeCastleEnd (army : Army) (move : Move) : Move :=
  if move.castle && !move.isValid then
    (if move.castleSide = Castle.KingSide then
       { move with endSq := Square.mk2 6 (if army = Army.White then 0 else 7) }
     else
       { move with endSq := Square.mk2 2 (if army = Army.White then 0 else 7) })
  else move

/-- The piece kind `Game::fillOutMove` settles on: the supplied kind, or the
kind found on the start square when the supplied kind is unknown. -/
def Game.resolvePiece (g : Game) (move : Move) : PieceType :=
  if move.piece = Unknown then g.pieceTypeAt move.start.data else move.piece

/-- `Game::fillOutMove`: complete a partially specified move.  `none` models
the `false` return (MalformedMove).  The `c960` flag is the shared
`UCI_Chess960` option. -/
def Game.fillOutMove (g : Game) (army : Army) (c960 : Bool) (move : Move) : Option Move :=
  let move := synthesizeCastleEnd army move
  if !move.isValid then none
  else
    let move := { move with piece := g.resolvePiece move }
    if move.piece = Unknown then none
    else if !move.start.isValid && !(g.fillOutStart army move) then none
    else
      let move :=
        if move.piece = Pawn && move.promotion = Unknown &&
            ((decide (army = Army.White) && decide (move.endSq.rank = 7)) ||
             (decide (army = Army.Black) && decide (move.endSq.rank = 0))) then
          { move with promotion := Queen }
        else move
      let move :=
        if move.piece = Pawn && move.endSq = g.enPassantTarget then
          { move with enPassant := true }
        else move
      let move :=
        if move.piece = King && !move.castle then
          (let rankStart := move.start.rank
           let rankEnd := move.endSq.rank
           if (rankStart = 0 ∧ rankEnd = 0) ∨ (rankStart = 7 ∧ rankEnd = 7) then
             let fileStart := move.start.file
             let fileEnd := move.endSq.file
             if fileStart = 4 ∧ fileEnd = 6 then
               { move with castle := true, castleSide := Castle.KingSide }
             else if fileStart = 4 ∧ fileEnd = 2 then
               { move with castle := true, castleSide := Castle.QueenSide }
             else if c960 && !(g.colorBoard army ∩ g.board Rook ∩ squareBB move.endSq).isClear then
               (if fileEnd = g.fileOfKingsRook then
                  { move with castle := true, castleSide := Castle.KingSide }
                else if fileEnd = g.fileOfQueensRook then
                  { move with castle := true, castleSide := Castle.QueenSide }
                else move)
             else move
           else move)
        else move
      some move

/-- `Game::makeMove`: fill out the move; on failure return `false` with the
position untouched, otherwise apply it with `processMove`. -/
def Game.makeMove (g : Game) (c960 : Bool) (move : Move) : Game × Bool :=
  match g.fillOutMove g.activeArmy c960 move with
  | none => (g, false)
  | some mv => (g.processMove g.activeArmy mv, true)

/-- Run a list of moves with `makeMove`, also returning whether every move
was accepted. -/
def Game.makeMoves (g : Game) (c960 : Bool) : List Move → Game × Bool
  | [] => (g, true)
  | m :: ms =>
    let (g1, ok) := g.makeMove c960 m
    let (g2, oks) := g1.makeMoves c960 ms
    (g2, ok && oks)

/-- `Game::isSamePosition`: compare all structural fields. -/
def Game.isSamePosition (g other : Game) : Bool :=
  decide (g.activeArmy = other.activeArmy) &&
  decide (g.fileOfKingsRook = other.fileOfKingsRook) &&
  decide (g.fileOfQueensRook = other.fileOfQueensRook) &&
  decide (g.enPassantTarget = other.enPassantTarget) &&
  decide (g.whitePositionBoard = other.whitePositionBoard) &&
  decide (g.blackPositionBoard = other.blackPositionBoard) &&
  decide (g.kingsBoard = other.kingsBoard) &&
  decide (g.queensBoard = other.queensBoard) &&
  decide (g.rooksBoard = other.rooksBoard) &&
  decide (g.bishopsBoard = other.bishopsBoard) &&
  decide (g.knightsBoard = other.knightsBoard) &&
  decide (g.pawnsBoard = other.pawnsBoard) &&
  (g.hasWhiteKingCastle == other.hasWhiteKingCastle) &&
  (g.hasBlackKingCastle == other.hasBlackKingCastle) &&
  (g.hasWhiteQueenCastle == other.hasWhiteQueenCastle) &&
  (g.hasBlackQueenCastle == other.hasBlackQueenCastle)

end Allie

namespace Allie

open Army PieceType Castle

/-- ASCII uppercase test (`QChar::isUpper` on the FEN alphabet). -/
def isUpperChar (c : Char) : Bool := decide ('A' ≤ c) && decide (c ≤ 'Z')

/-- ASCII lowercase test. -/
def isLowerChar (c : Char) : Bool := decide ('a' ≤ c) && decide (c ≤ 'z')

/-- ASCII letter test. -/
def isLetterChar (c : Char) : Bool := isUpperChar c || isLowerChar c

/-- ASCII digit test (`QChar::isNumber` on the FEN alphabet). -/
def isDigitChar (c : Char) : Bool := decide ('0' ≤ c) && decide (c ≤ '9')

/-- The numeric value of a digit character. -/
def digitVal (c : Char) : Nat := c.toNat - '0'.toNat

/-- The character of a digit below ten. -/
def digitChar : Nat → Char
  | 0 => '0' | 1 => '1' | 2 => '2' | 3 => '3' | 4 => '4'
  | 5 => '5' | 6 => '6' | 7 => '7' | 8 => '8' | 9 => '9'
  | _ => '?'

/-- Decimal digits of a number, structurally recursive on a fuel bounded by
the number itself. -/
def natToCharsAux : Nat → Nat → List Char
  | 0, _ => []
  | fuel + 1, n =>
    if n < 10 then [digitChar n]
    else natToCharsAux fuel (n / 10) ++ [digitChar (n % 10)]

/-- Decimal digits of a number (`QString::number`). -/
def natToChars (n : Nat) : List Char := natToCharsAux (n + 1) n

/-- `QString::toInt` on the FEN clock fields: the value of an all-digit
string, 0 otherwise. -/
def charsToNat (cs : List Char) : Nat :=
  if cs ≠ [] ∧ cs.all isDigitChar then cs.foldl (fun acc c => acc * 10 + digitVal c) 0
  else 0

/-- Modelled from the spec: `Notation::charToPiece` (§6, FEN piece letters). -/
def charToPiece (c : Char) : PieceType :=
  if c = 'K' then King
  else if c = 'Q' then Queen
  else if c = 'R' then Rook
  else if c = 'B' then Bishop
  else if c = 'N' then Knight
  else if c = 'P' then Pawn
  else Unknown

/-- Modelled from the spec: `Notation::pieceToChar`; the sentinel kind has
no letter (a null `QChar`). -/
def pieceChar : PieceType → Option Char
  | King => some 'K'
  | Queen => some 'Q'
  | Rook => some 'R'
  | Bishop => some 'B'
  | Knight => some 'N'
  | Pawn => some 'P'
  | Unknown => none

/-- `QChar::toLower` on the FEN alphabet. -/
def charToLower (c : Char) : Char :=
  if isUpperChar c then Char.ofNat (c.toNat + 32) else c

/-- `QChar::toUpper` on the FEN alphabet. -/
def charToUpper (c : Char) : Char :=
  if isLowerChar c then Char.ofNat (c.toNat - 32) else c

/-- Modelled from the spec: `Notation::fileToChar` (§6). -/
def fileToChar : Nat → Char
  | 0 => 'a' | 1 => 'b' | 2 => 'c' | 3 => 'd'
  | 4 => 'e' | 5 => 'f' | 6 => 'g' | 7 => 'h'
  | _ => '?'

/-- The file index of a file letter; 8 when the letter is not a file. -/
def fileIdxOfChar (c : Char) : Nat :=
  if c = 'a' then 0 else if c = 'b' then 1 else if c = 'c' then 2
  else if c = 'd' then 3 else if c = 'e' then 4 else if c = 'f' then 5
  else if c = 'g' then 6 else if c = 'h' then 7 else 8

/-- Modelled from the spec: `Notation::squareToString`: file letter then
one-based rank digit (§6). -/
def squareToString (s : Square) : List Char :=
  [fileToChar s.file, digitChar (s.rank + 1)]

/-- Modelled from the spec: `Notation::stringToSquare` (§6). -/
def stringToSquare : List Char → Square
  | [c1, c2] => Square.mk2 ((fileIdxOfChar c1 : Nat) : Int) ((digitVal c2 : Int) - 1)
  | _ => Square.invalid

/-- `QString::split` on one separator character, keeping empty parts. -/
def splitOnAux (sep : Char) : List Char → List Char → List (List Char)
  | [], acc => [acc.reverse]
  | c :: cs, acc =>
    if c = sep then acc.reverse :: splitOnAux sep cs []
    else splitOnAux sep cs (c :: acc)

def splitOn (sep : Char) (cs : List Char) : List (List Char) := splitOnAux sep cs []

/-- `QStringList::join` with a one-character separator. -/
def joinSep (sep : Char) (parts : List (List Char)) : List Char :=
  List.intercalate [sep] parts

/-- Stable insertion into a file-sorted list: the new square goes before
the first square whose file is not smaller. -/
def insertByFile (x : Square) : List Square → List Square
  | [] => [x]
  | y :: ys => if x.file ≤ y.file then x :: y :: ys else y :: insertByFile x ys

/-- `std::stable_sort` of squares by file (the rook lists of the FEN code). -/
def sortByFile : List Square → List Square
  | [] => []
  | x :: xs => insertByFile x (sortByFile xs)

/-- `castlingFromFen` of `game.cpp`: interpret one lower-cased castling
character given the king and the color's file-sorted rooks. -/
def castlingFromFen (c : Char) (king : Square) (rooks : List Square) : Castle × Square :=
  if rooks.isEmpty || !king.isValid then
    ((if c = 'k' then Castle.KingSide else Castle.QueenSide), Square.invalid)
  else if c = 'k' then
    (Castle.KingSide, (rooks.getLast?).getD Square.invalid)
  else if c = 'q' then
    (Castle.QueenSide, rooks.headD Square.invalid)
  else
    match rooks.find? (fun sq => fileToChar sq.file = c) with
    | some sq => ((if sq.file > king.file then Castle.KingSide else Castle.QueenSide), sq)
    | none => (Castle.KingSide, Square.invalid)

/-- `fenFromCastling` of `game.cpp`: the castling character emitted for one
right — `k`/`q` when the castling rook is the outermost rook on its side of
the king, its file letter otherwise. -/
def fenFromCastling (castle : Castle) (king : Square) (rooks : List Square)
    (fileOfCastlingRook : Nat) : Char :=
  if rooks.isEmpty then
    (if castle = Castle.KingSide then 'k' else 'q')
  else
    let rooksToTheLeft := rooks.filter (fun sq => sq.file < king.file)
    let rooksToTheRight := rooks.filter (fun sq => sq.file > king.file)
    if castle = Castle.KingSide then
      if ((rooksToTheRight.getLast?).getD Square.invalid).file = fileOfCastlingRook then 'k'
      else fileToChar fileOfCastlingRook
    else
      if (rooksToTheLeft.headD Square.invalid).file = fileOfCastlingRook then 'q'
      else fileToChar fileOfCastlingRook

end Allie

namespace Allie

open Army PieceType Castle

/-- One rank line of the FEN placement field, scanned left to right: the
letter at loop index `j` with accumulated blanks `blank` denotes a piece on
file `j + blank`; a digit advances the file by its value.  `f` carries
`j + blank` directly. -/
def scanRankLine (r : Int) : List Char → Int → List (Square × Army × PieceType)
  | [], _ => []
  | c :: cs, f =>
    if isLetterChar c && isUpperChar c then
      (Square.mk2 f r, Army.White, charToPiece c) :: scanRankLine r cs (f + 1)
    else if isLetterChar c && isLowerChar c then
      (Square.mk2 f r, Army.Black, charToPiece (charToUpper c)) :: scanRankLine r cs (f + 1)
    else if isDigitChar c then
      scanRankLine r cs (f + (digitVal c : Int))
    else
      scanRankLine r cs (f + 1)

/-- The placement triples of a FEN, rank 8 first. -/
def scanRanks : List (List Char) → Int → List (Square × Army × PieceType)
  | [], _ => []
  | l :: ls, i => scanRankLine (7 - i) l 0 ++ scanRanks ls (i + 1)

def scanPlacement (ranks : List (List Char)) : List (Square × Army × PieceType) :=
  scanRanks ranks 0

/-- The rook squares of one army in a placement scan, sorted by file. -/
def rooksOfScan (triples : List (Square × Army × PieceType)) (a : Army) : List Square :=
  sortByFile (triples.filterMap
    (fun t => if t.2.1 = a ∧ t.2.2 = Rook then some t.1 else none))

/-- The king square of one army in a placement scan (the last assignment of
the scanning loop). -/
def kingOfScan (triples : List (Square × Army × PieceType)) (a : Army) : Square :=
  ((triples.filterMap
    (fun t => if t.2.1 = a ∧ t.2.2 = King then some t.1 else none)).getLast?).getD
    Square.invalid

/-- Process one character of the FEN castling field, recording the right and
the castling rook's file in the single shared byte of each side. -/
def applyCastlingChar (wk bk : Square) (wr br : List Square) (g : Game) (c : Char) : Game :=
  if isUpperChar c then
    let pair := castlingFromFen (charToLower c) wk wr
    if pair.1 = Castle.KingSide then
      { g with hasWhiteKingCastle := true, fileOfKingsRook := pair.2.file }
    else
      { g with hasWhiteQueenCastle := true, fileOfQueensRook := pair.2.file }
  else
    let pair := castlingFromFen (charToLower c) bk br
    if pair.1 = Castle.KingSide then
      { g with hasBlackKingCastle := true, fileOfKingsRook := pair.2.file }
    else
      { g with hasBlackQueenCastle := true, fileOfQueensRook := pair.2.file }

/-- `Game::setFen`: parse a FEN string (as a character list), resetting all
parsed fields first, exactly as the source does. -/
def Game.setFen (g0 : Game) (fen : List Char) : Game :=
  let base : Game :=
    { g0 with
      activeArmy := Army.White,
      halfMoveClock := 0,
      halfMoveNumber := 2,
      fileOfKingsRook := 0,
      fileOfQueensRook := 0,
      enPassantTarget := Square.invalid,
      whitePositionBoard := (∅ : BitBoard),
      blackPositionBoard := (∅ : BitBoard),
      kingsBoard := (∅ : BitBoard),
      queensBoard := (∅ : BitBoard),
      rooksBoard := (∅ : BitBoard),
      bishopsBoard := (∅ : BitBoard),
      knightsBoard := (∅ : BitBoard),
      pawnsBoard := (∅ : BitBoard),
      hasWhiteKingCastle := false,
      hasBlackKingCastle := false,
      hasWhiteQueenCastle := false,
      hasBlackQueenCastle := false }
  let list := splitOn ' ' fen
  let ranks := splitOn '/' (list.headD [])
  let triples := scanPlacement ranks
  let g := triples.foldl (fun g t => g.togglePieceAt t.1.data t.2.1 t.2.2 true) base
  let whiteRooks := rooksOfScan triples Army.White
  let blackRooks := rooksOfScan triples Army.Black
  let whiteKing := kingOfScan triples Army.White
  let blackKing := kingOfScan triples Army.Black
  let g := { g with activeArmy := if list.getD 1 [] = ['w'] then Army.White else Army.Black }
  let castling := list.getD 2 []
  let g :=
    if castling ≠ ['-'] then
      castling.foldl (applyCastlingChar whiteKing blackKing whiteRooks blackRooks) g
    else g
  let enPassant := list.getD 3 []
  let g :=
    if enPassant ≠ ['-'] then { g with enPassantTarget := stringToSquare enPassant } else g
  let g := if list.length > 4 then { g with halfMoveClock := charsToNat (list.getD 4 []) } else g
  let g :=
    if list.length > 5 then { g with halfMoveNumber := 2 * charsToNat (list.getD 5 []) } else g
  g

/-- The cell of the board at one index, probed exactly as the FEN emitter
does: white occupancy first, then black. -/
def Game.cellAt (g : Game) (index : Nat) : Option (Army × PieceType) :=
  if g.hasPieceAt index Army.White then some (Army.White, g.pieceTypeAt index)
  else if g.hasPieceAt index Army.Black then some (Army.Black, g.pieceTypeAt index)
  else none

/-- The FEN letter of an occupied cell (`pieceToChar` with the source's
fallback to a pawn letter for a board inconsistency). -/
def cellChar : Army × PieceType → Char
  | (Army.White, p) => match pieceChar p with | some ch => ch | none => 'P'
  | (Army.Black, p) => match pieceChar p with | some ch => charToLower ch | none => 'p'

/-- Emit one rank of the placement field from its eight cells, carrying the
blank-run counter. -/
def emitCells : List (Option (Army × PieceType)) → Nat → List Char
  | [], blank => if blank > 0 then natToChars blank else []
  | none :: rest, blank => emitCells rest (blank + 1)
  | some ap :: rest, blank =>
    (if blank > 0 then natToChars blank else []) ++ (cellChar ap :: emitCells rest 0)

/-- The cells of rank-line `i` (rank `7 - i`), files ascending. -/
def Game.rankCells (g : Game) (i : Nat) : List (Option (Army × PieceType)) :=
  (List.range 8).map (fun j => g.cellAt (Square.mk2 (j : Int) ((7 - i : Nat) : Int)).data)

/-- The (square, cell) pairs of the whole board in the emitter's scan order:
rank 8 down to rank 1, files ascending. -/
def Game.scanBoard (g : Game) : List (Square × Army × PieceType) :=
  (List.range 8).flatMap (fun i =>
    (List.range 8).filterMap (fun j =>
      let sq := Square.mk2 (j : Int) ((7 - i : Nat) : Int)
      (g.cellAt sq.data).map (fun ap => (sq, ap))))

/-- `Game::stateOfGameToFen`: serialize the position; move numbers are
included when requested (the default of the source). -/
def Game.stateOfGameToFen (g : Game) (includeMoveNumbers : Bool) : List Char :=
  let rankList := (List.range 8).map (fun i => emitCells (g.rankCells i) 0)
  let triples := g.scanBoard
  let whiteRooks := rooksOfScan triples Army.White
  let blackRooks := rooksOfScan triples Army.Black
  let whiteKing := kingOfScan triples Army.White
  let blackKing := kingOfScan triples Army.Black
  let ranks := joinSep '/' rankList
  let activeArmy := if g.activeArmy = Army.White then ['w'] else ['b']
  let castling :=
    (if g.isCastleAvailable Army.White Castle.KingSide then
       [charToUpper (fenFromCastling Castle.KingSide whiteKing whiteRooks g.fileOfKingsRook)]
     else []) ++
    (if g.isCastleAvailable Army.White Castle.QueenSide then
       [charToUpper (fenFromCastling Castle.QueenSide whiteKing whiteRooks g.fileOfQueensRook)]
     else []) ++
    (if g.isCastleAvailable Army.Black Castle.KingSide then
       [fenFromCastling Castle.KingSide blackKing blackRooks g.fileOfKingsRook]
     else []) ++
    (if g.isCastleAvailable Army.Black Castle.QueenSide then
       [fenFromCastling Castle.QueenSide blackKing blackRooks g.fileOfQueensRook]
     else [])
  let castling := if castling = [] then ['-'] else castling
  let enPassant :=
    if g.enPassantTarget.isValid then squareToString g.enPassantTarget else ['-']
  let fields :=
    [ranks, activeArmy, castling, enPassant] ++
    (if includeMoveNumbers then
       [natToChars g.halfMoveClock, natToChars ((g.halfMoveNumber + 1) / 2)]
     else [])
  joinSep ' ' fields

end Allie

namespace Allie

open Army PieceType Castle

/-- A FEN string as a character list. -/
def fen (s : String) : List Char := s.data

/-- Modelled from the spec: `Notation::stringToMove` in the Computer
encoding, four-character form — source square then destination square
(§6); only start and end are filled in. -/
def uciMove (s : String) : Move :=
  match s.data with
  | [a, b, c, d] => { start := stringToSquare [a, b], endSq := stringToSquare [c, d] }
  | _ => Move.null

/-- The standard starting position. -/
def startPos : Game :=
  (default : Game).setFen (fen "rnbqkbnr/pppppppp/8/8/8/8/PPPPPPPP/RNBQKBNR w KQkq - 0 1")

end Allie

namespace Allie

open Army PieceType Castle

/-- The union of the six piece bitboards. -/
def piecesUnion (g : Game) : BitBoard :=
  g.kingsBoard ∪ g.queensBoard ∪ g.rooksBoard ∪ g.bishopsBoard ∪ g.knightsBoard ∪ g.pawnsBoard

/-- The board invariants of the specification (§3, §8): the color boards are
disjoint, the piece boards are pairwise disjoint, the color occupancy equals
the piece occupancy, and each side has exactly one king. -/
def Game.boardInvariant (g : Game) : Prop :=
  g.whitePositionBoard ∩ g.blackPositionBoard = (∅ : BitBoard) ∧
  (∀ p q : PieceType, p ≠ q → g.board p ∩ g.board q = (∅ : BitBoard)) ∧
  g.whitePositionBoard ∪ g.blackPositionBoard = piecesUnion g ∧
  (g.whitePositionBoard ∩ g.kingsBoard).card = 1 ∧
  (g.blackPositionBoard ∩ g.kingsBoard).card = 1

instance : Fintype PieceType :=
  ⟨⟨{PieceType.Unknown, PieceType.King, PieceType.Queen, PieceType.Rook,
     PieceType.Bishop, PieceType.Knight, PieceType.Pawn}, by decide⟩,
   by intro x; cases x <;> decide⟩

instance (g : Game) : Decidable g.boardInvariant := by
  unfold Game.boardInvariant; infer_instance

/-- White rook e4, black rook e5 (a rook standing on neither castle-rook
starting file), black retains both castle rights. -/
def gC1 : Game := (default : Game).setFen (fen "r3k2r/8/8/4r3/4R3/8/8/4K3 w kq - 0 1")

/-- C1: counterexample.  White's accepted move e4e5 captures a black rook on
e5 — a square on neither of Black's castle-rook starting files — yet Black's
queen-side castle right is zeroed, contradicting the claim that capturing a
rook on any other square leaves both of the opponent's castle rights
unchanged. -/
theorem C1_captured_rook_rights_counterexample :
    (gC1.makeMove false (uciMove "e4e5")).2 = true ∧
    gC1.hasPieceAt (stringToSquare (fen "e5")).data Black = true ∧
    gC1.pieceTypeAt (stringToSquare (fen "e5")).data = Rook ∧
    (stringToSquare (fen "e5")).file ≠ gC1.fileOfQueensRook ∧
    (stringToSquare (fen "e5")).file ≠ gC1.fileOfKingsRook ∧
    gC1.hasBlackQueenCastle = true ∧
    (gC1.makeMove false (uciMove "e4e5")).1.hasBlackQueenCastle = false := by decide

/-- Four king and pawn moves from the starting position after which all four
castle rights are gone. -/
def lostRightsMoves : List Move :=
  [uciMove "e2e4", uciMove "e7e5", uciMove "e1e2", uciMove "e8e7"]

/-- The resulting reachable position. -/
def gLostRights : Game := (startPos.makeMoves false lostRightsMoves).1

/-- C2: counterexample.  A position reached from the starting FEN by four
successful (and fully legal) moves has `file_of_kings_rook = 7`, but
re-parsing its emitted FEN resets the byte to 0 because no castling
character remains, so `is_same_position` fails on the round trip. -/
theorem C2_fen_roundtrip_counterexample :
    (startPos.makeMoves false lostRightsMoves).2 = true ∧
    gLostRights.fileOfKingsRook = 7 ∧
    ((default : Game).setFen (gLostRights.stateOfGameToFen true)).fileOfKingsRook = 0 ∧
    ((default : Game).setFen (gLostRights.stateOfGameToFen true)).isSamePosition gLostRights =
      false := by decide

/-- C3: counterexample.  From the starting position, `make_move` accepts the
move e7e5 for White, which relocates Black's pawn as if it were White's; the
resulting position violates the board invariants (the colored square e7 is
in no piece board). -/
theorem C3_invariants_counterexample :
    (startPos.makeMove false (uciMove "e7e5")).2 = true ∧
    ¬ (startPos.makeMove false (uciMove "e7e5")).1.boardInvariant := by decide

/-- A FEN whose castling field records different king-side rook files for
White (file h via `K`) and Black (file g via `k`). -/
def gShared : Game := (default : Game).setFen (fen "r3k1r1/8/8/8/8/8/8/R3K2R w Kk - 0 1")

end Allie

namespace Allie

open Army PieceType Castle

/-- The squares the king traverses during a castle, from its current square
through its destination (file 6 or 2) inclusive, as computed by
`Game::isCastleLegal`. -/
def Game.castleKingPath (g : Game) (army : Army) (castle : Castle) : BitBoard :=
  let kingBoard := g.board King ∩ g.colorBoard army
  let king := kingBoard.occupiedSquares.headD Square.invalid
  let kingTo := Square.mk2 ((if castle = Castle.KingSide then 6 else 2) : Int) (king.rank : Int)
  boardBetweenOnSameRank king kingTo true

/-- The non-attack conditions of `Game::isCastleLegal`: the right is
available, the chosen rook exists, the squares between king and rook are
empty, and the king's and rook's transit squares (minus the two pieces
themselves) are empty. -/
def Game.castlePreconditions (g : Game) (army : Army) (castle : Castle) : Bool :=
  let rookStart := Square.mk2
    ((if castle = Castle.KingSide then g.fileOfKingsRook else g.fileOfQueensRook) : Int)
    ((homeRank army : Nat) : Int)
  let rookBoard := squareBB rookStart ∩ g.board Rook ∩ g.colorBoard army
  let chosenRook := rookBoard.occupiedSquares.headD Square.invalid
  let kingBoard := g.board King ∩ g.colorBoard army
  let king := kingBoard.occupiedSquares.headD Square.invalid
  let pieces := g.colorBoard Army.White ∪ g.colorBoard Army.Black
  let between := boardBetweenOnSameRank king chosenRook false ∩ pieces
  let kingTo := Square.mk2 ((if castle = Castle.KingSide then 6 else 2) : Int) (king.rank : Int)
  let kingMovesThrough := boardBetweenOnSameRank king kingTo true
  let rookTo := Square.mk2 ((if castle = Castle.KingSide then 5 else 3) : Int) (chosenRook.rank : Int)
  let rookMovesThrough := boardBetweenOnSameRank chosenRook rookTo true
  let throughMinusKAndR :=
    (((kingMovesThrough ∪ rookMovesThrough).xor rookBoard).xor kingBoard) ∩ pieces
  g.isCastleAvailable army castle && !rookBoard.isClear && between.isClear &&
    throughMinusKAndR.isClear

/-- Castle legality factors into the non-attack preconditions and the
attack test, which inspects only the king's traversal squares — the rook's
transit squares never meet the enemy attack board. -/
theorem castle_legal_characterization (g : Game) (a : Army) (c : Castle) :
    g.isCastleLegal a c =
      (g.castlePreconditions a c &&
        (g.castleKingPath a c ∩ g.attackBoard (otherArmy a)).isClear) := by
  unfold Game.isCastleLegal Game.castlePreconditions Game.castleKingPath
  dsimp only []
  split_ifs <;>
    simp_all only [Bool.not_eq_true', Bool.not_eq_true, Bool.not_eq_false, Bool.and_eq_true,
      Bool.true_and, Bool.false_and, Bool.and_false, Bool.and_true, Bool.not_true,
      Bool.not_false, Bool.false_eq_true, Bool.true_eq_false, and_self, and_true, true_and,
      Bool.and_self, eq_self_iff_true, not_false_eq_true, not_true_eq_false]

/-- The castle-through-check scenario of the spec (§8, scenario 2). -/
def gCastleThrough : Game := (default : Game).setFen (fen "4k3/6q1/8/8/8/8/8/R3K2R w KQ - 0 1")

/-- C4: `is_castle_legal` tests enemy attacks only on the squares the king
traverses (from-square through to-square inclusive) — the factorization
below has no rook-path attack test — and on the spec's concrete position
king-side castling is available but illegal while queen-side castling is
legal even though the a1 rook is enemy-attacked. -/
theorem C4_castle_through_check :
    (∀ (g : Game) (a : Army) (c : Castle),
        g.isCastleLegal a c =
          (g.castlePreconditions a c &&
            (g.castleKingPath a c ∩ g.attackBoard (otherArmy a)).isClear)) ∧
    gCastleThrough.isCastleAvailable White KingSide = true ∧
    gCastleThrough.isCastleLegal White KingSide = false ∧
    gCastleThrough.isCastleLegal White QueenSide = true ∧
    BitBoard.testBit (gCastleThrough.attackBoard Black) (stringToSquare (fen "a1")).data =
      true :=
  ⟨castle_legal_characterization, by decide, by decide, by decide, by decide⟩

end Allie

namespace Allie

open Army PieceType Castle

/-- `fillOutMove` fails exactly when the move (after castle-end synthesis)
still lacks a valid start or end square, or when no piece kind can be
settled because the start square is empty and none was supplied. -/
theorem fillOutMove_eq_none_iff (g : Game) (army : Army) (c960 : Bool) (m : Move) :
    g.fillOutMove army c960 m = none ↔
      ((synthesizeCastleEnd army m).isValid = false ∨
        ((synthesizeCastleEnd army m).isValid = true ∧
          g.resolvePiece (synthesizeCastleEnd army m) = Unknown)) := by
  unfold Game.fillOutMove
  dsimp only []
  cases hval : (synthesizeCastleEnd army m).isValid with
  | false => exact iff_of_true rfl (Or.inl rfl)
  | true =>
    simp only [Bool.not_true, Bool.false_eq_true, if_false]
    by_cases hpc : g.resolvePiece (synthesizeCastleEnd army m) = Unknown
    · rw [if_pos hpc]
      exact iff_of_true rfl (Or.inr ⟨by simp, hpc⟩)
    · rw [if_neg hpc]
      have hstart : (synthesizeCastleEnd army m).start.isValid = true := by
        unfold Move.isValid at hval
        exact (Bool.and_eq_true _ _ |>.mp hval).1
      rw [hstart]
      simp only [Bool.not_true, Bool.false_and, Bool.false_eq_true, if_false]
      exact iff_of_false (Option.some_ne_none _) (by simp [hpc])

/-- C5: `make_move` cannot fill out the supplied move exactly when the move
(after castle-end synthesis) has no valid start or end square, or no piece
kind can be determined because no piece sits on the start square; in that
case `make_move` returns `false` with the position unchanged. -/
theorem C5_malformed_move_rejected (g : Game) (c960 : Bool) (m : Move) :
    (g.fillOutMove g.activeArmy c960 m = none ↔
      ((synthesizeCastleEnd g.activeArmy m).isValid = false ∨
        ((synthesizeCastleEnd g.activeArmy m).isValid = true ∧
          g.resolvePiece (synthesizeCastleEnd g.activeArmy m) = Unknown))) ∧
    (g.fillOutMove g.activeArmy c960 m = none → g.makeMove c960 m = (g, false)) := by
  refine ⟨fillOutMove_eq_none_iff g g.activeArmy c960 m, fun h => ?_⟩
  unfold Game.makeMove
  rw [h]

/-- C5 witness: the default (entirely unspecified) move is rejected and the
default position is returned unchanged. -/
theorem C5_malformed_move_rejected_witness :
    ((default : Game).fillOutMove (default : Game).activeArmy false Move.null = none) ∧
    (default : Game).makeMove false Move.null = ((default : Game), false) :=
  ⟨by decide, (C5_malformed_move_rejected (default : Game) false Move.null).2 (by decide)⟩

/-- C9: `make_move` performs no piece-movement validation: it returns
`false` exactly when the fill-out step fails, and any supplied move with
valid start and end squares whose start square holds a piece is accepted
and applied via `processMove`, regardless of movement rules. -/
theorem C9_no_movement_validation (g : Game) (c960 : Bool) (m : Move) :
    ((g.makeMove c960 m).2 = false ↔ g.fillOutMove g.activeArmy c960 m = none) ∧
    (m.isValid = true → g.pieceTypeAt m.start.data ≠ Unknown →
      ∃ mv : Move, g.fillOutMove g.activeArmy c960 m = some mv ∧
        g.makeMove c960 m = (g.processMove g.activeArmy mv, true)) := by
  constructor
  · unfold Game.makeMove
    cases hf : g.fillOutMove g.activeArmy c960 m <;> simp
  · intro hv hp
    have hs : synthesizeCastleEnd g.activeArmy m = m := by
      unfold synthesizeCastleEnd
      rw [hv]
      simp
    have hnone : ¬ g.fillOutMove g.activeArmy c960 m = none := by
      rw [fillOutMove_eq_none_iff, hs]
      rintro (h | ⟨-, h⟩)
      · rw [hv] at h
        exact Bool.noConfusion h
      · unfold Game.resolvePiece at h
        split at h
        · exact hp h
        · simp_all
    cases hf : g.fillOutMove g.activeArmy c960 m with
    | none => exact absurd hf hnone
    | some mv =>
      refine ⟨mv, rfl, ?_⟩
      unfold Game.makeMove
      rw [hf]

/-- C9 witness: from the starting position the rook move a1a3 — illegal by
rook movement rules because a pawn sits on a2 — is accepted and applied. -/
theorem C9_no_movement_validation_witness :
    (uciMove "a1a3").isValid = true ∧
    startPos.pieceTypeAt (uciMove "a1a3").start.data ≠ Unknown ∧
    ∃ mv : Move, startPos.fillOutMove startPos.activeArmy false (uciMove "a1a3") = some mv ∧
      startPos.makeMove false (uciMove "a1a3") =
        (startPos.processMove startPos.activeArmy mv, true) :=
  ⟨by decide, by decide,
    (C9_no_movement_validation startPos false (uciMove "a1a3")).2 (by decide) (by decide)⟩

end Allie

namespace Allie

open Army PieceType Castle

/-- A bitboard fails `isClear` exactly when it is nonempty. -/
theorem isClear_false_iff (b : BitBoard) : (!b.isClear) = true ↔ b.Nonempty := by
  simp [BitBoard.isClear, Finset.nonempty_iff_ne_empty]

/-- Membership in the union of the six enemy attack boards. -/
theorem mem_attackBoard (g : Game) (a : Army) (x : Fin 64) :
    x ∈ g.attackBoard a ↔
      (x ∈ g.kingAttackBoard a ∨ x ∈ g.queenAttackBoard a ∨ x ∈ g.rookAttackBoard a ∨
        x ∈ g.bishopAttackBoard a ∨ x ∈ g.knightAttackBoard a ∨ x ∈ g.pawnAttackBoard a) := by
  unfold Game.attackBoard
  simp only [Finset.mem_union, or_assoc]

/-- The result of `isChecked` is exactly the nonemptiness of the
intersection of the king board with the union of all enemy attack boards. -/
theorem checkedIff (g : Game) (a : Army) :
    (g.isChecked a).1 = true ↔
      ((g.colorBoard a ∩ g.board King) ∩ g.attackBoard (otherArmy a)).Nonempty := by
  unfold Game.isChecked
  dsimp only []
  simp only [Bool.or_eq_true]
  rw [isClear_false_iff, isClear_false_iff, isClear_false_iff, isClear_false_iff,
    isClear_false_iff, isClear_false_iff]
  constructor
  · intro hor
    rcases hor with ((((h | h) | h) | h) | h) | h <;> obtain ⟨x, hx⟩ := h <;>
      obtain ⟨h1, h2⟩ := Finset.mem_inter.mp hx
    · exact ⟨x, Finset.mem_inter.mpr ⟨h1, (mem_attackBoard g (otherArmy a) x).mpr
        (Or.inr (Or.inl h2))⟩⟩
    · exact ⟨x, Finset.mem_inter.mpr ⟨h1, (mem_attackBoard g (otherArmy a) x).mpr
        (Or.inr (Or.inr (Or.inl h2)))⟩⟩
    · exact ⟨x, Finset.mem_inter.mpr ⟨h1, (mem_attackBoard g (otherArmy a) x).mpr
        (Or.inr (Or.inr (Or.inr (Or.inl h2))))⟩⟩
    · exact ⟨x, Finset.mem_inter.mpr ⟨h1, (mem_attackBoard g (otherArmy a) x).mpr
        (Or.inr (Or.inr (Or.inr (Or.inr (Or.inl h2)))))⟩⟩
    · exact ⟨x, Finset.mem_inter.mpr ⟨h1, (mem_attackBoard g (otherArmy a) x).mpr
        (Or.inl h2)⟩⟩
    · exact ⟨x, Finset.mem_inter.mpr ⟨h1, (mem_attackBoard g (otherArmy a) x).mpr
        (Or.inr (Or.inr (Or.inr (Or.inr (Or.inr h2)))))⟩⟩
  · rintro ⟨x, hx⟩
    obtain ⟨h1, h2⟩ := Finset.mem_inter.mp hx
    rcases (mem_attackBoard g (otherArmy a) x).mp h2 with h | h | h | h | h | h
    · exact Or.inl (Or.inr ⟨x, Finset.mem_inter.mpr ⟨h1, h⟩⟩)
    · exact Or.inl (Or.inl (Or.inl (Or.inl (Or.inl ⟨x, Finset.mem_inter.mpr ⟨h1, h⟩⟩))))
    · exact Or.inl (Or.inl (Or.inl (Or.inl (Or.inr ⟨x, Finset.mem_inter.mpr ⟨h1, h⟩⟩))))
    · exact Or.inl (Or.inl (Or.inl (Or.inr ⟨x, Finset.mem_inter.mpr ⟨h1, h⟩⟩)))
    · exact Or.inl (Or.inl (Or.inr ⟨x, Finset.mem_inter.mpr ⟨h1, h⟩⟩))
    · exact Or.inr ⟨x, Finset.mem_inter.mpr ⟨h1, h⟩⟩

/-- C8: `is_checked(army)` returns true iff the army's king square meets the
union of the six enemy attack boards; its only mutation is recording the
result in `last_move`'s check flag — every other field is that of the
original position. -/
theorem C8_is_checked_spec (g : Game) (a : Army) :
    ((g.isChecked a).1 = true ↔
      ((g.colorBoard a ∩ g.board King) ∩ g.attackBoard (otherArmy a)).Nonempty) ∧
    (g.isChecked a).2 = { g with lastMove := g.lastMove.setCheck (g.isChecked a).1 } ∧
    (∀ k : Fin 64, g.colorBoard a ∩ g.board King = {k} →
      ((g.isChecked a).1 = true ↔ k ∈ g.attackBoard (otherArmy a))) := by
  refine ⟨checkedIff g a, rfl, fun k hk => ?_⟩
  rw [checkedIff g a, hk]
  constructor
  · rintro ⟨y, hy⟩
    obtain ⟨hy1, hy2⟩ := Finset.mem_inter.mp hy
    rw [Finset.mem_singleton] at hy1
    exact hy1 ▸ hy2
  · intro hmem
    exact ⟨k, Finset.mem_inter.mpr ⟨Finset.mem_singleton_self k, hmem⟩⟩

/-- A position with the white king on e1 checked by a black queen on e2. -/
def gChecked : Game := (default : Game).setFen (fen "4k3/8/8/8/8/8/4q3/4K3 w - - 0 1")

/-- C8 witness: on a concrete position with a unique white king on e1
(index 4), `is_checked` agrees with membership of the king square in the
enemy attack union, and is true. -/
theorem C8_is_checked_spec_witness :
    gChecked.colorBoard White ∩ gChecked.board King = {(4 : Fin 64)} ∧
    ((gChecked.isChecked White).1 = true ↔ (4 : Fin 64) ∈ gChecked.attackBoard Black) ∧
    (gChecked.isChecked White).1 = true :=
  ⟨by decide, (C8_is_checked_spec gChecked White).2.2 4 (by decide), by decide⟩

end Allie

namespace Allie

open Army PieceType Castle

/-- Processing a White then a Black king-side castling character writes the
single shared `file_of_kings_rook` byte twice; the file recorded afterwards
is Black's (the later one), whatever White's character recorded. -/
theorem later_char_overwrites (g : Game) (wk bk : Square) (wr br : List Square)
    (h : (castlingFromFen 'k' bk br).1 = Castle.KingSide) :
    (applyCastlingChar wk bk wr br (applyCastlingChar wk bk wr br g 'K') 'k').fileOfKingsRook =
      (castlingFromFen 'k' bk br).2.file := by
  unfold applyCastlingChar
  have h1 : isUpperChar 'K' = true := by decide
  have h2 : isUpperChar 'k' = false := by decide
  have h3 : charToLower 'K' = 'k' := by decide
  have h4 : charToLower 'k' = 'k' := by decide
  rw [h1, h2, h3, h4]
  simp only [if_true, Bool.false_eq_true, if_false]
  split_ifs with hw <;> simp [h]

/-- C10: the position stores one `file_of_kings_rook` byte shared by both
colors: with castling field `Kk` on a board whose white king-side rook is on
file 7 and whose black king-side rook is on file 6, the later character
(Black's) wins, and subsequent castle processing for both colors uses file 6
— so White's king-side castle is judged illegal (no rook on g1) while
Black's is legal. -/
theorem C10_shared_rook_file :
    (∀ (g : Game) (wk bk : Square) (wr br : List Square),
      (castlingFromFen 'k' bk br).1 = Castle.KingSide →
      (applyCastlingChar wk bk wr br (applyCastlingChar wk bk wr br g 'K') 'k').fileOfKingsRook
        = (castlingFromFen 'k' bk br).2.file) ∧
    gShared.fileOfKingsRook = 6 ∧
    gShared.hasWhiteKingCastle = true ∧
    gShared.hasBlackKingCastle = true ∧
    gShared.hasPieceTypeAt (stringToSquare (fen "h1")).data Rook = true ∧
    gShared.hasPieceTypeAt (stringToSquare (fen "g1")).data Rook = false ∧
    gShared.isCastleLegal White KingSide = false ∧
    gShared.isCastleLegal Black KingSide = true :=
  ⟨later_char_overwrites, by decide, by decide, by decide, by decide, by decide,
    by decide, by decide⟩

/-- C10 witness: the general overwrite law applied to the concrete rook and
king squares of `gShared`. -/
theorem C10_shared_rook_file_witness :
    (castlingFromFen 'k' (stringToSquare (fen "e8"))
      [stringToSquare (fen "a8"), stringToSquare (fen "g8")]).1 = Castle.KingSide ∧
    (applyCastlingChar (stringToSquare (fen "e1")) (stringToSquare (fen "e8"))
        [stringToSquare (fen "a1"), stringToSquare (fen "h1")]
        [stringToSquare (fen "a8"), stringToSquare (fen "g8")]
        (applyCastlingChar (stringToSquare (fen "e1")) (stringToSquare (fen "e8"))
          [stringToSquare (fen "a1"), stringToSquare (fen "h1")]
          [stringToSquare (fen "a8"), stringToSquare (fen "g8")] (default : Game) 'K')
        'k').fileOfKingsRook =
      (castlingFromFen 'k' (stringToSquare (fen "e8"))
        [stringToSquare (fen "a8"), stringToSquare (fen "g8")]).2.file :=
  ⟨by decide,
    C10_shared_rook_file.1 (default : Game) (stringToSquare (fen "e1"))
      (stringToSquare (fen "e8")) [stringToSquare (fen "a1"), stringToSquare (fen "h1")]
      [stringToSquare (fen "a8"), stringToSquare (fen "g8")] (by decide)⟩

end Allie

namespace Allie

open Army PieceType Castle

/-- The king-side castle right of one army. -/
def Game.kingCastleRight (g : Game) : Army → Bool
  | Army.White => g.hasWhiteKingCastle
  | Army.Black => g.hasBlackKingCastle

/-- The queen-side castle right of one army. -/
def Game.queenCastleRight (g : Game) : Army → Bool
  | Army.White => g.hasWhiteQueenCastle
  | Army.Black => g.hasBlackQueenCastle

/-- The capture condition computed by `processMove`: the end square holds an
enemy piece, or the move is an en-passant. -/
def Game.captureForMove (g : Game) (army : Army) (mv : Move) : Bool :=
  g.hasPieceAt mv.endSq.data (otherArmy army) || mv.enPassant

/-- The square index from which `processMove` removes the captured piece. -/
def capturedIndex (army : Army) (mv : Move) : Nat :=
  if mv.enPassant then
    (if army = Army.White then
       (Square.mk2 (mv.endSq.file : Int) ((mv.endSq.rank : Int) - 1)).data
     else
       (Square.mk2 (mv.endSq.file : Int) ((mv.endSq.rank : Int) + 1)).data)
  else mv.endSq.data

theorem togglePieceAt_hasBlackKingCastle (g : Game) (i : Nat) (a : Army) (p : PieceType)
    (v : Bool) : (g.togglePieceAt i a p v).hasBlackKingCastle = g.hasBlackKingCastle := by
  cases p <;> cases a <;> rfl

theorem togglePieceAt_hasWhiteKingCastle (g : Game) (i : Nat) (a : Army) (p : PieceType)
    (v : Bool) : (g.togglePieceAt i a p v).hasWhiteKingCastle = g.hasWhiteKingCastle := by
  cases p <;> cases a <;> rfl

theorem togglePieceAt_hasBlackQueenCastle (g : Game) (i : Nat) (a : Army) (p : PieceType)
    (v : Bool) : (g.togglePieceAt i a p v).hasBlackQueenCastle = g.hasBlackQueenCastle := by
  cases p <;> cases a <;> rfl

theorem togglePieceAt_hasWhiteQueenCastle (g : Game) (i : Nat) (a : Army) (p : PieceType)
    (v : Bool) : (g.togglePieceAt i a p v).hasWhiteQueenCastle = g.hasWhiteQueenCastle := by
  cases p <;> cases a <;> rfl

theorem togglePieceAt_fileOfKingsRook (g : Game) (i : Nat) (a : Army) (p : PieceType)
    (v : Bool) : (g.togglePieceAt i a p v).fileOfKingsRook = g.fileOfKingsRook := by
  cases p <;> cases a <;> rfl

theorem togglePieceAt_fileOfQueensRook (g : Game) (i : Nat) (a : Army) (p : PieceType)
    (v : Bool) : (g.togglePieceAt i a p v).fileOfQueensRook = g.fileOfQueensRook := by
  cases p <;> cases a <;> rfl

/-- `pieceTypeAt` with the eight boards as explicit parameters, used to keep
the probe symbolic while the surrounding state is rewritten. -/
def pieceTypeOn (w b k q r bi n p : BitBoard) (i : Nat) : PieceType :=
  if ((p ∩ w).testBit i || (p ∩ b).testBit i) then Pawn
  else if ((n ∩ w).testBit i || (n ∩ b).testBit i) then Knight
  else if ((bi ∩ w).testBit i || (bi ∩ b).testBit i) then Bishop
  else if ((r ∩ w).testBit i || (r ∩ b).testBit i) then Rook
  else if ((q ∩ w).testBit i || (q ∩ b).testBit i) then Queen
  else if ((k ∩ w).testBit i || (k ∩ b).testBit i) then King
  else Unknown

theorem pieceTypeAt_eq_on (g : Game) (i : Nat) :
    g.pieceTypeAt i = pieceTypeOn g.whitePositionBoard g.blackPositionBoard g.kingsBoard
      g.queensBoard g.rooksBoard g.bishopsBoard g.knightsBoard g.pawnsBoard i := rfl

set_option maxHeartbeats 4000000 in
set_option maxRecDepth 8000 in
/-- How `processMove` updates the opponent's king-side right: it is zeroed
exactly when a capture removes a rook and the move's end-square file equals
`file_of_kings_rook`. -/
theorem processMove_opponent_king_right (g : Game) (a : Army) (mv : Move) :
    (g.processMove a mv).kingCastleRight (otherArmy a) =
      (g.kingCastleRight (otherArmy a) &&
        !(g.captureForMove a mv &&
          decide (g.pieceTypeAt (capturedIndex a mv) = Rook) &&
          decide (mv.endSq.file = g.fileOfKingsRook))) := by
  cases a <;>
    (unfold Game.processMove Game.captureForMove capturedIndex otherArmy Game.kingCastleRight
     dsimp only []
     simp only [pieceTypeAt_eq_on, apply_ite Game.hasBlackKingCastle,
       apply_ite Game.hasWhiteKingCastle,
       togglePieceAt_hasBlackKingCastle, togglePieceAt_hasWhiteKingCastle,
       togglePieceAt_fileOfKingsRook, togglePieceAt_fileOfQueensRook, ite_self,
       Game.hasPieceAt, Game.colorBoard,
       apply_ite Game.whitePositionBoard, apply_ite Game.blackPositionBoard,
       apply_ite Game.kingsBoard, apply_ite Game.queensBoard, apply_ite Game.rooksBoard,
       apply_ite Game.bishopsBoard, apply_ite Game.knightsBoard, apply_ite Game.pawnsBoard,
       apply_ite Game.fileOfKingsRook, apply_ite Game.fileOfQueensRook]
     split_ifs <;> (try dsimp only [] at *) <;>
       simp_all only [Bool.and_true, Bool.and_false, Bool.true_and, Bool.false_and,
         Bool.not_true, Bool.not_false, Bool.and_self, Bool.or_eq_true, decide_eq_true_eq,
         Bool.true_eq_false, Bool.false_eq_true, not_true_eq_false, not_false_eq_true,
         and_self, and_true, true_and, togglePieceAt_fileOfKingsRook,
         togglePieceAt_fileOfQueensRook, decide_True, decide_False, or_false, false_or,
         Bool.or_false, Bool.false_or, Bool.or_true, Bool.true_or])

set_option maxHeartbeats 4000000 in
set_option maxRecDepth 8000 in
/-- How `processMove` updates the opponent's queen-side right: it is zeroed
exactly when a capture removes a rook and the move's end-square file differs
from `file_of_kings_rook` — the queen-rook file is never consulted. -/
theorem processMove_opponent_queen_right (g : Game) (a : Army) (mv : Move) :
    (g.processMove a mv).queenCastleRight (otherArmy a) =
      (g.queenCastleRight (otherArmy a) &&
        !(g.captureForMove a mv &&
          decide (g.pieceTypeAt (capturedIndex a mv) = Rook) &&
          !decide (mv.endSq.file = g.fileOfKingsRook))) := by
  cases a <;>
    (unfold Game.processMove Game.captureForMove capturedIndex otherArmy Game.queenCastleRight
     dsimp only []
     simp only [pieceTypeAt_eq_on, apply_ite Game.hasBlackQueenCastle,
       apply_ite Game.hasWhiteQueenCastle,
       togglePieceAt_hasBlackQueenCastle, togglePieceAt_hasWhiteQueenCastle,
       togglePieceAt_fileOfKingsRook, togglePieceAt_fileOfQueensRook, ite_self,
       Game.hasPieceAt, Game.colorBoard,
       apply_ite Game.whitePositionBoard, apply_ite Game.blackPositionBoard,
       apply_ite Game.kingsBoard, apply_ite Game.queensBoard, apply_ite Game.rooksBoard,
       apply_ite Game.bishopsBoard, apply_ite Game.knightsBoard, apply_ite Game.pawnsBoard,
       apply_ite Game.fileOfKingsRook, apply_ite Game.fileOfQueensRook]
     split_ifs <;> (try dsimp only [] at *) <;>
       simp_all only [Bool.and_true, Bool.and_false, Bool.true_and, Bool.false_and,
         Bool.not_true, Bool.not_false, Bool.and_self, Bool.or_eq_true, decide_eq_true_eq,
         Bool.true_eq_false, Bool.false_eq_true, not_true_eq_false, not_false_eq_true,
         and_self, and_true, true_and, togglePieceAt_fileOfKingsRook,
         togglePieceAt_fileOfQueensRook, decide_True, decide_False, or_false, false_or,
         Bool.or_false, Bool.false_or, Bool.or_true, Bool.true_or])

/-- C1 amended: on every successful `make_move`, the opponent's king-side
right is zeroed exactly when the capture removes a rook whose end-square
file equals `file_of_kings_rook` (any rank), and the opponent's queen-side
right is zeroed exactly when the capture removes a rook on any other file —
even one standing on neither castle-rook starting file; without a rook
capture both rights are unchanged. -/
theorem C1_captured_rook_rights_amended (g : Game) (c960 : Bool) (m mv : Move)
    (h : g.fillOutMove g.activeArmy c960 m = some mv) :
    (g.makeMove c960 m).1.kingCastleRight (otherArmy g.activeArmy) =
      (g.kingCastleRight (otherArmy g.activeArmy) &&
        !(g.captureForMove g.activeArmy mv &&
          decide (g.pieceTypeAt (capturedIndex g.activeArmy mv) = Rook) &&
          decide (mv.endSq.file = g.fileOfKingsRook))) ∧
    (g.makeMove c960 m).1.queenCastleRight (otherArmy g.activeArmy) =
      (g.queenCastleRight (otherArmy g.activeArmy) &&
        !(g.captureForMove g.activeArmy mv &&
          decide (g.pieceTypeAt (capturedIndex g.activeArmy mv) = Rook) &&
          !decide (mv.endSq.file = g.fileOfKingsRook))) := by
  have hm : (g.makeMove c960 m).1 = g.processMove g.activeArmy mv := by
    unfold Game.makeMove
    rw [h]
  rw [hm]
  exact ⟨processMove_opponent_king_right g g.activeArmy mv,
    processMove_opponent_queen_right g g.activeArmy mv⟩

/-- The filled-out form of the move e2e4 from the starting position. -/
def pawnE2E4 : Move :=
  { start := stringToSquare (fen "e2"), endSq := stringToSquare (fen "e4"), piece := Pawn }

/-- C1 witness: the amended right-update law applied to e2e4 from the
starting position. -/
theorem C1_captured_rook_rights_amended_witness :
    startPos.fillOutMove startPos.activeArmy false (uciMove "e2e4") = some pawnE2E4 ∧
    (startPos.makeMove false (uciMove "e2e4")).1.kingCastleRight (otherArmy startPos.activeArmy) =
      (startPos.kingCastleRight (otherArmy startPos.activeArmy) &&
        !(startPos.captureForMove startPos.activeArmy pawnE2E4 &&
          decide (startPos.pieceTypeAt (capturedIndex startPos.activeArmy pawnE2E4) = Rook) &&
          decide (pawnE2E4.endSq.file = startPos.fileOfKingsRook))) :=
  ⟨by decide,
    (C1_captured_rook_rights_amended startPos false (uciMove "e2e4") pawnE2E4 (by decide)).1⟩

end Allie

namespace Allie
open Army PieceType Castle

/-- Membership in the materialized square list of a bitboard. -/
theorem mem_occupiedSquares (b : BitBoard) (x : Square) :
    x ∈ b.occupiedSquares ↔ ∃ i : Fin 64, i ∈ b ∧ x = Square.ofFin i := by
  unfold BitBoard.occupiedSquares
  simp only [List.mem_map, List.mem_filter, List.mem_finRange, true_and, decide_eq_true_eq]
  constructor
  · rintro ⟨i, hi, rfl⟩
    exact ⟨i, hi, rfl⟩
  · rintro ⟨i, hi, rfl⟩
    exact ⟨i, hi, rfl⟩

theorem mem_generateMove (g : Game) (p : PieceType) (s e : Square) (m : Move)
    (h : m ∈ g.generateMove p s e) : m.piece = p ∧ m.start = s ∧ m.endSq = e := by
  unfold Game.generateMove at h
  dsimp only [] at h
  split at h <;> simp only [List.mem_cons, List.mem_singleton, List.not_mem_nil, or_false] at h <;>
    rcases h with rfl | rfl | rfl | rfl <;> exact ⟨rfl, rfl, rfl⟩

theorem mem_movesSection_piece (g : Game) (p : PieceType) (gen : Square → BitBoard) (m : Move)
    (h : m ∈ g.movesSection p gen) : m.piece = p := by
  unfold Game.movesSection at h
  simp only [List.mem_flatMap] at h
  obtain ⟨sq, -, d, -, hm⟩ := h
  exact (mem_generateMove g p sq d m hm).1

theorem finOfCoords_eq_some (f r : Int) (i : Fin 64) (h : finOfCoords f r = some i) :
    0 ≤ f ∧ f < 8 ∧ 0 ≤ r ∧ r < 8 ∧ (i : Nat) = (f + 8 * r).toNat := by
  unfold finOfCoords at h
  split at h
  · simp only [Option.some.injEq] at h
    subst h
    refine ⟨by omega, by omega, by omega, by omega, rfl⟩
  · exact absurd h (by simp)

theorem mem_leaperBoard (sq : Square) (deltas : List (Int × Int)) (i : Fin 64)
    (h : i ∈ leaperBoard sq deltas) :
    ∃ d ∈ deltas, finOfCoords ((sq.file : Int) + d.1) ((sq.rank : Int) + d.2) = some i := by
  unfold leaperBoard at h
  rw [List.mem_toFinset, List.mem_filterMap] at h
  obtain ⟨d, hd, hfc⟩ := h
  exact ⟨d, hd, hfc⟩

theorem ofFin_rank (f r : Int) (i : Fin 64) (h : finOfCoords f r = some i) :
    ((Square.ofFin i).rank : Int) = r := by
  obtain ⟨h1, h2, h3, h4, h5⟩ := finOfCoords_eq_some f r i h
  unfold Square.ofFin Square.rank
  dsimp only []
  omega

theorem ofFin_file (f r : Int) (i : Fin 64) (h : finOfCoords f r = some i) :
    ((Square.ofFin i).file : Int) = f := by
  obtain ⟨h1, h2, h3, h4, h5⟩ := finOfCoords_eq_some f r i h
  unfold Square.ofFin Square.file
  dsimp only []
  omega

theorem pawnAttacks_rank (army : Army) (sq : Square) (friends enemies : BitBoard) (i : Fin 64)
    (h : i ∈ pawnAttacks army sq friends enemies) :
    ((Square.ofFin i).rank : Int) = (sq.rank : Int) + pawnDir army := by
  unfold pawnAttacks at h
  rw [Finset.mem_sdiff, Finset.mem_inter] at h
  obtain ⟨⟨hl, -⟩, -⟩ := h
  obtain ⟨d, hd, hfc⟩ := mem_leaperBoard sq _ i hl
  simp only [List.mem_cons, List.mem_singleton, List.not_mem_nil, or_false] at hd
  rcases hd with rfl | rfl <;> exact ofFin_rank _ _ i hfc

end Allie

namespace Allie
open Army PieceType Castle

theorem pawnPushMoves_mem (g : Game) (friends enemies : BitBoard) (sq : Square) (m : Move)
    (h : m ∈ g.pawnPushMoves friends enemies sq) :
    ∃ d : Square, m.piece = Pawn ∧ m.start = sq ∧ m.endSq = d ∧
      ¬ ((decide (((d.rank : Int) - (sq.rank : Int)).natAbs > 1) &&
          (friends ∪ enemies).testBit
            (Square.mk2 (d.file : Int)
              (if g.activeArmy = Army.White then (d.rank : Int) - 1
               else (d.rank : Int) + 1)).data) = true) := by
  unfold Game.pawnPushMoves at h
  simp only [List.mem_flatMap] at h
  obtain ⟨d, -, h⟩ := h
  by_cases hc : (decide (((d.rank : Int) - (sq.rank : Int)).natAbs > 1) &&
      (friends ∪ enemies).testBit
        (Square.mk2 (d.file : Int)
          (if g.activeArmy = Army.White then (d.rank : Int) - 1
           else (d.rank : Int) + 1)).data) = true
  · rw [if_pos hc] at h
    exact absurd h (List.not_mem_nil m)
  · rw [if_neg hc] at h
    obtain ⟨hp, hs, he⟩ := mem_generateMove g Pawn sq d m h
    exact ⟨d, hp, hs, he, hc⟩

/-- A position with a white pawn on e2 and a black knight on e3. -/
def gBlocked : Game := (default : Game).setFen (fen "4k3/8/8/8/8/4n3/4P3/4K3 w - - 0 1")

/-- C6: `pseudo_legal_moves` never emits a pawn move of two ranks whose
intermediate square (directly ahead of the pawn) is occupied by any piece of
either color; in particular, with a white pawn on e2 and a piece on e3, no
move from e2 to e4 is generated. -/
theorem C6_double_push_blocked :
    (∀ (g : Game) (m : Move), m ∈ g.pseudoLegalMoves → m.piece = Pawn →
      ((m.start.rank : Int) - (m.endSq.rank : Int)).natAbs = 2 →
      (g.colorBoard g.activeArmy ∪ g.colorBoard (otherArmy g.activeArmy)).testBit
        (Square.mk2 (m.endSq.file : Int)
          (if g.activeArmy = Army.White then (m.endSq.rank : Int) - 1
           else (m.endSq.rank : Int) + 1)).data = false) ∧
    (gBlocked.pseudoLegalMoves.all
      (fun m => !(decide (m.start = stringToSquare (fen "e2")) &&
                  decide (m.endSq = stringToSquare (fen "e4")))) = true) := by
  constructor
  · intro g m hm hP hΔ
    unfold Game.pseudoLegalMoves at hm
    dsimp only [] at hm
    simp only [List.mem_append] at hm
    rcases hm with (((((hm | hm) | hm) | hm) | hm) | hm) | hm | hm
    · rw [mem_movesSection_piece g King _ m hm] at hP; exact absurd hP (by simp)
    · rw [mem_movesSection_piece g Queen _ m hm] at hP; exact absurd hP (by simp)
    · rw [mem_movesSection_piece g Rook _ m hm] at hP; exact absurd hP (by simp)
    · rw [mem_movesSection_piece g Bishop _ m hm] at hP; exact absurd hP (by simp)
    · rw [mem_movesSection_piece g Knight _ m hm] at hP; exact absurd hP (by simp)
    · -- pawn section
      unfold Game.pawnSection at hm
      simp only [List.mem_flatMap, List.mem_append] at hm
      obtain ⟨sq, -, hm | hm⟩ := hm
      · -- pushes with the blocker filter
        obtain ⟨d, -, hs, he, hcond⟩ := pawnPushMoves_mem g _ _ sq m hm
        subst hs; subst he
        rw [Bool.and_eq_true, not_and] at hcond
        have hfwd : (((m.endSq.rank : Int) - (m.start.rank : Int)).natAbs > 1) := by omega
        have := hcond (by simpa using hfwd)
        simpa using this
      · -- diagonal attacks move exactly one rank
        obtain ⟨d, hd, hm⟩ := hm
        obtain ⟨-, hs, he⟩ := mem_generateMove g Pawn sq d m hm
        subst hs; subst he
        obtain ⟨i, hi, heq⟩ := (mem_occupiedSquares _ m.endSq).mp hd
        have hr := pawnAttacks_rank g.activeArmy m.start _ _ i hi
        rw [heq] at hΔ
        cases harmy : g.activeArmy <;> rw [harmy] at hr <;>
          simp only [pawnDir] at hr <;> omega
    · -- king-side castle emission: the move's piece is the king
      split at hm
      · rw [List.mem_singleton] at hm
        subst hm
        simp [Game.generateCastle] at hP
      · exact absurd hm (List.not_mem_nil m)
    · split at hm
      · rw [List.mem_singleton] at hm
        subst hm
        simp [Game.generateCastle] at hP
      · exact absurd hm (List.not_mem_nil m)
  · decide

end Allie

namespace Allie
open Army PieceType Castle

def pawnD2D4 : Move :=
  { start := stringToSquare (fen "d2"), endSq := stringToSquare (fen "d4"), piece := Pawn }

/-- C6 witness: d2d4 is generated from the starting position, its rank
distance is two, and its intermediate square d3 is indeed free. -/
theorem C6_double_push_blocked_witness :
    pawnD2D4 ∈ startPos.pseudoLegalMoves ∧
    pawnD2D4.piece = Pawn ∧
    ((pawnD2D4.start.rank : Int) - (pawnD2D4.endSq.rank : Int)).natAbs = 2 ∧
    (startPos.colorBoard startPos.activeArmy ∪
        startPos.colorBoard (otherArmy startPos.activeArmy)).testBit
      (Square.mk2 (pawnD2D4.endSq.file : Int)
        (if startPos.activeArmy = Army.White then (pawnD2D4.endSq.rank : Int) - 1
         else (pawnD2D4.endSq.rank : Int) + 1)).data = false :=
  ⟨by decide, by decide, by decide,
    C6_double_push_blocked.1 startPos pawnD2D4 (by decide) (by decide) (by decide)⟩

end Allie


namespace Allie
open Army PieceType Castle

theorem occupiedSquares_nodup (b : BitBoard) : b.occupiedSquares.Nodup := by
  unfold BitBoard.occupiedSquares
  refine List.Nodup.map ?_ (List.Nodup.filter _ (List.nodup_finRange 64))
  intro i j h
  have : (Square.ofFin i).data = (Square.ofFin j).data := by rw [h]
  exact Fin.ext this

end Allie

namespace Allie
open Army PieceType Castle

theorem filter_flatMap_key {α : Type} [DecidableEq α] (l : List α) (f : α → List Move)
    (pred : Move → Bool) (k : α) (hnd : l.Nodup)
    (hkey : ∀ a ∈ l, ∀ x ∈ f a, pred x = true → a = k) :
    ((l.flatMap f).filter pred) = if k ∈ l then (f k).filter pred else [] := by
  induction l with
  | nil => simp
  | cons a rest ih =>
    rw [List.flatMap_cons, List.filter_append]
    have hnd2 := hnd.of_cons
    have hknotmem := List.Nodup.not_mem hnd
    by_cases hak : a = k
    · subst hak
      have hrest : (rest.flatMap f).filter pred = [] := by
        rw [List.filter_eq_nil]
        intro x hx
        rw [List.mem_flatMap] at hx
        obtain ⟨b, hb, hxb⟩ := hx
        intro hpx
        exact hknotmem (hkey b (List.mem_cons_of_mem a hb) x hxb hpx ▸ hb)
      rw [hrest, if_pos (List.mem_cons_self a rest), List.append_nil]
    · have hfa : (f a).filter pred = [] := by
        rw [List.filter_eq_nil]
        intro x hx hpx
        exact hak (hkey a (List.mem_cons_self a rest) x hx hpx)
      rw [hfa, List.nil_append]
      rw [ih hnd2 (fun b hb x hx hpx => hkey b (List.mem_cons_of_mem a hb) x hx hpx)]
      by_cases hk : k ∈ rest
      · rw [if_pos hk, if_pos (List.mem_cons_of_mem a hk)]
      · rw [if_neg hk, if_neg (by rw [List.mem_cons]; push_neg; exact ⟨fun h => hak h.symm, hk⟩)]

/-- The Bool promotion test inside `Game::generateMove`, as a Prop. -/
def promoFor (army : Army) (e : Square) : Prop :=
  match army with
  | Army.White => e.rank = 7
  | Army.Black => e.rank = 0

instance (army : Army) (e : Square) : Decidable (promoFor army e) := by
  unfold promoFor
  cases army <;> infer_instance

theorem generateMove_promo (g : Game) (s e : Square) (h : promoFor g.activeArmy e) :
    g.generateMove Pawn s e =
      [{ start := s, endSq := e, piece := Pawn,
         capture := (g.colorBoard (otherArmy g.activeArmy)).testBit e.data,
         promotion := Queen },
       { start := s, endSq := e, piece := Pawn,
         capture := (g.colorBoard (otherArmy g.activeArmy)).testBit e.data,
         promotion := Knight },
       { start := s, endSq := e, piece := Pawn,
         capture := (g.colorBoard (otherArmy g.activeArmy)).testBit e.data,
         promotion := Rook },
       { start := s, endSq := e, piece := Pawn,
         capture := (g.colorBoard (otherArmy g.activeArmy)).testBit e.data,
         promotion := Bishop }] := by
  unfold Game.generateMove
  unfold promoFor at h
  cases harmy : g.activeArmy <;> rw [harmy] at h <;> simp [harmy, h]

theorem generateMove_nonpromo (g : Game) (p : PieceType) (s e : Square)
    (h : ¬ (p = Pawn ∧ promoFor g.activeArmy e)) :
    g.generateMove p s e =
      [{ start := s, endSq := e, piece := p,
         capture := (g.colorBoard (otherArmy g.activeArmy)).testBit e.data }] := by
  unfold Game.generateMove
  unfold promoFor at h
  cases harmy : g.activeArmy <;> rw [harmy] at h <;>
    by_cases hp : p = Pawn <;> simp_all

theorem generateMove_castle_false (g : Game) (p : PieceType) (s e : Square) (m : Move)
    (h : m ∈ g.generateMove p s e) : m.castle = false ∧ m.enPassant = false := by
  unfold Game.generateMove at h
  dsimp only [] at h
  split at h <;> simp only [List.mem_cons, List.mem_singleton, List.not_mem_nil, or_false] at h <;>
    rcases h with rfl | rfl | rfl | rfl <;> exact ⟨rfl, rfl⟩

theorem movesSection_start (g : Game) (p : PieceType) (gen : Square → BitBoard) (x : Move)
    (h : x ∈ g.movesSection p gen) :
    ∃ i : Fin 64, i ∈ (g.colorBoard g.activeArmy ∩ g.board p) ∧ x.start = Square.ofFin i := by
  unfold Game.movesSection at h
  simp only [List.mem_flatMap] at h
  obtain ⟨sq, hsq, d, -, hx⟩ := h
  rw [mem_occupiedSquares] at hsq
  obtain ⟨i, hi, rfl⟩ := hsq
  exact ⟨i, hi, (mem_generateMove g p (Square.ofFin i) d x hx).2.1⟩

theorem movesSection_castle_false (g : Game) (p : PieceType) (gen : Square → BitBoard) (x : Move)
    (h : x ∈ g.movesSection p gen) : x.castle = false := by
  unfold Game.movesSection at h
  simp only [List.mem_flatMap] at h
  obtain ⟨sq, -, d, -, hx⟩ := h
  exact (generateMove_castle_false g p sq d x hx).1

theorem pawnSection_mem (g : Game) (x : Move) (h : x ∈ g.pawnSection) :
    x.piece = Pawn ∧ x.castle = false ∧
    ∃ i : Fin 64, i ∈ (g.colorBoard g.activeArmy ∩ g.board Pawn) ∧ x.start = Square.ofFin i := by
  unfold Game.pawnSection at h
  simp only [List.mem_flatMap, List.mem_append] at h
  obtain ⟨sq, hsq, hx | hx⟩ := h
  · rw [mem_occupiedSquares] at hsq
    obtain ⟨i, hi, rfl⟩ := hsq
    unfold Game.pawnPushMoves at hx
    simp only [List.mem_flatMap] at hx
    obtain ⟨d, -, hx⟩ := hx
    by_cases hc : (decide (((d.rank : Int) - ((Square.ofFin i).rank : Int)).natAbs > 1) &&
        (g.colorBoard g.activeArmy ∪ g.colorBoard (otherArmy g.activeArmy)).testBit
          (Square.mk2 (d.file : Int)
            (if g.activeArmy = Army.White then (d.rank : Int) - 1
             else (d.rank : Int) + 1)).data) = true
    · rw [if_pos hc] at hx
      exact absurd hx (List.not_mem_nil x)
    · rw [if_neg hc] at hx
      obtain ⟨hp, hs, -⟩ := mem_generateMove g Pawn (Square.ofFin i) d x hx
      exact ⟨hp, (generateMove_castle_false g Pawn (Square.ofFin i) d x hx).1, i, hi, hs⟩
  · rw [mem_occupiedSquares] at hsq
    obtain ⟨i, hi, rfl⟩ := hsq
    obtain ⟨d, -, hx⟩ := hx
    obtain ⟨hp, hs, -⟩ := mem_generateMove g Pawn (Square.ofFin i) d x hx
    exact ⟨hp, (generateMove_castle_false g Pawn (Square.ofFin i) d x hx).1, i, hi, hs⟩

theorem pawnMoves_file (army : Army) (sq : Square) (friends enemies : BitBoard) (i : Fin 64)
    (h : i ∈ pawnMoves army sq friends enemies) :
    ((Square.ofFin i).file : Int) = (sq.file : Int) := by
  unfold pawnMoves at h
  dsimp only [] at h
  rw [Finset.mem_union] at h
  rcases h with h | h
  · split at h
    · rename_i s1 heq
      split at h
      · exact absurd h (Finset.not_mem_empty i)
      · rw [Finset.mem_singleton] at h
        subst h
        exact ofFin_file _ _ i heq
    · exact absurd h (Finset.not_mem_empty i)
  · split at h
    · rename_i s1 s2 heq1 heq2
      split at h
      · rw [Finset.mem_singleton] at h
        subst h
        exact ofFin_file _ _ i heq2
      · exact absurd h (Finset.not_mem_empty i)
    · exact absurd h (Finset.not_mem_empty i)

theorem pawnAttacks_file (army : Army) (sq : Square) (friends enemies : BitBoard) (i : Fin 64)
    (h : i ∈ pawnAttacks army sq friends enemies) :
    ((Square.ofFin i).file : Int) = (sq.file : Int) + 1 ∨
    ((Square.ofFin i).file : Int) = (sq.file : Int) - 1 := by
  unfold pawnAttacks at h
  rw [Finset.mem_sdiff, Finset.mem_inter] at h
  obtain ⟨⟨hl, -⟩, -⟩ := h
  obtain ⟨d, hd, hfc⟩ := mem_leaperBoard sq _ i hl
  simp only [List.mem_cons, List.mem_singleton, List.not_mem_nil, or_false] at hd
  rcases hd with rfl | rfl
  · right
    have := ofFin_file _ _ i hfc
    omega
  · left
    have := ofFin_file _ _ i hfc
    omega

end Allie

namespace Allie
open Army PieceType Castle

theorem filter_movesSection_nil_of_start (g : Game) (p : PieceType) (gen : Square → BitBoard)
    (pred : Move → Bool) (j : Fin 64) (hj : j ∈ g.board Pawn)
    (hdisj : g.board p ∩ g.board Pawn = (∅ : BitBoard))
    (hpred : ∀ x, pred x = true → x.start = Square.ofFin j) :
    (g.movesSection p gen).filter pred = [] := by
  rw [List.filter_eq_nil]
  intro x hx hpx
  obtain ⟨i, hi, hxs⟩ := movesSection_start g p gen x hx
  have hs := hpred x hpx
  rw [hxs] at hs
  have hij : i = j := Fin.ext (congrArg Square.data hs)
  subst hij
  rw [Finset.mem_inter] at hi
  have hmem : i ∈ g.board p ∩ g.board Pawn := Finset.mem_inter.mpr ⟨hi.2, hj⟩
  rw [hdisj] at hmem
  exact absurd hmem (Finset.not_mem_empty i)

theorem filter_castles_nil_of_start (g : Game) (j : Fin 64)
    (hj : j ∈ g.board Pawn)
    (hdisj : g.board King ∩ g.board Pawn = (∅ : BitBoard))
    (pred : Move → Bool)
    (hpred : ∀ x, pred x = true → x.start = Square.ofFin j) :
    (((if g.isCastleLegal g.activeArmy Castle.KingSide
        then [g.generateCastle g.activeArmy Castle.KingSide] else []) ++
      (if g.isCastleLegal g.activeArmy Castle.QueenSide
        then [g.generateCastle g.activeArmy Castle.QueenSide] else [])).filter pred) = [] := by
  rw [List.filter_eq_nil]
  intro x hx hpx
  have hcastle : ∃ side, x = g.generateCastle g.activeArmy side := by
    rw [List.mem_append] at hx
    rcases hx with hx | hx
    · split at hx
      · rw [List.mem_singleton] at hx
        exact ⟨Castle.KingSide, hx⟩
      · exact absurd hx (List.not_mem_nil x)
    · split at hx
      · rw [List.mem_singleton] at hx
        exact ⟨Castle.QueenSide, hx⟩
      · exact absurd hx (List.not_mem_nil x)
  obtain ⟨side, rfl⟩ := hcastle
  have hs := hpred _ hpx
  unfold Game.generateCastle at hs
  dsimp only [] at hs
  rcases hlist : (g.board King ∩ g.colorBoard g.activeArmy).occupiedSquares with _ | ⟨a, t⟩
  · rw [hlist] at hs
    have : (Square.invalid).data = (Square.ofFin j).data := congrArg Square.data hs
    unfold Square.invalid Square.ofFin at this
    dsimp only [] at this
    omega
  · rw [hlist] at hs
    have ha : a ∈ (g.board King ∩ g.colorBoard g.activeArmy).occupiedSquares := by
      rw [hlist]; exact List.mem_cons_self a t
    rw [mem_occupiedSquares] at ha
    obtain ⟨i, hi, rfl⟩ := ha
    have hij : i = j := Fin.ext (congrArg Square.data hs)
    subst hij
    rw [Finset.mem_inter] at hi
    have hmem : i ∈ g.board King ∩ g.board Pawn := Finset.mem_inter.mpr ⟨hi.1, hj⟩
    rw [hdisj] at hmem
    exact absurd hmem (Finset.not_mem_empty i)

end Allie

namespace Allie
open Army PieceType Castle

theorem filter_genFlatMap_of_mem (g : Game) (p : PieceType) (sq : Square) (dests : List Square)
    (hnd : dests.Nodup) (m : Move)
    (hm : m ∈ dests.flatMap (fun d => g.generateMove p sq d))
    (pred : Move → Bool) (hpred : ∀ x, pred x = true → x.endSq = m.endSq) :
    (dests.flatMap (fun d => g.generateMove p sq d)).filter pred =
      (g.generateMove p sq m.endSq).filter pred := by
  have hkey : ∀ d ∈ dests, ∀ x ∈ g.generateMove p sq d, pred x = true → d = m.endSq := by
    intro d hd x hx hpx
    rw [← hpred x hpx]
    exact ((mem_generateMove g p sq d x hx).2.2).symm
  rw [filter_flatMap_key dests _ pred m.endSq hnd hkey]
  rw [List.mem_flatMap] at hm
  obtain ⟨d, hd, hmd⟩ := hm
  have : d = m.endSq := ((mem_generateMove g p sq d m hmd).2.2).symm
  rw [if_pos (this ▸ hd)]

theorem filter_genFlatMap_nil (g : Game) (p : PieceType) (sq : Square) (dests : List Square)
    (e : Square) (hne : e ∉ dests)
    (pred : Move → Bool) (hpred : ∀ x, pred x = true → x.endSq = e) :
    (dests.flatMap (fun d => g.generateMove p sq d)).filter pred = [] := by
  rw [List.filter_eq_nil]
  intro x hx hpx
  rw [List.mem_flatMap] at hx
  obtain ⟨d, hd, hxd⟩ := hx
  have : d = e := by
    rw [← hpred x hpx]
    exact ((mem_generateMove g p sq d x hxd).2.2).symm
  exact hne (this ▸ hd)

theorem filter_movesSection_of_mem (g : Game) (p : PieceType) (gen : Square → BitBoard) (m : Move)
    (hm : m ∈ g.movesSection p gen) (pred : Move → Bool)
    (hpred : ∀ x, pred x = true → x.start = m.start ∧ x.endSq = m.endSq) :
    (g.movesSection p gen).filter pred = (g.generateMove p m.start m.endSq).filter pred := by
  unfold Game.movesSection at hm ⊢
  dsimp only [] at hm ⊢
  have hkey : ∀ sq ∈ (g.colorBoard g.activeArmy ∩ g.board p).occupiedSquares,
      ∀ x ∈ (gen sq).occupiedSquares.flatMap (fun d => g.generateMove p sq d),
      pred x = true → sq = m.start := by
    intro sq hsq x hx hpx
    rw [List.mem_flatMap] at hx
    obtain ⟨d, hd, hxd⟩ := hx
    rw [← (hpred x hpx).1]
    exact ((mem_generateMove g p sq d x hxd).2.1).symm
  rw [filter_flatMap_key _ _ pred m.start (occupiedSquares_nodup _) hkey]
  rw [List.mem_flatMap] at hm
  obtain ⟨sq, hsq, hmsq⟩ := hm
  have hstart : sq = m.start := by
    rw [List.mem_flatMap] at hmsq
    obtain ⟨d, hd, hmd⟩ := hmsq
    exact ((mem_generateMove g p sq d m hmd).2.1).symm
  subst hstart
  rw [if_pos hsq]
  exact filter_genFlatMap_of_mem g p m.start _ (occupiedSquares_nodup _) m hmsq pred
    (fun x hx => (hpred x hx).2)

theorem filter_movesSection_nil_of_piece (g : Game) (p : PieceType) (gen : Square → BitBoard)
    (pred : Move → Bool) (pc : PieceType) (hpred : ∀ x, pred x = true → x.piece = pc)
    (hne : pc ≠ p) :
    (g.movesSection p gen).filter pred = [] := by
  rw [List.filter_eq_nil]
  intro x hx hpx
  exact hne ((hpred x hpx) ▸ mem_movesSection_piece g p gen x hx)

theorem filter_pawnSection_nil_of_piece (g : Game) (pred : Move → Bool) (pc : PieceType)
    (hpred : ∀ x, pred x = true → x.piece = pc) (hne : pc ≠ Pawn) :
    g.pawnSection.filter pred = [] := by
  rw [List.filter_eq_nil]
  intro x hx hpx
  exact hne ((hpred x hpx) ▸ (pawnSection_mem g x hx).1)

theorem filter_movesSection_nil_of_castle (g : Game) (p : PieceType) (gen : Square → BitBoard)
    (pred : Move → Bool) (hpred : ∀ x, pred x = true → x.castle = true) :
    (g.movesSection p gen).filter pred = [] := by
  rw [List.filter_eq_nil]
  intro x hx hpx
  exact Bool.false_ne_true
    ((movesSection_castle_false g p gen x hx).symm.trans (hpred x hpx))

theorem filter_pawnSection_nil_of_castle (g : Game) (pred : Move → Bool)
    (hpred : ∀ x, pred x = true → x.castle = true) :
    g.pawnSection.filter pred = [] := by
  rw [List.filter_eq_nil]
  intro x hx hpx
  exact Bool.false_ne_true (((pawnSection_mem g x hx).2.1).symm.trans (hpred x hpx))

theorem filter_castles_nil_of_castle_false (g : Game) (pred : Move → Bool)
    (hpred : ∀ x, pred x = true → x.castle = false) :
    (((if g.isCastleLegal g.activeArmy Castle.KingSide
        then [g.generateCastle g.activeArmy Castle.KingSide] else []) ++
      (if g.isCastleLegal g.activeArmy Castle.QueenSide
        then [g.generateCastle g.activeArmy Castle.QueenSide] else [])).filter pred) = [] := by
  rw [List.filter_eq_nil]
  intro x hx hpx
  have hcastle : x.castle = true := by
    rw [List.mem_append] at hx
    rcases hx with hx | hx
    · split at hx
      · rw [List.mem_singleton] at hx
        rw [hx]
        rfl
      · exact absurd hx (List.not_mem_nil x)
    · split at hx
      · rw [List.mem_singleton] at hx
        rw [hx]
        rfl
      · exact absurd hx (List.not_mem_nil x)
  rw [hpred x hpx] at hcastle
  exact Bool.false_ne_true hcastle

end Allie

namespace Allie
open Army PieceType Castle

theorem filter_pawnPushMoves_of_mem (g : Game) (friends enemies : BitBoard) (sq : Square)
    (m : Move) (hm : m ∈ g.pawnPushMoves friends enemies sq)
    (pred : Move → Bool) (hpred : ∀ x, pred x = true → x.endSq = m.endSq) :
    (g.pawnPushMoves friends enemies sq).filter pred =
      (g.generateMove Pawn sq m.endSq).filter pred := by
  unfold Game.pawnPushMoves at hm ⊢
  simp only [] at hm ⊢
  have hkey : ∀ d ∈ (pawnMoves g.activeArmy sq friends enemies).occupiedSquares,
      ∀ x ∈ (if (decide (((d.rank : Int) - (sq.rank : Int)).natAbs > 1) &&
              (friends ∪ enemies).testBit
                (Square.mk2 (d.file : Int)
                  (if g.activeArmy = Army.White then (d.rank : Int) - 1
                   else (d.rank : Int) + 1)).data) = true
            then ([] : List Move) else g.generateMove Pawn sq d),
      pred x = true → d = m.endSq := by
    intro d hd x hx hpx
    by_cases hc : (decide (((d.rank : Int) - (sq.rank : Int)).natAbs > 1) &&
        (friends ∪ enemies).testBit
          (Square.mk2 (d.file : Int)
            (if g.activeArmy = Army.White then (d.rank : Int) - 1
             else (d.rank : Int) + 1)).data) = true
    · rw [if_pos hc] at hx
      exact absurd hx (List.not_mem_nil x)
    · rw [if_neg hc] at hx
      rw [← hpred x hpx]
      exact ((mem_generateMove g Pawn sq d x hx).2.2).symm
  rw [filter_flatMap_key _ _ pred m.endSq (occupiedSquares_nodup _) hkey]
  rw [List.mem_flatMap] at hm
  obtain ⟨d, hd, hmd⟩ := hm
  by_cases hc : (decide (((d.rank : Int) - (sq.rank : Int)).natAbs > 1) &&
      (friends ∪ enemies).testBit
        (Square.mk2 (d.file : Int)
          (if g.activeArmy = Army.White then (d.rank : Int) - 1
           else (d.rank : Int) + 1)).data) = true
  · rw [if_pos hc] at hmd
    exact absurd hmd (List.not_mem_nil m)
  · rw [if_neg hc] at hmd
    have hde : d = m.endSq := ((mem_generateMove g Pawn sq d m hmd).2.2).symm
    subst hde
    rw [if_pos hd, if_neg hc]

theorem filter_pawnPushMoves_nil (g : Game) (friends enemies : BitBoard) (sq : Square)
    (e : Square) (hne : e ∉ (pawnMoves g.activeArmy sq friends enemies).occupiedSquares)
    (pred : Move → Bool) (hpred : ∀ x, pred x = true → x.endSq = e) :
    (g.pawnPushMoves friends enemies sq).filter pred = [] := by
  rw [List.filter_eq_nil]
  intro x hx hpx
  unfold Game.pawnPushMoves at hx
  rw [List.mem_flatMap] at hx
  obtain ⟨d, hd, hxd⟩ := hx
  by_cases hc : (decide (((d.rank : Int) - (sq.rank : Int)).natAbs > 1) &&
      (friends ∪ enemies).testBit
        (Square.mk2 (d.file : Int)
          (if g.activeArmy = Army.White then (d.rank : Int) - 1
           else (d.rank : Int) + 1)).data) = true
  · rw [if_pos hc] at hxd
    exact absurd hxd (List.not_mem_nil x)
  · rw [if_neg hc] at hxd
    have : d = e := by
      rw [← hpred x hpx]
      exact ((mem_generateMove g Pawn sq d x hxd).2.2).symm
    exact hne (this ▸ hd)

theorem pawnPushMoves_endSq_push (g : Game) (friends enemies : BitBoard) (sq : Square)
    (m : Move) (hm : m ∈ g.pawnPushMoves friends enemies sq) :
    m.endSq ∈ (pawnMoves g.activeArmy sq friends enemies).occupiedSquares := by
  unfold Game.pawnPushMoves at hm
  rw [List.mem_flatMap] at hm
  obtain ⟨d, hd, hmd⟩ := hm
  by_cases hc : (decide (((d.rank : Int) - (sq.rank : Int)).natAbs > 1) &&
      (friends ∪ enemies).testBit
        (Square.mk2 (d.file : Int)
          (if g.activeArmy = Army.White then (d.rank : Int) - 1
           else (d.rank : Int) + 1)).data) = true
  · rw [if_pos hc] at hmd
    exact absurd hmd (List.not_mem_nil m)
  · rw [if_neg hc] at hmd
    exact ((mem_generateMove g Pawn sq d m hmd).2.2).symm ▸ hd

end Allie

namespace Allie
open Army PieceType Castle

theorem filter_pawnSection_of_mem (g : Game) (m : Move) (hm : m ∈ g.pawnSection)
    (pred : Move → Bool)
    (hpred : ∀ x, pred x = true → x.start = m.start ∧ x.endSq = m.endSq) :
    g.pawnSection.filter pred = (g.generateMove Pawn m.start m.endSq).filter pred := by
  unfold Game.pawnSection at hm ⊢
  simp only [] at hm ⊢
  have hkey : ∀ sq ∈ (g.colorBoard g.activeArmy ∩ g.board Pawn).occupiedSquares,
      ∀ x ∈ (g.pawnPushMoves (g.colorBoard g.activeArmy)
               (g.colorBoard (otherArmy g.activeArmy)) sq ++
             (pawnAttacks g.activeArmy sq (g.colorBoard g.activeArmy)
               (if g.enPassantTarget.isValid
                then (g.colorBoard (otherArmy g.activeArmy)).setSquare g.enPassantTarget
                else g.colorBoard (otherArmy g.activeArmy))).occupiedSquares.flatMap
               (fun d => g.generateMove Pawn sq d)),
      pred x = true → sq = m.start := by
    intro sq hsq x hx hpx
    rw [List.mem_append] at hx
    rcases hx with hx | hx
    · obtain ⟨d, -, hxs, -, -⟩ := pawnPushMoves_mem g _ _ sq x hx
      rw [← (hpred x hpx).1, hxs]
    · rw [List.mem_flatMap] at hx
      obtain ⟨d, -, hxd⟩ := hx
      rw [← (hpred x hpx).1]
      exact ((mem_generateMove g Pawn sq d x hxd).2.1).symm
  rw [filter_flatMap_key _ _ pred m.start (occupiedSquares_nodup _) hkey]
  rw [List.mem_flatMap] at hm
  obtain ⟨sq, hsq, hmF⟩ := hm
  have hstart : sq = m.start := by
    rw [List.mem_append] at hmF
    rcases hmF with hx | hx
    · obtain ⟨d, -, hxs, -, -⟩ := pawnPushMoves_mem g _ _ sq m hx
      exact hxs.symm
    · rw [List.mem_flatMap] at hx
      obtain ⟨d, -, hxd⟩ := hx
      exact ((mem_generateMove g Pawn sq d m hxd).2.1).symm
  subst hstart
  rw [if_pos hsq, List.filter_append]
  rw [List.mem_append] at hmF
  rcases hmF with hmP | hmA
  · rw [filter_pawnPushMoves_of_mem g _ _ m.start m hmP pred (fun x hx => (hpred x hx).2)]
    have hne : m.endSq ∉ (pawnAttacks g.activeArmy m.start (g.colorBoard g.activeArmy)
        (if g.enPassantTarget.isValid
         then (g.colorBoard (otherArmy g.activeArmy)).setSquare g.enPassantTarget
         else g.colorBoard (otherArmy g.activeArmy))).occupiedSquares := by
      intro hmemA
      rw [mem_occupiedSquares] at hmemA
      obtain ⟨ia, hia, hEa⟩ := hmemA
      have hfa := pawnAttacks_file _ _ _ _ ia hia
      have hp := pawnPushMoves_endSq_push g _ _ m.start m hmP
      rw [mem_occupiedSquares] at hp
      obtain ⟨ip, hip, hEp⟩ := hp
      have hfp := pawnMoves_file _ _ _ _ ip hip
      rw [← hEa] at hfa
      rw [← hEp] at hfp
      rcases hfa with hfa | hfa <;> omega
    rw [filter_genFlatMap_nil g Pawn m.start _ m.endSq hne pred
      (fun x hx => (hpred x hx).2), List.append_nil]
  · rw [filter_genFlatMap_of_mem g Pawn m.start _ (occupiedSquares_nodup _) m hmA pred
      (fun x hx => (hpred x hx).2)]
    have hne : m.endSq ∉ (pawnMoves g.activeArmy m.start (g.colorBoard g.activeArmy)
        (g.colorBoard (otherArmy g.activeArmy))).occupiedSquares := by
      intro hmemP
      rw [mem_occupiedSquares] at hmemP
      obtain ⟨ip, hip, hEp⟩ := hmemP
      have hfp := pawnMoves_file _ _ _ _ ip hip
      rw [List.mem_flatMap] at hmA
      obtain ⟨d, hd, hmd⟩ := hmA
      have hde : d = m.endSq := ((mem_generateMove g Pawn m.start d m hmd).2.2).symm
      subst hde
      rw [mem_occupiedSquares] at hd
      obtain ⟨ia, hia, hEa⟩ := hd
      have hfa := pawnAttacks_file _ _ _ _ ia hia
      rw [← hEa] at hfa
      rw [← hEp] at hfp
      rcases hfa with hfa | hfa <;> omega
    rw [filter_pawnPushMoves_nil g _ _ m.start m.endSq hne pred
      (fun x hx => (hpred x hx).2), List.nil_append]

end Allie

namespace Allie
open Army PieceType Castle

theorem filter_pseudoLegalMoves_pawn (g : Game) (m : Move)
    (hdisj : ∀ p q : PieceType, p ≠ q → g.board p ∩ g.board q = (∅ : BitBoard))
    (j : Fin 64) (hj : j ∈ g.board Pawn) (hjs : m.start = Square.ofFin j)
    (hm : m ∈ g.pawnSection)
    (pred : Move → Bool)
    (hpred : ∀ x, pred x = true → x.start = m.start ∧ x.endSq = m.endSq) :
    g.pseudoLegalMoves.filter pred = (g.generateMove Pawn m.start m.endSq).filter pred := by
  have hpredj : ∀ x, pred x = true → x.start = Square.ofFin j := by
    intro x hx
    rw [← hjs]
    exact (hpred x hx).1
  unfold Game.pseudoLegalMoves
  simp only [] 
  rw [List.filter_append, List.filter_append, List.filter_append, List.filter_append,
      List.filter_append, List.filter_append]
  rw [filter_movesSection_nil_of_start g King _ pred j hj (hdisj King Pawn (by simp)) hpredj]
  rw [filter_movesSection_nil_of_start g Queen _ pred j hj (hdisj Queen Pawn (by simp)) hpredj]
  rw [filter_movesSection_nil_of_start g Rook _ pred j hj (hdisj Rook Pawn (by simp)) hpredj]
  rw [filter_movesSection_nil_of_start g Bishop _ pred j hj (hdisj Bishop Pawn (by simp)) hpredj]
  rw [filter_movesSection_nil_of_start g Knight _ pred j hj (hdisj Knight Pawn (by simp)) hpredj]
  rw [filter_castles_nil_of_start g j hj (hdisj King Pawn (by simp)) pred hpredj]
  rw [filter_pawnSection_of_mem g m hm pred hpred]
  simp

theorem mem_pawnSection_self (g : Game) (m : Move) (hm : m ∈ g.pawnSection) :
    m ∈ g.generateMove Pawn m.start m.endSq := by
  unfold Game.pawnSection at hm
  simp only [] at hm
  rw [List.mem_flatMap] at hm
  obtain ⟨sq, -, hmF⟩ := hm
  rw [List.mem_append] at hmF
  rcases hmF with hx | hx
  · unfold Game.pawnPushMoves at hx
    rw [List.mem_flatMap] at hx
    obtain ⟨d, -, hmd⟩ := hx
    by_cases hc : (decide (((d.rank : Int) - (sq.rank : Int)).natAbs > 1) &&
        (g.colorBoard g.activeArmy ∪ g.colorBoard (otherArmy g.activeArmy)).testBit
          (Square.mk2 (d.file : Int)
            (if g.activeArmy = Army.White then (d.rank : Int) - 1
             else (d.rank : Int) + 1)).data) = true
    · rw [if_pos hc] at hmd
      exact absurd hmd (List.not_mem_nil m)
    · rw [if_neg hc] at hmd
      obtain ⟨-, hs, he⟩ := mem_generateMove g Pawn sq d m hmd
      rw [hs, he]
      exact hmd
  · rw [List.mem_flatMap] at hx
    obtain ⟨d, -, hmd⟩ := hx
    obtain ⟨-, hs, he⟩ := mem_generateMove g Pawn sq d m hmd
    rw [hs, he]
    exact hmd

theorem mem_movesSection_self (g : Game) (p : PieceType) (gen : Square → BitBoard) (m : Move)
    (hm : m ∈ g.movesSection p gen) : m ∈ g.generateMove p m.start m.endSq := by
  unfold Game.movesSection at hm
  simp only [List.mem_flatMap] at hm
  obtain ⟨sq, -, d, -, hmd⟩ := hm
  obtain ⟨-, hs, he⟩ := mem_generateMove g p sq d m hmd
  rw [hs, he]
  exact hmd

end Allie

namespace Allie
open Army PieceType Castle

theorem countP_self_pseudoLegal (g : Game) (m : Move) (hm : m ∈ g.pseudoLegalMoves)
    (hnonpromo : ¬ (m.piece = Pawn ∧ promoFor g.activeArmy m.endSq))
    (hdisj : ∀ p q : PieceType, p ≠ q → g.board p ∩ g.board q = (∅ : BitBoard)) :
    m.promotion = Unknown ∧
      g.pseudoLegalMoves.countP (fun x => decide (x = m)) = 1 := by
  have hx' : ∀ x : Move, (decide (x = m) : Bool) = true → x = m :=
    fun x hx => of_decide_eq_true hx
  have hpred_se : ∀ x : Move, (decide (x = m) : Bool) = true →
      x.start = m.start ∧ x.endSq = m.endSq :=
    fun x hx => by rw [hx' x hx]; exact ⟨rfl, rfl⟩
  have hmOrig := hm
  unfold Game.pseudoLegalMoves at hmOrig
  simp only [List.mem_append] at hmOrig
  rcases hmOrig with (((((hsec | hsec) | hsec) | hsec) | hsec) | hsec) | hsec | hsec
  · -- king section
    have hpc : m.piece = King := mem_movesSection_piece g King _ m hsec
    have hcf : m.castle = false := movesSection_castle_false g King _ m hsec
    have hmm : m ∈ g.generateMove King m.start m.endSq := mem_movesSection_self g King _ m hsec
    have hgen := generateMove_nonpromo g King m.start m.endSq
      (by rintro ⟨h, -⟩; exact absurd h (by simp))
    rw [hgen, List.mem_singleton] at hmm
    refine ⟨by rw [hmm], ?_⟩
    have hpred_piece : ∀ x : Move, (decide (x = m) : Bool) = true → x.piece = King :=
      fun x hx => by rw [hx' x hx]; exact hpc
    have hpred_castle : ∀ x : Move, (decide (x = m) : Bool) = true → x.castle = false :=
      fun x hx => by rw [hx' x hx]; exact hcf
    rw [List.countP_eq_length_filter]
    unfold Game.pseudoLegalMoves
    simp only []
    rw [List.filter_append, List.filter_append, List.filter_append, List.filter_append,
        List.filter_append, List.filter_append]
    rw [filter_movesSection_of_mem g King _ m hsec _ hpred_se]
    rw [filter_movesSection_nil_of_piece g Queen _ _ King hpred_piece (by simp)]
    rw [filter_movesSection_nil_of_piece g Rook _ _ King hpred_piece (by simp)]
    rw [filter_movesSection_nil_of_piece g Bishop _ _ King hpred_piece (by simp)]
    rw [filter_movesSection_nil_of_piece g Knight _ _ King hpred_piece (by simp)]
    rw [filter_pawnSection_nil_of_piece g _ King hpred_piece (by simp)]
    rw [filter_castles_nil_of_castle_false g _ hpred_castle]
    rw [hgen, ← hmm]
    simp
  · -- queen section
    have hpc : m.piece = Queen := mem_movesSection_piece g Queen _ m hsec
    have hcf : m.castle = false := movesSection_castle_false g Queen _ m hsec
    have hmm : m ∈ g.generateMove Queen m.start m.endSq := mem_movesSection_self g Queen _ m hsec
    have hgen := generateMove_nonpromo g Queen m.start m.endSq
      (by rintro ⟨h, -⟩; exact absurd h (by simp))
    rw [hgen, List.mem_singleton] at hmm
    refine ⟨by rw [hmm], ?_⟩
    have hpred_piece : ∀ x : Move, (decide (x = m) : Bool) = true → x.piece = Queen :=
      fun x hx => by rw [hx' x hx]; exact hpc
    have hpred_castle : ∀ x : Move, (decide (x = m) : Bool) = true → x.castle = false :=
      fun x hx => by rw [hx' x hx]; exact hcf
    rw [List.countP_eq_length_filter]
    unfold Game.pseudoLegalMoves
    simp only []
    rw [List.filter_append, List.filter_append, List.filter_append, List.filter_append,
        List.filter_append, List.filter_append]
    rw [filter_movesSection_of_mem g Queen _ m hsec _ hpred_se]
    rw [filter_movesSection_nil_of_piece g King _ _ Queen hpred_piece (by simp)]
    rw [filter_movesSection_nil_of_piece g Rook _ _ Queen hpred_piece (by simp)]
    rw [filter_movesSection_nil_of_piece g Bishop _ _ Queen hpred_piece (by simp)]
    rw [filter_movesSection_nil_of_piece g Knight _ _ Queen hpred_piece (by simp)]
    rw [filter_pawnSection_nil_of_piece g _ Queen hpred_piece (by simp)]
    rw [filter_castles_nil_of_castle_false g _ hpred_castle]
    rw [hgen, ← hmm]
    simp
  · -- rook section
    have hpc : m.piece = Rook := mem_movesSection_piece g Rook _ m hsec
    have hcf : m.castle = false := movesSection_castle_false g Rook _ m hsec
    have hmm : m ∈ g.generateMove Rook m.start m.endSq := mem_movesSection_self g Rook _ m hsec
    have hgen := generateMove_nonpromo g Rook m.start m.endSq
      (by rintro ⟨h, -⟩; exact absurd h (by simp))
    rw [hgen, List.mem_singleton] at hmm
    refine ⟨by rw [hmm], ?_⟩
    have hpred_piece : ∀ x : Move, (decide (x = m) : Bool) = true → x.piece = Rook :=
      fun x hx => by rw [hx' x hx]; exact hpc
    have hpred_castle : ∀ x : Move, (decide (x = m) : Bool) = true → x.castle = false :=
      fun x hx => by rw [hx' x hx]; exact hcf
    rw [List.countP_eq_length_filter]
    unfold Game.pseudoLegalMoves
    simp only []
    rw [List.filter_append, List.filter_append, List.filter_append, List.filter_append,
        List.filter_append, List.filter_append]
    rw [filter_movesSection_of_mem g Rook _ m hsec _ hpred_se]
    rw [filter_movesSection_nil_of_piece g King _ _ Rook hpred_piece (by simp)]
    rw [filter_movesSection_nil_of_piece g Queen _ _ Rook hpred_piece (by simp)]
    rw [filter_movesSection_nil_of_piece g Bishop _ _ Rook hpred_piece (by simp)]
    rw [filter_movesSection_nil_of_piece g Knight _ _ Rook hpred_piece (by simp)]
    rw [filter_pawnSection_nil_of_piece g _ Rook hpred_piece (by simp)]
    rw [filter_castles_nil_of_castle_false g _ hpred_castle]
    rw [hgen, ← hmm]
    simp
  · -- bishop section
    have hpc : m.piece = Bishop := mem_movesSection_piece g Bishop _ m hsec
    have hcf : m.castle = false := movesSection_castle_false g Bishop _ m hsec
    have hmm : m ∈ g.generateMove Bishop m.start m.endSq :=
      mem_movesSection_self g Bishop _ m hsec
    have hgen := generateMove_nonpromo g Bishop m.start m.endSq
      (by rintro ⟨h, -⟩; exact absurd h (by simp))
    rw [hgen, List.mem_singleton] at hmm
    refine ⟨by rw [hmm], ?_⟩
    have hpred_piece : ∀ x : Move, (decide (x = m) : Bool) = true → x.piece = Bishop :=
      fun x hx => by rw [hx' x hx]; exact hpc
    have hpred_castle : ∀ x : Move, (decide (x = m) : Bool) = true → x.castle = false :=
      fun x hx => by rw [hx' x hx]; exact hcf
    rw [List.countP_eq_length_filter]
    unfold Game.pseudoLegalMoves
    simp only []
    rw [List.filter_append, List.filter_append, List.filter_append, List.filter_append,
        List.filter_append, List.filter_append]
    rw [filter_movesSection_of_mem g Bishop _ m hsec _ hpred_se]
    rw [filter_movesSection_nil_of_piece g King _ _ Bishop hpred_piece (by simp)]
    rw [filter_movesSection_nil_of_piece g Queen _ _ Bishop hpred_piece (by simp)]
    rw [filter_movesSection_nil_of_piece g Rook _ _ Bishop hpred_piece (by simp)]
    rw [filter_movesSection_nil_of_piece g Knight _ _ Bishop hpred_piece (by simp)]
    rw [filter_pawnSection_nil_of_piece g _ Bishop hpred_piece (by simp)]
    rw [filter_castles_nil_of_castle_false g _ hpred_castle]
    rw [hgen, ← hmm]
    simp
  · -- knight section
    have hpc : m.piece = Knight := mem_movesSection_piece g Knight _ m hsec
    have hcf : m.castle = false := movesSection_castle_false g Knight _ m hsec
    have hmm : m ∈ g.generateMove Knight m.start m.endSq :=
      mem_movesSection_self g Knight _ m hsec
    have hgen := generateMove_nonpromo g Knight m.start m.endSq
      (by rintro ⟨h, -⟩; exact absurd h (by simp))
    rw [hgen, List.mem_singleton] at hmm
    refine ⟨by rw [hmm], ?_⟩
    have hpred_piece : ∀ x : Move, (decide (x = m) : Bool) = true → x.piece = Knight :=
      fun x hx => by rw [hx' x hx]; exact hpc
    have hpred_castle : ∀ x : Move, (decide (x = m) : Bool) = true → x.castle = false :=
      fun x hx => by rw [hx' x hx]; exact hcf
    rw [List.countP_eq_length_filter]
    unfold Game.pseudoLegalMoves
    simp only []
    rw [List.filter_append, List.filter_append, List.filter_append, List.filter_append,
        List.filter_append, List.filter_append]
    rw [filter_movesSection_of_mem g Knight _ m hsec _ hpred_se]
    rw [filter_movesSection_nil_of_piece g King _ _ Knight hpred_piece (by simp)]
    rw [filter_movesSection_nil_of_piece g Queen _ _ Knight hpred_piece (by simp)]
    rw [filter_movesSection_nil_of_piece g Rook _ _ Knight hpred_piece (by simp)]
    rw [filter_movesSection_nil_of_piece g Bishop _ _ Knight hpred_piece (by simp)]
    rw [filter_pawnSection_nil_of_piece g _ Knight hpred_piece (by simp)]
    rw [filter_castles_nil_of_castle_false g _ hpred_castle]
    rw [hgen, ← hmm]
    simp
  · -- pawn section
    obtain ⟨hpc, hcf, j, hj, hjs⟩ := pawnSection_mem g m hsec
    have hnLast : ¬ promoFor g.activeArmy m.endSq := fun h => hnonpromo ⟨hpc, h⟩
    have hmm : m ∈ g.generateMove Pawn m.start m.endSq := mem_pawnSection_self g m hsec
    have hgen := generateMove_nonpromo g Pawn m.start m.endSq
      (by rintro ⟨-, h⟩; exact hnLast h)
    rw [hgen, List.mem_singleton] at hmm
    refine ⟨by rw [hmm], ?_⟩
    rw [List.countP_eq_length_filter]
    rw [filter_pseudoLegalMoves_pawn g m hdisj j (Finset.mem_inter.mp hj).2 hjs hsec _ hpred_se]
    rw [hgen, ← hmm]
    simp
  · -- king-side castle
    split at hsec
    case isTrue hKS =>
      rw [List.mem_singleton] at hsec
      refine ⟨by rw [hsec]; rfl, ?_⟩
      have hcT : m.castle = true := by rw [hsec]; rfl
      have hpred_castle : ∀ x : Move, (decide (x = m) : Bool) = true → x.castle = true :=
        fun x hx => by rw [hx' x hx]; exact hcT
      rw [List.countP_eq_length_filter]
      unfold Game.pseudoLegalMoves
      simp only []
      rw [List.filter_append, List.filter_append, List.filter_append, List.filter_append,
          List.filter_append, List.filter_append, List.filter_append]
      rw [filter_movesSection_nil_of_castle g King _ _ hpred_castle]
      rw [filter_movesSection_nil_of_castle g Queen _ _ hpred_castle]
      rw [filter_movesSection_nil_of_castle g Rook _ _ hpred_castle]
      rw [filter_movesSection_nil_of_castle g Bishop _ _ hpred_castle]
      rw [filter_movesSection_nil_of_castle g Knight _ _ hpred_castle]
      rw [filter_pawnSection_nil_of_castle g _ hpred_castle]
      rw [if_pos hKS]
      have hneQS : ¬ (g.generateCastle g.activeArmy Castle.QueenSide = m) := by
        rw [hsec]
        intro h
        have := congrArg Move.castleSide h
        unfold Game.generateCastle at this
        exact absurd this (by simp)
      rw [← hsec]
      by_cases hQS : g.isCastleLegal g.activeArmy Castle.QueenSide
      · rw [if_pos hQS]
        simp [List.filter, hneQS]
      · rw [if_neg hQS]
        simp [List.filter]
    case isFalse =>
      exact absurd hsec (List.not_mem_nil m)
  · -- queen-side castle
    split at hsec
    case isTrue hQS =>
      rw [List.mem_singleton] at hsec
      refine ⟨by rw [hsec]; rfl, ?_⟩
      have hcT : m.castle = true := by rw [hsec]; rfl
      have hpred_castle : ∀ x : Move, (decide (x = m) : Bool) = true → x.castle = true :=
        fun x hx => by rw [hx' x hx]; exact hcT
      rw [List.countP_eq_length_filter]
      unfold Game.pseudoLegalMoves
      simp only []
      rw [List.filter_append, List.filter_append, List.filter_append, List.filter_append,
          List.filter_append, List.filter_append, List.filter_append]
      rw [filter_movesSection_nil_of_castle g King _ _ hpred_castle]
      rw [filter_movesSection_nil_of_castle g Queen _ _ hpred_castle]
      rw [filter_movesSection_nil_of_castle g Rook _ _ hpred_castle]
      rw [filter_movesSection_nil_of_castle g Bishop _ _ hpred_castle]
      rw [filter_movesSection_nil_of_castle g Knight _ _ hpred_castle]
      rw [filter_pawnSection_nil_of_castle g _ hpred_castle]
      rw [if_pos hQS]
      have hneKS : ¬ (g.generateCastle g.activeArmy Castle.KingSide = m) := by
        rw [hsec]
        intro h
        have := congrArg Move.castleSide h
        unfold Game.generateCastle at this
        exact absurd this (by simp)
      rw [← hsec]
      by_cases hKS : g.isCastleLegal g.activeArmy Castle.KingSide
      · rw [if_pos hKS]
        simp [List.filter, hneKS]
      · rw [if_neg hKS]
        simp [List.filter]
    case isFalse =>
      exact absurd hsec (List.not_mem_nil m)

end Allie

namespace Allie
open Army PieceType Castle

theorem mem_pawnSection_of_pawn (g : Game) (m : Move) (hm : m ∈ g.pseudoLegalMoves)
    (hP : m.piece = Pawn) : m ∈ g.pawnSection := by
  unfold Game.pseudoLegalMoves at hm
  simp only [List.mem_append] at hm
  rcases hm with (((((hm | hm) | hm) | hm) | hm) | hm) | hm | hm
  · rw [mem_movesSection_piece g King _ m hm] at hP
    exact absurd hP (by simp)
  · rw [mem_movesSection_piece g Queen _ m hm] at hP
    exact absurd hP (by simp)
  · rw [mem_movesSection_piece g Rook _ m hm] at hP
    exact absurd hP (by simp)
  · rw [mem_movesSection_piece g Bishop _ m hm] at hP
    exact absurd hP (by simp)
  · rw [mem_movesSection_piece g Knight _ m hm] at hP
    exact absurd hP (by simp)
  · exact hm
  · split at hm
    · rw [List.mem_singleton] at hm
      rw [hm] at hP
      exact absurd hP (by simp [Game.generateCastle])
    · exact absurd hm (List.not_mem_nil m)
  · split at hm
    · rw [List.mem_singleton] at hm
      rw [hm] at hP
      exact absurd hP (by simp [Game.generateCastle])
    · exact absurd hm (List.not_mem_nil m)

theorem promo_counts_pseudoLegal (g : Game) (m : Move) (hm : m ∈ g.pseudoLegalMoves)
    (hdisj : ∀ p q : PieceType, p ≠ q → g.board p ∩ g.board q = (∅ : BitBoard))
    (hP : m.piece = Pawn) (hLast : promoFor g.activeArmy m.endSq) :
    g.pseudoLegalMoves.countP
        (fun x => decide (x.start = m.start) && decide (x.endSq = m.endSq)) = 4 ∧
      ∀ p, p ∈ [Queen, Knight, Rook, Bishop] →
        g.pseudoLegalMoves.countP
          (fun x => decide (x.start = m.start) && decide (x.endSq = m.endSq) &&
            decide (x.promotion = p)) = 1 := by
  have hmP : m ∈ g.pawnSection := mem_pawnSection_of_pawn g m hm hP
  obtain ⟨-, -, j, hj, hjs⟩ := pawnSection_mem g m hmP
  have hjPawn : j ∈ g.board Pawn := (Finset.mem_inter.mp hj).2
  constructor
  · rw [List.countP_eq_length_filter]
    rw [filter_pseudoLegalMoves_pawn g m hdisj j hjPawn hjs hmP _
      (by intro x hx; simp only [Bool.and_eq_true, decide_eq_true_eq] at hx; exact hx)]
    rw [generateMove_promo g m.start m.endSq hLast]
    simp
  · intro p hp
    rw [List.countP_eq_length_filter]
    rw [filter_pseudoLegalMoves_pawn g m hdisj j hjPawn hjs hmP _
      (by intro x hx; simp only [Bool.and_eq_true, decide_eq_true_eq] at hx
          exact ⟨hx.1.1, hx.1.2⟩)]
    rw [generateMove_promo g m.start m.endSq hLast]
    simp only [List.mem_cons, List.not_mem_nil, or_false] at hp
    rcases hp with rfl | rfl | rfl | rfl <;> simp

end Allie

namespace Allie
open Army PieceType Castle

/-- A position with a white pawn on a7 about to promote. -/
def gPromo : Game := (default : Game).setFen (fen "4k3/P7/8/8/8/8/8/4K3 w - - 0 1")

/-- The queen-promotion push a7a8q in `gPromo`. -/
def mPromo : Move :=
  { start := stringToSquare (fen "a7"), endSq := stringToSquare (fen "a8"),
    piece := Pawn, promotion := Queen }

/-- C7: in a position whose piece boards are pairwise disjoint (the board
invariants), every pawn move that `pseudo_legal_moves` emits to the mover's
last rank comes with exactly four emitted moves sharing its start and end
square — one per promotion piece Queen, Knight, Rook, Bishop — and every
emitted move that is not a pawn move to the last rank carries no promotion
and is emitted exactly once. -/
theorem C7_promotion_expansion (g : Game) (hInv : g.boardInvariant) (m : Move)
    (hm : m ∈ g.pseudoLegalMoves) :
    (m.piece = Pawn ∧ promoFor g.activeArmy m.endSq →
      g.pseudoLegalMoves.countP
          (fun x => decide (x.start = m.start) && decide (x.endSq = m.endSq)) = 4 ∧
        ∀ p, p ∈ [Queen, Knight, Rook, Bishop] →
          g.pseudoLegalMoves.countP
            (fun x => decide (x.start = m.start) && decide (x.endSq = m.endSq) &&
              decide (x.promotion = p)) = 1) ∧
    (¬ (m.piece = Pawn ∧ promoFor g.activeArmy m.endSq) →
      m.promotion = Unknown ∧
        g.pseudoLegalMoves.countP (fun x => decide (x = m)) = 1) := by
  constructor
  · rintro ⟨hP, hLast⟩
    exact promo_counts_pseudoLegal g m hm hInv.2.1 hP hLast
  · intro hnp
    exact countP_self_pseudoLegal g m hm hnp hInv.2.1

/-- C7 witness: in the concrete promotion position `gPromo`, the board
invariants hold, the queen-promotion push a7a8q is emitted, and exactly four
moves from a7 to a8 are emitted. -/
theorem C7_promotion_expansion_witness :
    gPromo.boardInvariant ∧ mPromo ∈ gPromo.pseudoLegalMoves ∧
      gPromo.pseudoLegalMoves.countP
        (fun x => decide (x.start = mPromo.start) && decide (x.endSq = mPromo.endSq)) = 4 :=
  ⟨by decide, by decide,
    ((C7_promotion_expansion gPromo (by decide) mPromo (by decide)).1
      ⟨by decide, by decide⟩).1⟩

end Allie

namespace Allie
open Army PieceType Castle

theorem togglePieceAt_white_white (g : Game) (i : Nat) (p : PieceType) (v : Bool) :
    (g.togglePieceAt i Army.White p v).whitePositionBoard = g.whitePositionBoard.setBit i v := by
  cases p <;> rfl

theorem togglePieceAt_white_black (g : Game) (i : Nat) (p : PieceType) (v : Bool) :
    (g.togglePieceAt i Army.Black p v).whitePositionBoard = g.whitePositionBoard := by
  cases p <;> rfl

theorem togglePieceAt_black_black (g : Game) (i : Nat) (p : PieceType) (v : Bool) :
    (g.togglePieceAt i Army.Black p v).blackPositionBoard = g.blackPositionBoard.setBit i v := by
  cases p <;> rfl

theorem togglePieceAt_black_white (g : Game) (i : Nat) (p : PieceType) (v : Bool) :
    (g.togglePieceAt i Army.White p v).blackPositionBoard = g.blackPositionBoard := by
  cases p <;> rfl

theorem togglePieceAt_kings (g : Game) (i : Nat) (a : Army) (p : PieceType) (v : Bool) :
    (g.togglePieceAt i a p v).kingsBoard =
      if p = King then g.kingsBoard.setBit i v else g.kingsBoard := by
  cases p <;> cases a <;> simp [Game.togglePieceAt, Game.setPieceBoard, Game.setColorBoard,
    Game.board, Game.colorBoard]

theorem togglePieceAt_queens (g : Game) (i : Nat) (a : Army) (p : PieceType) (v : Bool) :
    (g.togglePieceAt i a p v).queensBoard =
      if p = Queen then g.queensBoard.setBit i v else g.queensBoard := by
  cases p <;> cases a <;> simp [Game.togglePieceAt, Game.setPieceBoard, Game.setColorBoard,
    Game.board, Game.colorBoard]

theorem togglePieceAt_rooks (g : Game) (i : Nat) (a : Army) (p : PieceType) (v : Bool) :
    (g.togglePieceAt i a p v).rooksBoard =
      if p = Rook then g.rooksBoard.setBit i v else g.rooksBoard := by
  cases p <;> cases a <;> simp [Game.togglePieceAt, Game.setPieceBoard, Game.setColorBoard,
    Game.board, Game.colorBoard]

theorem togglePieceAt_bishops (g : Game) (i : Nat) (a : Army) (p : PieceType) (v : Bool) :
    (g.togglePieceAt i a p v).bishopsBoard =
      if p = Bishop then g.bishopsBoard.setBit i v else g.bishopsBoard := by
  cases p <;> cases a <;> simp [Game.togglePieceAt, Game.setPieceBoard, Game.setColorBoard,
    Game.board, Game.colorBoard]

theorem togglePieceAt_knights (g : Game) (i : Nat) (a : Army) (p : PieceType) (v : Bool) :
    (g.togglePieceAt i a p v).knightsBoard =
      if p = Knight then g.knightsBoard.setBit i v else g.knightsBoard := by
  cases p <;> cases a <;> simp [Game.togglePieceAt, Game.setPieceBoard, Game.setColorBoard,
    Game.board, Game.colorBoard]

theorem togglePieceAt_pawns (g : Game) (i : Nat) (a : Army) (p : PieceType) (v : Bool) :
    (g.togglePieceAt i a p v).pawnsBoard =
      if p = Pawn then g.pawnsBoard.setBit i v else g.pawnsBoard := by
  cases p <;> cases a <;> simp [Game.togglePieceAt, Game.setPieceBoard, Game.setColorBoard,
    Game.board, Game.colorBoard]

set_option maxHeartbeats 2000000 in
theorem processMove_white_whiteBoard (g : Game) (mv : Move) :
    (g.processMove Army.White mv).whitePositionBoard =
      (if mv.castle = true then
        (if mv.castleSide = Castle.KingSide then
          (((g.whitePositionBoard.setBit mv.start.data false).setBit
              (Square.mk2 (g.fileOfKingsRook : Int) 0).data false).setBit
              (Square.mk2 5 0).data true).setBit (Square.mk2 6 0).data true
         else
          (((g.whitePositionBoard.setBit mv.start.data false).setBit
              (Square.mk2 (g.fileOfQueensRook : Int) 0).data false).setBit
              (Square.mk2 3 0).data true).setBit (Square.mk2 2 0).data true)
       else (g.whitePositionBoard.setBit mv.start.data false).setBit mv.endSq.data true) := by
  unfold Game.processMove
  dsimp only []
  simp only [apply_ite Game.whitePositionBoard, togglePieceAt_white_white,
    togglePieceAt_white_black, togglePieceAt_fileOfKingsRook, togglePieceAt_fileOfQueensRook,
    apply_ite Game.fileOfKingsRook, apply_ite Game.fileOfQueensRook, ite_self]

end Allie

namespace Allie
open Army PieceType Castle

set_option maxHeartbeats 2000000 in
theorem processMove_white_blackBoard (g : Game) (mv : Move) :
    (g.processMove Army.White mv).blackPositionBoard =
      (if g.captureForMove Army.White mv = true then
        g.blackPositionBoard.setBit (capturedIndex Army.White mv) false
       else g.blackPositionBoard) := by
  unfold Game.processMove
  dsimp only []
  simp only [Game.captureForMove, capturedIndex, otherArmy, Game.hasPieceAt, Game.colorBoard,
    pieceTypeAt_eq_on, ite_self, if_true, if_false, eq_self_iff_true, reduceCtorEq,
    apply_ite Game.whitePositionBoard, apply_ite Game.blackPositionBoard,
    apply_ite Game.kingsBoard, apply_ite Game.queensBoard, apply_ite Game.rooksBoard,
    apply_ite Game.bishopsBoard, apply_ite Game.knightsBoard, apply_ite Game.pawnsBoard,
    apply_ite Game.fileOfKingsRook, apply_ite Game.fileOfQueensRook,
    togglePieceAt_white_white, togglePieceAt_white_black, togglePieceAt_black_black,
    togglePieceAt_black_white, togglePieceAt_kings, togglePieceAt_queens, togglePieceAt_rooks,
    togglePieceAt_bishops, togglePieceAt_knights, togglePieceAt_pawns,
    togglePieceAt_fileOfKingsRook, togglePieceAt_fileOfQueensRook]

set_option maxHeartbeats 2000000 in
theorem processMove_white_kingsBoard (g : Game) (mv : Move) :
    (g.processMove Army.White mv).kingsBoard =
      (let b1 := if g.captureForMove Army.White mv = true then
           (if g.pieceTypeAt (capturedIndex Army.White mv) = King then
              g.kingsBoard.setBit (capturedIndex Army.White mv) false else g.kingsBoard)
         else g.kingsBoard
       let b2 := if mv.piece = King then b1.setBit mv.start.data false else b1
       if mv.castle = true then
         (if mv.castleSide = Castle.KingSide then
            b2.setBit (Square.mk2 6 0).data true
          else
            b2.setBit (Square.mk2 2 0).data true)
       else
         if mv.promotion ≠ Unknown then
           (if mv.promotion = King then b2.setBit mv.endSq.data true else b2)
         else (if mv.piece = King then b2.setBit mv.endSq.data true else b2)) := by
  unfold Game.processMove
  dsimp only []
  simp only [Game.captureForMove, capturedIndex, otherArmy, Game.hasPieceAt, Game.colorBoard,
    pieceTypeAt_eq_on, ite_self, if_true, if_false, eq_self_iff_true, reduceCtorEq,
    apply_ite Game.whitePositionBoard, apply_ite Game.blackPositionBoard,
    apply_ite Game.kingsBoard, apply_ite Game.queensBoard, apply_ite Game.rooksBoard,
    apply_ite Game.bishopsBoard, apply_ite Game.knightsBoard, apply_ite Game.pawnsBoard,
    apply_ite Game.fileOfKingsRook, apply_ite Game.fileOfQueensRook,
    togglePieceAt_white_white, togglePieceAt_white_black, togglePieceAt_black_black,
    togglePieceAt_black_white, togglePieceAt_kings, togglePieceAt_queens, togglePieceAt_rooks,
    togglePieceAt_bishops, togglePieceAt_knights, togglePieceAt_pawns,
    togglePieceAt_fileOfKingsRook, togglePieceAt_fileOfQueensRook]

set_option maxHeartbeats 2000000 in
theorem processMove_white_queensBoard (g : Game) (mv : Move) :
    (g.processMove Army.White mv).queensBoard =
      (let b1 := if g.captureForMove Army.White mv = true then
           (if g.pieceTypeAt (capturedIndex Army.White mv) = Queen then
              g.queensBoard.setBit (capturedIndex Army.White mv) false else g.queensBoard)
         else g.queensBoard
       let b2 := if mv.piece = Queen then b1.setBit mv.start.data false else b1
       if mv.castle = true then
         (if mv.castleSide = Castle.KingSide then
            b2
          else
            b2)
       else
         if mv.promotion ≠ Unknown then
           (if mv.promotion = Queen then b2.setBit mv.endSq.data true else b2)
         else (if mv.piece = Queen then b2.setBit mv.endSq.data true else b2)) := by
  unfold Game.processMove
  dsimp only []
  simp only [Game.captureForMove, capturedIndex, otherArmy, Game.hasPieceAt, Game.colorBoard,
    pieceTypeAt_eq_on, ite_self, if_true, if_false, eq_self_iff_true, reduceCtorEq,
    apply_ite Game.whitePositionBoard, apply_ite Game.blackPositionBoard,
    apply_ite Game.kingsBoard, apply_ite Game.queensBoard, apply_ite Game.rooksBoard,
    apply_ite Game.bishopsBoard, apply_ite Game.knightsBoard, apply_ite Game.pawnsBoard,
    apply_ite Game.fileOfKingsRook, apply_ite Game.fileOfQueensRook,
    togglePieceAt_white_white, togglePieceAt_white_black, togglePieceAt_black_black,
    togglePieceAt_black_white, togglePieceAt_kings, togglePieceAt_queens, togglePieceAt_rooks,
    togglePieceAt_bishops, togglePieceAt_knights, togglePieceAt_pawns,
    togglePieceAt_fileOfKingsRook, togglePieceAt_fileOfQueensRook]

set_option maxHeartbeats 2000000 in
theorem processMove_white_rooksBoard (g : Game) (mv : Move) :
    (g.processMove Army.White mv).rooksBoard =
      (let b1 := if g.captureForMove Army.White mv = true then
           (if g.pieceTypeAt (capturedIndex Army.White mv) = Rook then
              g.rooksBoard.setBit (capturedIndex Army.White mv) false else g.rooksBoard)
         else g.rooksBoard
       let b2 := if mv.piece = Rook then b1.setBit mv.start.data false else b1
       if mv.castle = true then
         (if mv.castleSide = Castle.KingSide then
            (b2.setBit (Square.mk2 (g.fileOfKingsRook : Int) 0).data false).setBit (Square.mk2 5 0).data true
          else
            (b2.setBit (Square.mk2 (g.fileOfQueensRook : Int) 0).data false).setBit (Square.mk2 3 0).data true)
       else
         if mv.promotion ≠ Unknown then
           (if mv.promotion = Rook then b2.setBit mv.endSq.data true else b2)
         else (if mv.piece = Rook then b2.setBit mv.endSq.data true else b2)) := by
  unfold Game.processMove
  dsimp only []
  simp only [Game.captureForMove, capturedIndex, otherArmy, Game.hasPieceAt, Game.colorBoard,
    pieceTypeAt_eq_on, ite_self, if_true, if_false, eq_self_iff_true, reduceCtorEq,
    apply_ite Game.whitePositionBoard, apply_ite Game.blackPositionBoard,
    apply_ite Game.kingsBoard, apply_ite Game.queensBoard, apply_ite Game.rooksBoard,
    apply_ite Game.bishopsBoard, apply_ite Game.knightsBoard, apply_ite Game.pawnsBoard,
    apply_ite Game.fileOfKingsRook, apply_ite Game.fileOfQueensRook,
    togglePieceAt_white_white, togglePieceAt_white_black, togglePieceAt_black_black,
    togglePieceAt_black_white, togglePieceAt_kings, togglePieceAt_queens, togglePieceAt_rooks,
    togglePieceAt_bishops, togglePieceAt_knights, togglePieceAt_pawns,
    togglePieceAt_fileOfKingsRook, togglePieceAt_fileOfQueensRook]

set_option maxHeartbeats 2000000 in
theorem processMove_white_bishopsBoard (g : Game) (mv : Move) :
    (g.processMove Army.White mv).bishopsBoard =
      (let b1 := if g.captureForMove Army.White mv = true then
           (if g.pieceTypeAt (capturedIndex Army.White mv) = Bishop then
              g.bishopsBoard.setBit (capturedIndex Army.White mv) false else g.bishopsBoard)
         else g.bishopsBoard
       let b2 := if mv.piece = Bishop then b1.setBit mv.start.data false else b1
       if mv.castle = true then
         (if mv.castleSide = Castle.KingSide then
            b2
          else
            b2)
       else
         if mv.promotion ≠ Unknown then
           (if mv.promotion = Bishop then b2.setBit mv.endSq.data true else b2)
         else (if mv.piece = Bishop then b2.setBit mv.endSq.data true else b2)) := by
  unfold Game.processMove
  dsimp only []
  simp only [Game.captureForMove, capturedIndex, otherArmy, Game.hasPieceAt, Game.colorBoard,
    pieceTypeAt_eq_on, ite_self, if_true, if_false, eq_self_iff_true, reduceCtorEq,
    apply_ite Game.whitePositionBoard, apply_ite Game.blackPositionBoard,
    apply_ite Game.kingsBoard, apply_ite Game.queensBoard, apply_ite Game.rooksBoard,
    apply_ite Game.bishopsBoard, apply_ite Game.knightsBoard, apply_ite Game.pawnsBoard,
    apply_ite Game.fileOfKingsRook, apply_ite Game.fileOfQueensRook,
    togglePieceAt_white_white, togglePieceAt_white_black, togglePieceAt_black_black,
    togglePieceAt_black_white, togglePieceAt_kings, togglePieceAt_queens, togglePieceAt_rooks,
    togglePieceAt_bishops, togglePieceAt_knights, togglePieceAt_pawns,
    togglePieceAt_fileOfKingsRook, togglePieceAt_fileOfQueensRook]

set_option maxHeartbeats 2000000 in
theorem processMove_white_knightsBoard (g : Game) (mv : Move) :
    (g.processMove Army.White mv).knightsBoard =
      (let b1 := if g.captureForMove Army.White mv = true then
           (if g.pieceTypeAt (capturedIndex Army.White mv) = Knight then
              g.knightsBoard.setBit (capturedIndex Army.White mv) false else g.knightsBoard)
         else g.knightsBoard
       let b2 := if mv.piece = Knight then b1.setBit mv.start.data false else b1
       if mv.castle = true then
         (if mv.castleSide = Castle.KingSide then
            b2
          else
            b2)
       else
         if mv.promotion ≠ Unknown then
           (if mv.promotion = Knight then b2.setBit mv.endSq.data true else b2)
         else (if mv.piece = Knight then b2.setBit mv.endSq.data true else b2)) := by
  unfold Game.processMove
  dsimp only []
  simp only [Game.captureForMove, capturedIndex, otherArmy, Game.hasPieceAt, Game.colorBoard,
    pieceTypeAt_eq_on, ite_self, if_true, if_false, eq_self_iff_true, reduceCtorEq,
    apply_ite Game.whitePositionBoard, apply_ite Game.blackPositionBoard,
    apply_ite Game.kingsBoard, apply_ite Game.queensBoard, apply_ite Game.rooksBoard,
    apply_ite Game.bishopsBoard, apply_ite Game.knightsBoard, apply_ite Game.pawnsBoard,
    apply_ite Game.fileOfKingsRook, apply_ite Game.fileOfQueensRook,
    togglePieceAt_white_white, togglePieceAt_white_black, togglePieceAt_black_black,
    togglePieceAt_black_white, togglePieceAt_kings, togglePieceAt_queens, togglePieceAt_rooks,
    togglePieceAt_bishops, togglePieceAt_knights, togglePieceAt_pawns,
    togglePieceAt_fileOfKingsRook, togglePieceAt_fileOfQueensRook]

set_option maxHeartbeats 2000000 in
theorem processMove_white_pawnsBoard (g : Game) (mv : Move) :
    (g.processMove Army.White mv).pawnsBoard =
      (let b1 := if g.captureForMove Army.White mv = true then
           (if g.pieceTypeAt (capturedIndex Army.White mv) = Pawn then
              g.pawnsBoard.setBit (capturedIndex Army.White mv) false else g.pawnsBoard)
         else g.pawnsBoard
       let b2 := if mv.piece = Pawn then b1.setBit mv.start.data false else b1
       if mv.castle = true then
         (if mv.castleSide = Castle.KingSide then
            b2
          else
            b2)
       else
         if mv.promotion ≠ Unknown then
           (if mv.promotion = Pawn then b2.setBit mv.endSq.data true else b2)
         else (if mv.piece = Pawn then b2.setBit mv.endSq.data true else b2)) := by
  unfold Game.processMove
  dsimp only []
  simp only [Game.captureForMove, capturedIndex, otherArmy, Game.hasPieceAt, Game.colorBoard,
    pieceTypeAt_eq_on, ite_self, if_true, if_false, eq_self_iff_true, reduceCtorEq,
    apply_ite Game.whitePositionBoard, apply_ite Game.blackPositionBoard,
    apply_ite Game.kingsBoard, apply_ite Game.queensBoard, apply_ite Game.rooksBoard,
    apply_ite Game.bishopsBoard, apply_ite Game.knightsBoard, apply_ite Game.pawnsBoard,
    apply_ite Game.fileOfKingsRook, apply_ite Game.fileOfQueensRook,
    togglePieceAt_white_white, togglePieceAt_white_black, togglePieceAt_black_black,
    togglePieceAt_black_white, togglePieceAt_kings, togglePieceAt_queens, togglePieceAt_rooks,
    togglePieceAt_bishops, togglePieceAt_knights, togglePieceAt_pawns,
    togglePieceAt_fileOfKingsRook, togglePieceAt_fileOfQueensRook]

end Allie

namespace Allie
open Army PieceType Castle

set_option maxHeartbeats 2000000 in
theorem processMove_black_blackBoard (g : Game) (mv : Move) :
    (g.processMove Army.Black mv).blackPositionBoard =
      (if mv.castle = true then
        (if mv.castleSide = Castle.KingSide then
          (((g.blackPositionBoard.setBit mv.start.data false).setBit
              (Square.mk2 (g.fileOfKingsRook : Int) 7).data false).setBit
              (Square.mk2 5 7).data true).setBit (Square.mk2 6 7).data true
         else
          (((g.blackPositionBoard.setBit mv.start.data false).setBit
              (Square.mk2 (g.fileOfQueensRook : Int) 7).data false).setBit
              (Square.mk2 3 7).data true).setBit (Square.mk2 2 7).data true)
       else (g.blackPositionBoard.setBit mv.start.data false).setBit mv.endSq.data true) := by
  unfold Game.processMove
  dsimp only []
  simp only [Game.captureForMove, capturedIndex, otherArmy, Game.hasPieceAt, Game.colorBoard,
    pieceTypeAt_eq_on, ite_self, if_true, if_false, eq_self_iff_true, reduceCtorEq,
    apply_ite Game.whitePositionBoard, apply_ite Game.blackPositionBoard,
    apply_ite Game.kingsBoard, apply_ite Game.queensBoard, apply_ite Game.rooksBoard,
    apply_ite Game.bishopsBoard, apply_ite Game.knightsBoard, apply_ite Game.pawnsBoard,
    apply_ite Game.fileOfKingsRook, apply_ite Game.fileOfQueensRook,
    togglePieceAt_white_white, togglePieceAt_white_black, togglePieceAt_black_black,
    togglePieceAt_black_white, togglePieceAt_kings, togglePieceAt_queens, togglePieceAt_rooks,
    togglePieceAt_bishops, togglePieceAt_knights, togglePieceAt_pawns,
    togglePieceAt_fileOfKingsRook, togglePieceAt_fileOfQueensRook]

set_option maxHeartbeats 2000000 in
theorem processMove_black_whiteBoard (g : Game) (mv : Move) :
    (g.processMove Army.Black mv).whitePositionBoard =
      (if g.captureForMove Army.Black mv = true then
        g.whitePositionBoard.setBit (capturedIndex Army.Black mv) false
       else g.whitePositionBoard) := by
  unfold Game.processMove
  dsimp only []
  simp only [Game.captureForMove, capturedIndex, otherArmy, Game.hasPieceAt, Game.colorBoard,
    pieceTypeAt_eq_on, ite_self, if_true, if_false, eq_self_iff_true, reduceCtorEq,
    apply_ite Game.whitePositionBoard, apply_ite Game.blackPositionBoard,
    apply_ite Game.kingsBoard, apply_ite Game.queensBoard, apply_ite Game.rooksBoard,
    apply_ite Game.bishopsBoard, apply_ite Game.knightsBoard, apply_ite Game.pawnsBoard,
    apply_ite Game.fileOfKingsRook, apply_ite Game.fileOfQueensRook,
    togglePieceAt_white_white, togglePieceAt_white_black, togglePieceAt_black_black,
    togglePieceAt_black_white, togglePieceAt_kings, togglePieceAt_queens, togglePieceAt_rooks,
    togglePieceAt_bishops, togglePieceAt_knights, togglePieceAt_pawns,
    togglePieceAt_fileOfKingsRook, togglePieceAt_fileOfQueensRook]

set_option maxHeartbeats 2000000 in
theorem processMove_black_kingsBoard (g : Game) (mv : Move) :
    (g.processMove Army.Black mv).kingsBoard =
      (let b1 := if g.captureForMove Army.Black mv = true then
           (if g.pieceTypeAt (capturedIndex Army.Black mv) = King then
              g.kingsBoard.setBit (capturedIndex Army.Black mv) false else g.kingsBoard)
         else g.kingsBoard
       let b2 := if mv.piece = King then b1.setBit mv.start.data false else b1
       if mv.castle = true then
         (if mv.castleSide = Castle.KingSide then
            b2.setBit (Square.mk2 6 7).data true
          else
            b2.setBit (Square.mk2 2 7).data true)
       else
         if mv.promotion ≠ Unknown then
           (if mv.promotion = King then b2.setBit mv.endSq.data true else b2)
         else (if mv.piece = King then b2.setBit mv.endSq.data true else b2)) := by
  unfold Game.processMove
  dsimp only []
  simp only [Game.captureForMove, capturedIndex, otherArmy, Game.hasPieceAt, Game.colorBoard,
    pieceTypeAt_eq_on, ite_self, if_true, if_false, eq_self_iff_true, reduceCtorEq,
    apply_ite Game.whitePositionBoard, apply_ite Game.blackPositionBoard,
    apply_ite Game.kingsBoard, apply_ite Game.queensBoard, apply_ite Game.rooksBoard,
    apply_ite Game.bishopsBoard, apply_ite Game.knightsBoard, apply_ite Game.pawnsBoard,
    apply_ite Game.fileOfKingsRook, apply_ite Game.fileOfQueensRook,
    togglePieceAt_white_white, togglePieceAt_white_black, togglePieceAt_black_black,
    togglePieceAt_black_white, togglePieceAt_kings, togglePieceAt_queens, togglePieceAt_rooks,
    togglePieceAt_bishops, togglePieceAt_knights, togglePieceAt_pawns,
    togglePieceAt_fileOfKingsRook, togglePieceAt_fileOfQueensRook]

set_option maxHeartbeats 2000000 in
theorem processMove_black_queensBoard (g : Game) (mv : Move) :
    (g.processMove Army.Black mv).queensBoard =
      (let b1 := if g.captureForMove Army.Black mv = true then
           (if g.pieceTypeAt (capturedIndex Army.Black mv) = Queen then
              g.queensBoard.setBit (capturedIndex Army.Black mv) false else g.queensBoard)
         else g.queensBoard
       let b2 := if mv.piece = Queen then b1.setBit mv.start.data false else b1
       if mv.castle = true then
         (if mv.castleSide = Castle.KingSide then
            b2
          else
            b2)
       else
         if mv.promotion ≠ Unknown then
           (if mv.promotion = Queen then b2.setBit mv.endSq.data true else b2)
         else (if mv.piece = Queen then b2.setBit mv.endSq.data true else b2)) := by
  unfold Game.processMove
  dsimp only []
  simp only [Game.captureForMove, capturedIndex, otherArmy, Game.hasPieceAt, Game.colorBoard,
    pieceTypeAt_eq_on, ite_self, if_true, if_false, eq_self_iff_true, reduceCtorEq,
    apply_ite Game.whitePositionBoard, apply_ite Game.blackPositionBoard,
    apply_ite Game.kingsBoard, apply_ite Game.queensBoard, apply_ite Game.rooksBoard,
    apply_ite Game.bishopsBoard, apply_ite Game.knightsBoard, apply_ite Game.pawnsBoard,
    apply_ite Game.fileOfKingsRook, apply_ite Game.fileOfQueensRook,
    togglePieceAt_white_white, togglePieceAt_white_black, togglePieceAt_black_black,
    togglePieceAt_black_white, togglePieceAt_kings, togglePieceAt_queens, togglePieceAt_rooks,
    togglePieceAt_bishops, togglePieceAt_knights, togglePieceAt_pawns,
    togglePieceAt_fileOfKingsRook, togglePieceAt_fileOfQueensRook]

set_option maxHeartbeats 2000000 in
theorem processMove_black_rooksBoard (g : Game) (mv : Move) :
    (g.processMove Army.Black mv).rooksBoard =
      (let b1 := if g.captureForMove Army.Black mv = true then
           (if g.pieceTypeAt (capturedIndex Army.Black mv) = Rook then
              g.rooksBoard.setBit (capturedIndex Army.Black mv) false else g.rooksBoard)
         else g.rooksBoard
       let b2 := if mv.piece = Rook then b1.setBit mv.start.data false else b1
       if mv.castle = true then
         (if mv.castleSide = Castle.KingSide then
            (b2.setBit (Square.mk2 (g.fileOfKingsRook : Int) 7).data false).setBit (Square.mk2 5 7).data true
          else
            (b2.setBit (Square.mk2 (g.fileOfQueensRook : Int) 7).data false).setBit (Square.mk2 3 7).data true)
       else
         if mv.promotion ≠ Unknown then
           (if mv.promotion = Rook then b2.setBit mv.endSq.data true else b2)
         else (if mv.piece = Rook then b2.setBit mv.endSq.data true else b2)) := by
  unfold Game.processMove
  dsimp only []
  simp only [Game.captureForMove, capturedIndex, otherArmy, Game.hasPieceAt, Game.colorBoard,
    pieceTypeAt_eq_on, ite_self, if_true, if_false, eq_self_iff_true, reduceCtorEq,
    apply_ite Game.whitePositionBoard, apply_ite Game.blackPositionBoard,
    apply_ite Game.kingsBoard, apply_ite Game.queensBoard, apply_ite Game.rooksBoard,
    apply_ite Game.bishopsBoard, apply_ite Game.knightsBoard, apply_ite Game.pawnsBoard,
    apply_ite Game.fileOfKingsRook, apply_ite Game.fileOfQueensRook,
    togglePieceAt_white_white, togglePieceAt_white_black, togglePieceAt_black_black,
    togglePieceAt_black_white, togglePieceAt_kings, togglePieceAt_queens, togglePieceAt_rooks,
    togglePieceAt_bishops, togglePieceAt_knights, togglePieceAt_pawns,
    togglePieceAt_fileOfKingsRook, togglePieceAt_fileOfQueensRook]

set_option maxHeartbeats 2000000 in
theorem processMove_black_bishopsBoard (g : Game) (mv : Move) :
    (g.processMove Army.Black mv).bishopsBoard =
      (let b1 := if g.captureForMove Army.Black mv = true then
           (if g.pieceTypeAt (capturedIndex Army.Black mv) = Bishop then
              g.bishopsBoard.setBit (capturedIndex Army.Black mv) false else g.bishopsBoard)
         else g.bishopsBoard
       let b2 := if mv.piece = Bishop then b1.setBit mv.start.data false else b1
       if mv.castle = true then
         (if mv.castleSide = Castle.KingSide then
            b2
          else
            b2)
       else
         if mv.promotion ≠ Unknown then
           (if mv.promotion = Bishop then b2.setBit mv.endSq.data true else b2)
         else (if mv.piece = Bishop then b2.setBit mv.endSq.data true else b2)) := by
  unfold Game.processMove
  dsimp only []
  simp only [Game.captureForMove, capturedIndex, otherArmy, Game.hasPieceAt, Game.colorBoard,
    pieceTypeAt_eq_on, ite_self, if_true, if_false, eq_self_iff_true, reduceCtorEq,
    apply_ite Game.whitePositionBoard, apply_ite Game.blackPositionBoard,
    apply_ite Game.kingsBoard, apply_ite Game.queensBoard, apply_ite Game.rooksBoard,
    apply_ite Game.bishopsBoard, apply_ite Game.knightsBoard, apply_ite Game.pawnsBoard,
    apply_ite Game.fileOfKingsRook, apply_ite Game.fileOfQueensRook,
    togglePieceAt_white_white, togglePieceAt_white_black, togglePieceAt_black_black,
    togglePieceAt_black_white, togglePieceAt_kings, togglePieceAt_queens, togglePieceAt_rooks,
    togglePieceAt_bishops, togglePieceAt_knights, togglePieceAt_pawns,
    togglePieceAt_fileOfKingsRook, togglePieceAt_fileOfQueensRook]

set_option maxHeartbeats 2000000 in
theorem processMove_black_knightsBoard (g : Game) (mv : Move) :
    (g.processMove Army.Black mv).knightsBoard =
      (let b1 := if g.captureForMove Army.Black mv = true then
           (if g.pieceTypeAt (capturedIndex Army.Black mv) = Knight then
              g.knightsBoard.setBit (capturedIndex Army.Black mv) false else g.knightsBoard)
         else g.knightsBoard
       let b2 := if mv.piece = Knight then b1.setBit mv.start.data false else b1
       if mv.castle = true then
         (if mv.castleSide = Castle.KingSide then
            b2
          else
            b2)
       else
         if mv.promotion ≠ Unknown then
           (if mv.promotion = Knight then b2.setBit mv.endSq.data true else b2)
         else (if mv.piece = Knight then b2.setBit mv.endSq.data true else b2)) := by
  unfold Game.processMove
  dsimp only []
  simp only [Game.captureForMove, capturedIndex, otherArmy, Game.hasPieceAt, Game.colorBoard,
    pieceTypeAt_eq_on, ite_self, if_true, if_false, eq_self_iff_true, reduceCtorEq,
    apply_ite Game.whitePositionBoard, apply_ite Game.blackPositionBoard,
    apply_ite Game.kingsBoard, apply_ite Game.queensBoard, apply_ite Game.rooksBoard,
    apply_ite Game.bishopsBoard, apply_ite Game.knightsBoard, apply_ite Game.pawnsBoard,
    apply_ite Game.fileOfKingsRook, apply_ite Game.fileOfQueensRook,
    togglePieceAt_white_white, togglePieceAt_white_black, togglePieceAt_black_black,
    togglePieceAt_black_white, togglePieceAt_kings, togglePieceAt_queens, togglePieceAt_rooks,
    togglePieceAt_bishops, togglePieceAt_knights, togglePieceAt_pawns,
    togglePieceAt_fileOfKingsRook, togglePieceAt_fileOfQueensRook]

set_option maxHeartbeats 2000000 in
theorem processMove_black_pawnsBoard (g : Game) (mv : Move) :
    (g.processMove Army.Black mv).pawnsBoard =
      (let b1 := if g.captureForMove Army.Black mv = true then
           (if g.pieceTypeAt (capturedIndex Army.Black mv) = Pawn then
              g.pawnsBoard.setBit (capturedIndex Army.Black mv) false else g.pawnsBoard)
         else g.pawnsBoard
       let b2 := if mv.piece = Pawn then b1.setBit mv.start.data false else b1
       if mv.castle = true then
         (if mv.castleSide = Castle.KingSide then
            b2
          else
            b2)
       else
         if mv.promotion ≠ Unknown then
           (if mv.promotion = Pawn then b2.setBit mv.endSq.data true else b2)
         else (if mv.piece = Pawn then b2.setBit mv.endSq.data true else b2)) := by
  unfold Game.processMove
  dsimp only []
  simp only [Game.captureForMove, capturedIndex, otherArmy, Game.hasPieceAt, Game.colorBoard,
    pieceTypeAt_eq_on, ite_self, if_true, if_false, eq_self_iff_true, reduceCtorEq,
    apply_ite Game.whitePositionBoard, apply_ite Game.blackPositionBoard,
    apply_ite Game.kingsBoard, apply_ite Game.queensBoard, apply_ite Game.rooksBoard,
    apply_ite Game.bishopsBoard, apply_ite Game.knightsBoard, apply_ite Game.pawnsBoard,
    apply_ite Game.fileOfKingsRook, apply_ite Game.fileOfQueensRook,
    togglePieceAt_white_white, togglePieceAt_white_black, togglePieceAt_black_black,
    togglePieceAt_black_white, togglePieceAt_kings, togglePieceAt_queens, togglePieceAt_rooks,
    togglePieceAt_bishops, togglePieceAt_knights, togglePieceAt_pawns,
    togglePieceAt_fileOfKingsRook, togglePieceAt_fileOfQueensRook]

end Allie

namespace Allie
open Army PieceType Castle

theorem mem_setBit_true (b : BitBoard) (i : Nat) (j : Fin 64) :
    j ∈ b.setBit i true ↔ (j.val = i ∨ j ∈ b) := by
  unfold BitBoard.setBit
  split
  · rename_i h
    simp only [if_true, Finset.mem_insert]
    constructor
    · rintro (rfl | hj)
      · exact Or.inl rfl
      · exact Or.inr hj
    · rintro (hv | hj)
      · exact Or.inl (Fin.ext hv)
      · exact Or.inr hj
  · rename_i h
    constructor
    · intro hj
      exact Or.inr hj
    · rintro (hv | hj)
      · exact absurd (hv ▸ j.isLt) h
      · exact hj

theorem mem_setBit_false (b : BitBoard) (i : Nat) (j : Fin 64) :
    j ∈ b.setBit i false ↔ (j ∈ b ∧ j.val ≠ i) := by
  unfold BitBoard.setBit
  split
  · rename_i h
    simp only [Bool.false_eq_true, if_false, Finset.mem_erase]
    constructor
    · rintro ⟨hne, hj⟩
      exact ⟨hj, fun hv => hne (Fin.ext hv)⟩
    · rintro ⟨hj, hv⟩
      exact ⟨fun he => hv (congrArg Fin.val he), hj⟩
  · rename_i h
    constructor
    · intro hj
      exact ⟨hj, fun hv => h (hv ▸ j.isLt)⟩
    · exact fun hj => hj.1

theorem testBit_eq_mem (b : BitBoard) (j : Fin 64) :
    b.testBit j.val = true ↔ j ∈ b := by
  unfold BitBoard.testBit
  rw [dif_pos j.isLt]
  simp

theorem testBit_false_eq_not_mem (b : BitBoard) (j : Fin 64) :
    b.testBit j.val = false ↔ j ∉ b := by
  rw [← testBit_eq_mem]
  simp

end Allie

namespace Allie
open Army PieceType Castle

theorem mem_piecesUnion (g : Game) (j : Fin 64) :
    j ∈ piecesUnion g ↔
      j ∈ g.board King ∨ j ∈ g.board Queen ∨ j ∈ g.board Rook ∨ j ∈ g.board Bishop ∨
        j ∈ g.board Knight ∨ j ∈ g.board Pawn := by
  unfold piecesUnion Game.board
  simp only [Finset.mem_union]
  tauto

theorem pieceTypeAt_spec (g : Game) (hInv : g.boardInvariant) (j : Fin 64)
    (hocc : j ∈ g.whitePositionBoard ∨ j ∈ g.blackPositionBoard) :
    j ∈ g.board (g.pieceTypeAt j.val) ∧ g.pieceTypeAt j.val ≠ Unknown ∧
      (∀ q : PieceType, j ∈ g.board q → q = g.pieceTypeAt j.val) := by
  obtain ⟨hcb, hdisj, huni, -, -⟩ := hInv
  have hguard : ∀ q : PieceType, (((g.board q ∩ g.whitePositionBoard).testBit j.val
      || (g.board q ∩ g.blackPositionBoard).testBit j.val) = true) ↔ j ∈ g.board q := by
    intro q
    rw [Bool.or_eq_true, testBit_eq_mem, testBit_eq_mem, Finset.mem_inter, Finset.mem_inter]
    constructor
    · rintro (⟨h1, -⟩ | ⟨h1, -⟩)
      · exact h1
      · exact h1
    · intro h1
      rcases hocc with hw | hb
      · exact Or.inl ⟨h1, hw⟩
      · exact Or.inr ⟨h1, hb⟩
  have hnotboth : ∀ q q' : PieceType, q ≠ q' → j ∈ g.board q → j ∉ g.board q' := by
    intro q q' hne hq hq'
    have : j ∈ g.board q ∩ g.board q' := Finset.mem_inter.mpr ⟨hq, hq'⟩
    rw [hdisj q q' hne] at this
    exact absurd this (Finset.not_mem_empty j)
  unfold Game.pieceTypeAt
  by_cases hPawn : j ∈ g.board Pawn
  · rw [if_pos ((hguard Pawn).mpr hPawn)]
    exact ⟨hPawn, by simp, fun q hq => by
      by_contra hne
      exact hnotboth q Pawn hne hq hPawn⟩
  · rw [if_neg (fun h => hPawn ((hguard Pawn).mp h))]
    by_cases hKnight : j ∈ g.board Knight
    · rw [if_pos ((hguard Knight).mpr hKnight)]
      exact ⟨hKnight, by simp, fun q hq => by
        by_contra hne
        exact hnotboth q Knight hne hq hKnight⟩
    · rw [if_neg (fun h => hKnight ((hguard Knight).mp h))]
      by_cases hBishop : j ∈ g.board Bishop
      · rw [if_pos ((hguard Bishop).mpr hBishop)]
        exact ⟨hBishop, by simp, fun q hq => by
          by_contra hne
          exact hnotboth q Bishop hne hq hBishop⟩
      · rw [if_neg (fun h => hBishop ((hguard Bishop).mp h))]
        by_cases hRook : j ∈ g.board Rook
        · rw [if_pos ((hguard Rook).mpr hRook)]
          exact ⟨hRook, by simp, fun q hq => by
            by_contra hne
            exact hnotboth q Rook hne hq hRook⟩
        · rw [if_neg (fun h => hRook ((hguard Rook).mp h))]
          by_cases hQueen : j ∈ g.board Queen
          · rw [if_pos ((hguard Queen).mpr hQueen)]
            exact ⟨hQueen, by simp, fun q hq => by
              by_contra hne
              exact hnotboth q Queen hne hq hQueen⟩
          · rw [if_neg (fun h => hQueen ((hguard Queen).mp h))]
            by_cases hKing : j ∈ g.board King
            · rw [if_pos ((hguard King).mpr hKing)]
              exact ⟨hKing, by simp, fun q hq => by
                by_contra hne
                exact hnotboth q King hne hq hKing⟩
            · exfalso
              have hju : j ∈ piecesUnion g := by
                rw [← huni]
                rw [Finset.mem_union]
                exact hocc
              rw [mem_piecesUnion] at hju
              rcases hju with h | h | h | h | h | h
              · exact hKing h
              · exact hQueen h
              · exact hRook h
              · exact hBishop h
              · exact hKnight h
              · exact hPawn h

end Allie

namespace Allie
open Army PieceType Castle

/-- The start square of the castling rook consulted by `processMove`. -/
def castleRookStart (g : Game) (a : Army) (side : Castle) : Nat :=
  (Square.mk2 ((if side = Castle.KingSide then g.fileOfKingsRook else g.fileOfQueensRook) : Int)
    ((homeRank a : Nat) : Int)).data

/-- The rook destination square of a castle. -/
def castleRookTo (a : Army) (side : Castle) : Nat :=
  (Square.mk2 (if side = Castle.KingSide then (5 : Int) else 3) ((homeRank a : Nat) : Int)).data

/-- The king destination square of a castle. -/
def castleKingTo (a : Army) (side : Castle) : Nat :=
  (Square.mk2 (if side = Castle.KingSide then (6 : Int) else 2) ((homeRank a : Nat) : Int)).data

/-- A square that is unoccupied once the castling king and rook have been
lifted off the board. -/
def freeAfterCastle (g : Game) (a : Army) (mv : Move) (i : Nat) : Prop :=
  i = mv.start.data ∨ i = castleRookStart g a mv.castleSide ∨
    (g.whitePositionBoard.testBit i = false ∧ g.blackPositionBoard.testBit i = false)

/-- The board-consistency conditions a castle encoding must satisfy for
`processMove` to act like a castle. -/
def Game.castleOk (g : Game) (a : Army) (mv : Move) : Prop :=
  mv.piece = King ∧ mv.enPassant = false ∧
  (g.colorBoard (otherArmy a)).testBit mv.endSq.data = false ∧
  castleRookStart g a mv.castleSide < 64 ∧
  (g.colorBoard a).testBit (castleRookStart g a mv.castleSide) = true ∧
  (g.board Rook).testBit (castleRookStart g a mv.castleSide) = true ∧
  freeAfterCastle g a mv (castleRookTo a mv.castleSide) ∧
  freeAfterCastle g a mv (castleKingTo a mv.castleSide)

/-- The conditions under which an accepted move leaves the board invariants
intact: the mover has a piece of the move\'s kind on the start square, the
end square is not own-occupied (unless castling), the captured piece is not
a king, an en-passant capture removes an enemy piece from a valid square
while the end square itself is empty, promotions are pawn promotions to a
non-king piece, and castle encodings are board-consistent. -/
def Game.moveOk (g : Game) (a : Army) (mv : Move) : Prop :=
  mv.start.data < 64 ∧ mv.endSq.data < 64 ∧
  (g.colorBoard a).testBit mv.start.data = true ∧
  (g.board mv.piece).testBit mv.start.data = true ∧
  (mv.castle = false → (g.colorBoard a).testBit mv.endSq.data = false) ∧
  (g.captureForMove a mv = true → (g.board King).testBit (capturedIndex a mv) = false) ∧
  (mv.enPassant = true →
    capturedIndex a mv < 64 ∧
    (g.colorBoard (otherArmy a)).testBit (capturedIndex a mv) = true ∧
    (g.colorBoard (otherArmy a)).testBit mv.endSq.data = false) ∧
  (mv.promotion ≠ Unknown → mv.piece = Pawn ∧ mv.promotion ≠ King) ∧
  (mv.castle = true → g.castleOk a mv)

theorem setBit_true_eq_insert (b : BitBoard) (i : Nat) (h : i < 64) :
    b.setBit i true = insert (⟨i, h⟩ : Fin 64) b := by
  unfold BitBoard.setBit
  rw [dif_pos h, if_pos rfl]

theorem setBit_false_eq_erase (b : BitBoard) (i : Nat) (h : i < 64) :
    b.setBit i false = b.erase (⟨i, h⟩ : Fin 64) := by
  unfold BitBoard.setBit
  rw [dif_pos h, if_neg (by simp)]

/-- Pairwise disjointness survives an update that only shrinks boards except
for one fresh insertion. -/
theorem pairwise_disjoint_update (B B2 : PieceType → BitBoard) (T : PieceType) (e : Fin 64)
    (hsub : ∀ q, q ≠ T → B2 q ⊆ B q) (hsubT : B2 T ⊆ insert e (B T))
    (hfresh : ∀ q, q ≠ T → e ∉ B2 q)
    (hold : ∀ p q : PieceType, p ≠ q → B p ∩ B q = (∅ : BitBoard)) :
    ∀ p q : PieceType, p ≠ q → B2 p ∩ B2 q = (∅ : BitBoard) := by
  intro p q hne
  rw [Finset.eq_empty_iff_forall_not_mem]
  intro j hj
  rw [Finset.mem_inter] at hj
  obtain ⟨hp, hq⟩ := hj
  by_cases hpT : p = T
  · have hqT : q ≠ T := fun h => hne (hpT.trans h.symm)
    have hpT2 : j ∈ B2 T := by rw [← hpT]; exact hp
    rcases Finset.mem_insert.mp (hsubT hpT2) with rfl | hjB
    · exact hfresh q hqT hq
    · have hjp : j ∈ B p := by rw [hpT]; exact hjB
      have hjq : j ∈ B q := hsub q hqT hq
      have hmem : j ∈ B p ∩ B q := Finset.mem_inter.mpr ⟨hjp, hjq⟩
      rw [hold p q hne] at hmem
      exact absurd hmem (Finset.not_mem_empty j)
  · by_cases hqT : q = T
    · have hqT2 : j ∈ B2 T := by rw [← hqT]; exact hq
      rcases Finset.mem_insert.mp (hsubT hqT2) with rfl | hjB
      · exact hfresh p hpT hp
      · have hjq : j ∈ B q := by rw [hqT]; exact hjB
        have hmem : j ∈ B p ∩ B q := Finset.mem_inter.mpr ⟨hsub p hpT hp, hjq⟩
        rw [hold p q hne] at hmem
        exact absurd hmem (Finset.not_mem_empty j)
    · have hmem : j ∈ B p ∩ B q := Finset.mem_inter.mpr ⟨hsub p hpT hp, hsub q hqT hq⟩
      rw [hold p q hne] at hmem
      exact absurd hmem (Finset.not_mem_empty j)

/-- Color disjointness survives shrinking one side and inserting a square
absent from the other. -/
theorem colors_disjoint_update (W W2 B B2 : BitBoard) (e : Fin 64)
    (hsubW : W2 ⊆ insert e W) (hsubB : B2 ⊆ B) (hfresh : e ∉ B2)
    (hold : W ∩ B = (∅ : BitBoard)) : W2 ∩ B2 = (∅ : BitBoard) := by
  rw [Finset.eq_empty_iff_forall_not_mem]
  intro j hj
  rw [Finset.mem_inter] at hj
  obtain ⟨hw, hb⟩ := hj
  rcases Finset.mem_insert.mp (hsubW hw) with rfl | hjW
  · exact hfresh hb
  · have : j ∈ W ∩ B := Finset.mem_inter.mpr ⟨hjW, hsubB hb⟩
    rw [hold] at this
    exact absurd this (Finset.not_mem_empty j)

end Allie

namespace Allie
open Army PieceType Castle

theorem insert_inter_insert (e : Fin 64) (A B : BitBoard) :
    (insert e A) ∩ (insert e B) = insert e (A ∩ B) := by
  ext j
  simp only [Finset.mem_inter, Finset.mem_insert]
  constructor
  · rintro ⟨rfl | ha, hb⟩
    · exact Or.inl rfl
    · rcases hb with rfl | hb
      · exact Or.inl rfl
      · exact Or.inr ⟨ha, hb⟩
  · rintro (rfl | ⟨ha, hb⟩)
    · exact ⟨Or.inl rfl, Or.inl rfl⟩
    · exact ⟨Or.inr ha, Or.inr hb⟩

theorem eq_singleton_of_card_one (S : BitBoard) (x : Fin 64) (h1 : S.card = 1) (hm : x ∈ S) :
    S = {x} := by
  obtain ⟨a, ha⟩ := Finset.card_eq_one.mp h1
  rw [ha] at hm ⊢
  rw [Finset.mem_singleton] at hm
  rw [hm]

theorem erase_inter_right_of_not_mem (A B : BitBoard) (x : Fin 64) (hx : x ∉ B) :
    (A.erase x) ∩ B = A ∩ B := by
  ext j
  simp only [Finset.mem_inter, Finset.mem_erase]
  constructor
  · rintro ⟨⟨-, ha⟩, hb⟩
    exact ⟨ha, hb⟩
  · rintro ⟨ha, hb⟩
    exact ⟨⟨fun h => hx (h ▸ hb), ha⟩, hb⟩

theorem inter_erase_of_not_mem (A B : BitBoard) (x : Fin 64) (hx : x ∉ A) :
    A ∩ (B.erase x) = A ∩ B := by
  ext j
  simp only [Finset.mem_inter, Finset.mem_erase]
  constructor
  · rintro ⟨ha, -, hb⟩
    exact ⟨ha, hb⟩
  · rintro ⟨ha, hb⟩
    exact ⟨ha, fun h => hx (h ▸ ha), hb⟩

theorem erase_inter_erase (A B : BitBoard) (x : Fin 64) :
    (A.erase x) ∩ (B.erase x) = (A ∩ B).erase x := by
  ext j
  simp only [Finset.mem_inter, Finset.mem_erase]
  tauto

theorem bigOr_pieces (P : PieceType → Prop) (q : PieceType) (hq : q ≠ Unknown) (hP : P q) :
    ((((P King ∨ P Queen) ∨ P Rook) ∨ P Bishop) ∨ P Knight) ∨ P Pawn := by
  cases q
  · exact absurd rfl hq
  · exact Or.inl (Or.inl (Or.inl (Or.inl (Or.inl hP))))
  · exact Or.inl (Or.inl (Or.inl (Or.inl (Or.inr hP))))
  · exact Or.inl (Or.inl (Or.inl (Or.inr hP)))
  · exact Or.inl (Or.inl (Or.inr hP))
  · exact Or.inl (Or.inr hP)
  · exact Or.inr hP

/-- Invariant preservation for a non-castle move with a capture: the
captured man leaves square `c` (board `tc`), the mover leaves `s`, and a man
of kind `TT` (the move kind, or the promotion kind) lands on `e`. -/
theorem inv_update_cap (W B : BitBoard) (Bd : PieceType → BitBoard)
    (mover tc TT : PieceType) (s e c : Fin 64)
    (hCB : W ∩ B = (∅ : BitBoard))
    (hPD : ∀ p q : PieceType, p ≠ q → Bd p ∩ Bd q = (∅ : BitBoard))
    (hU : W ∪ B = Bd King ∪ Bd Queen ∪ Bd Rook ∪ Bd Bishop ∪ Bd Knight ∪ Bd Pawn)
    (hWK : (W ∩ Bd King).card = 1) (hBK : (B ∩ Bd King).card = 1)
    (hTT : TT ≠ Unknown) (hKiff : mover = King ↔ TT = King)
    (hsW : s ∈ W) (hsM : s ∈ Bd mover)
    (hcB : c ∈ B) (hcT : c ∈ Bd tc) (htcK : tc ≠ King)
    (heW : e ∉ W) (heB2 : e ∉ B.erase c)
    (heBd : ∀ q : PieceType, e ∈ Bd q → q = tc ∧ c = e) :
    (let W2 := insert e (W.erase s)
     let B2 := B.erase c
     let Bd2 : PieceType → BitBoard := fun q =>
       if TT = q then
         insert e (if mover = q then ((if tc = q then (Bd q).erase c else Bd q)).erase s
                   else (if tc = q then (Bd q).erase c else Bd q))
       else (if mover = q then ((if tc = q then (Bd q).erase c else Bd q)).erase s
             else (if tc = q then (Bd q).erase c else Bd q))
     W2 ∩ B2 = (∅ : BitBoard) ∧
     (∀ p q : PieceType, p ≠ q → Bd2 p ∩ Bd2 q = (∅ : BitBoard)) ∧
     W2 ∪ B2 = Bd2 King ∪ Bd2 Queen ∪ Bd2 Rook ∪ Bd2 Bishop ∪ Bd2 Knight ∪ Bd2 Pawn ∧
     (W2 ∩ Bd2 King).card = 1 ∧ (B2 ∩ Bd2 King).card = 1) := by
  simp only []
  have hsc : s ≠ c := by
    intro h
    have hmem : s ∈ W ∩ B := Finset.mem_inter.mpr ⟨hsW, h ▸ hcB⟩
    rw [hCB] at hmem
    exact absurd hmem (Finset.not_mem_empty s)
  have hsB : s ∉ B := by
    intro h
    have hmem : s ∈ W ∩ B := Finset.mem_inter.mpr ⟨hsW, h⟩
    rw [hCB] at hmem
    exact absurd hmem (Finset.not_mem_empty s)
  have hcW : c ∉ W := by
    intro h
    have hmem : c ∈ W ∩ B := Finset.mem_inter.mpr ⟨h, hcB⟩
    rw [hCB] at hmem
    exact absurd hmem (Finset.not_mem_empty c)
  have hOnly : ∀ p q : PieceType, p ≠ q → ∀ j, j ∈ Bd p → j ∉ Bd q := by
    intro p q hne j hp hq
    have hmem : j ∈ Bd p ∩ Bd q := Finset.mem_inter.mpr ⟨hp, hq⟩
    rw [hPD p q hne] at hmem
    exact absurd hmem (Finset.not_mem_empty j)
  have hbase : ∀ (q : PieceType) (j : Fin 64),
      (j ∈ (if mover = q then ((if tc = q then (Bd q).erase c else Bd q)).erase s
            else (if tc = q then (Bd q).erase c else Bd q))) ↔
      (j ∈ Bd q ∧ (tc = q → j ≠ c) ∧ (mover = q → j ≠ s)) := by
    intro q j
    by_cases hm : mover = q
    · rw [if_pos hm]
      by_cases ht : tc = q
      · rw [if_pos ht]
        simp only [Finset.mem_erase]
        constructor
        · rintro ⟨hjs, hjc, hjB⟩
          exact ⟨hjB, fun _ => hjc, fun _ => hjs⟩
        · rintro ⟨hjB, hjc, hjs⟩
          exact ⟨hjs hm, hjc ht, hjB⟩
      · rw [if_neg ht]
        simp only [Finset.mem_erase]
        constructor
        · rintro ⟨hjs, hjB⟩
          exact ⟨hjB, fun h => absurd h ht, fun _ => hjs⟩
        · rintro ⟨hjB, -, hjs⟩
          exact ⟨hjs hm, hjB⟩
    · rw [if_neg hm]
      by_cases ht : tc = q
      · rw [if_pos ht]
        simp only [Finset.mem_erase]
        constructor
        · rintro ⟨hjc, hjB⟩
          exact ⟨hjB, fun _ => hjc, fun h => absurd h hm⟩
        · rintro ⟨hjB, hjc, -⟩
          exact ⟨hjc ht, hjB⟩
      · rw [if_neg ht]
        constructor
        · intro hjB
          exact ⟨hjB, fun h => absurd h ht, fun h => absurd h hm⟩
        · rintro ⟨hjB, -, -⟩
          exact hjB
  have hBd2mem : ∀ (q : PieceType) (j : Fin 64),
      (j ∈ (if TT = q then
         insert e (if mover = q then ((if tc = q then (Bd q).erase c else Bd q)).erase s
                   else (if tc = q then (Bd q).erase c else Bd q))
       else (if mover = q then ((if tc = q then (Bd q).erase c else Bd q)).erase s
             else (if tc = q then (Bd q).erase c else Bd q)))) ↔
      ((j = e ∧ TT = q) ∨ (j ∈ Bd q ∧ (tc = q → j ≠ c) ∧ (mover = q → j ≠ s))) := by
    intro q j
    by_cases hT : TT = q
    · rw [if_pos hT, Finset.mem_insert, hbase q j]
      constructor
      · rintro (rfl | h)
        · exact Or.inl ⟨rfl, hT⟩
        · exact Or.inr h
      · rintro (⟨rfl, -⟩ | h)
        · exact Or.inl rfl
        · exact Or.inr h
    · rw [if_neg hT, hbase q j]
      constructor
      · intro h
        exact Or.inr h
      · rintro (⟨-, h⟩ | h)
        · exact absurd h hT
        · exact h
  refine ⟨?_, ?_, ?_, ?_, ?_⟩
  · rw [Finset.eq_empty_iff_forall_not_mem]
    intro j hj
    rw [Finset.mem_inter, Finset.mem_insert, Finset.mem_erase] at hj
    obtain ⟨hw, hb⟩ := hj
    rcases hw with rfl | ⟨-, hjW⟩
    · exact heB2 hb
    · rw [Finset.mem_erase] at hb
      have hmem : j ∈ W ∩ B := Finset.mem_inter.mpr ⟨hjW, hb.2⟩
      rw [hCB] at hmem
      exact absurd hmem (Finset.not_mem_empty j)
  · intro p q hne
    rw [Finset.eq_empty_iff_forall_not_mem]
    intro j hj
    rw [Finset.mem_inter] at hj
    obtain ⟨hp, hq⟩ := hj
    rw [hBd2mem p j] at hp
    rw [hBd2mem q j] at hq
    rcases hp with ⟨rfl, hmp⟩ | ⟨hjp, htp, -⟩
    · rcases hq with ⟨-, hmq⟩ | ⟨hjq, htq, -⟩
      · exact hne (hmp.symm.trans hmq)
      · obtain ⟨hq_tc, hce⟩ := heBd q hjq
        exact htq hq_tc.symm hce.symm
    · rcases hq with ⟨rfl, hmq⟩ | ⟨hjq, -, -⟩
      · obtain ⟨hp_tc, hce⟩ := heBd p hjp
        exact htp hp_tc.symm hce.symm
      · exact hOnly p q hne j hjp hjq
  · have hUm : ∀ j : Fin 64, (j ∈ W ∨ j ∈ B) ↔
        (((((j ∈ Bd King ∨ j ∈ Bd Queen) ∨ j ∈ Bd Rook) ∨ j ∈ Bd Bishop) ∨ j ∈ Bd Knight) ∨
          j ∈ Bd Pawn) := by
      intro j
      have h := Finset.ext_iff.mp hU j
      simp only [Finset.mem_union] at h
      exact h
    ext j
    simp only [Finset.mem_union, Finset.mem_insert, Finset.mem_erase]
    rw [hBd2mem King j, hBd2mem Queen j, hBd2mem Rook j, hBd2mem Bishop j,
      hBd2mem Knight j, hBd2mem Pawn j]
    constructor
    · rintro ((hje | ⟨hjs, hjW⟩) | ⟨hjc, hjB⟩)
      · exact bigOr_pieces (fun q => (j = e ∧ TT = q) ∨
          (j ∈ Bd q ∧ (tc = q → j ≠ c) ∧ (mover = q → j ≠ s))) TT hTT
          (Or.inl ⟨hje, rfl⟩)
      · have hjq := (hUm j).mp (Or.inl hjW)
        have hjnc : j ≠ c := fun h => hcW (h ▸ hjW)
        rcases hjq with ((((h | h) | h) | h) | h) | h
        · exact Or.inl (Or.inl (Or.inl (Or.inl (Or.inl
            (Or.inr ⟨h, fun _ => hjnc, fun _ => hjs⟩)))))
        · exact Or.inl (Or.inl (Or.inl (Or.inl (Or.inr
            (Or.inr ⟨h, fun _ => hjnc, fun _ => hjs⟩)))))
        · exact Or.inl (Or.inl (Or.inl (Or.inr
            (Or.inr ⟨h, fun _ => hjnc, fun _ => hjs⟩))))
        · exact Or.inl (Or.inl (Or.inr (Or.inr ⟨h, fun _ => hjnc, fun _ => hjs⟩)))
        · exact Or.inl (Or.inr (Or.inr ⟨h, fun _ => hjnc, fun _ => hjs⟩))
        · exact Or.inr (Or.inr ⟨h, fun _ => hjnc, fun _ => hjs⟩)
      · have hjq := (hUm j).mp (Or.inr hjB)
        have hjns : j ≠ s := fun h => hsB (h ▸ hjB)
        rcases hjq with ((((h | h) | h) | h) | h) | h
        · exact Or.inl (Or.inl (Or.inl (Or.inl (Or.inl
            (Or.inr ⟨h, fun _ => hjc, fun _ => hjns⟩)))))
        · exact Or.inl (Or.inl (Or.inl (Or.inl (Or.inr
            (Or.inr ⟨h, fun _ => hjc, fun _ => hjns⟩)))))
        · exact Or.inl (Or.inl (Or.inl (Or.inr
            (Or.inr ⟨h, fun _ => hjc, fun _ => hjns⟩))))
        · exact Or.inl (Or.inl (Or.inr (Or.inr ⟨h, fun _ => hjc, fun _ => hjns⟩)))
        · exact Or.inl (Or.inr (Or.inr ⟨h, fun _ => hjc, fun _ => hjns⟩))
        · exact Or.inr (Or.inr ⟨h, fun _ => hjc, fun _ => hjns⟩)
    · have hback : ∀ q : PieceType, ((j = e ∧ TT = q) ∨
          (j ∈ Bd q ∧ (tc = q → j ≠ c) ∧ (mover = q → j ≠ s))) →
          (j ∈ Bd q → j ∈ W ∨ j ∈ B) →
          ((j = e ∨ j ≠ s ∧ j ∈ W) ∨ j ≠ c ∧ j ∈ B) := by
        intro q hq hocc
        rcases hq with ⟨hje, -⟩ | ⟨hjq, htq, hmq⟩
        · exact Or.inl (Or.inl hje)
        · rcases hocc hjq with hjW | hjB
          · refine Or.inl (Or.inr ⟨?_, hjW⟩)
            intro hjs
            by_cases hqm : mover = q
            · exact hmq hqm hjs
            · exact hOnly mover q hqm s hsM (hjs ▸ hjq)
          · refine Or.inr ⟨?_, hjB⟩
            intro hjc
            by_cases hqt : tc = q
            · exact htq hqt hjc
            · exact hOnly tc q hqt c hcT (hjc ▸ hjq)
      rintro (((((h | h) | h) | h) | h) | h)
      · exact hback King h (fun hjq => (hUm j).mpr
          (Or.inl (Or.inl (Or.inl (Or.inl (Or.inl hjq))))))
      · exact hback Queen h (fun hjq => (hUm j).mpr
          (Or.inl (Or.inl (Or.inl (Or.inl (Or.inr hjq))))))
      · exact hback Rook h (fun hjq => (hUm j).mpr (Or.inl (Or.inl (Or.inl (Or.inr hjq)))))
      · exact hback Bishop h (fun hjq => (hUm j).mpr (Or.inl (Or.inl (Or.inr hjq))))
      · exact hback Knight h (fun hjq => (hUm j).mpr (Or.inl (Or.inr hjq)))
      · exact hback Pawn h (fun hjq => (hUm j).mpr (Or.inr hjq))
  · have heK : e ∉ Bd King := fun h => htcK ((heBd King h).1).symm
    have hBdKform : (if TT = King then
         insert e (if mover = King then ((if tc = King then (Bd King).erase c
                     else Bd King)).erase s
                   else (if tc = King then (Bd King).erase c else Bd King))
       else (if mover = King then ((if tc = King then (Bd King).erase c else Bd King)).erase s
             else (if tc = King then (Bd King).erase c else Bd King))) =
        (if mover = King then insert e ((Bd King).erase s) else Bd King) := by
      by_cases hmK : mover = King
      · rw [if_pos (hKiff.mp hmK), if_pos hmK, if_neg htcK, if_pos hmK]
      · rw [if_neg (fun h => hmK (hKiff.mpr h)), if_neg hmK, if_neg htcK, if_neg hmK]
    rw [hBdKform]
    by_cases hmK : mover = King
    · rw [if_pos hmK]
      rw [insert_inter_insert, erase_inter_erase]
      have hsing : W ∩ Bd King = {s} :=
        eq_singleton_of_card_one _ s hWK (Finset.mem_inter.mpr ⟨hsW, hmK ▸ hsM⟩)
      rw [hsing, Finset.erase_singleton]
      simp
    · rw [if_neg hmK]
      have hsK : s ∉ Bd King := hOnly mover King hmK s hsM
      rw [Finset.insert_inter_of_not_mem heK,
        erase_inter_right_of_not_mem W (Bd King) s hsK, hWK]
  · have heK : e ∉ Bd King := fun h => htcK ((heBd King h).1).symm
    have hcK : c ∉ Bd King := hOnly tc King htcK c hcT
    have hBdKform : (if TT = King then
         insert e (if mover = King then ((if tc = King then (Bd King).erase c
                     else Bd King)).erase s
                   else (if tc = King then (Bd King).erase c else Bd King))
       else (if mover = King then ((if tc = King then (Bd King).erase c else Bd King)).erase s
             else (if tc = King then (Bd King).erase c else Bd King))) =
        (if mover = King then insert e ((Bd King).erase s) else Bd King) := by
      by_cases hmK : mover = King
      · rw [if_pos (hKiff.mp hmK), if_pos hmK, if_neg htcK, if_pos hmK]
      · rw [if_neg (fun h => hmK (hKiff.mpr h)), if_neg hmK, if_neg htcK, if_neg hmK]
    rw [hBdKform]
    by_cases hmK : mover = King
    · rw [if_pos hmK]
      rw [Finset.inter_insert_of_not_mem heB2]
      have heq2 : B.erase c ∩ (Bd King).erase s = B ∩ Bd King := by
        ext j
        simp only [Finset.mem_inter, Finset.mem_erase]
        constructor
        · rintro ⟨⟨-, hb⟩, ⟨-, hk⟩⟩
          exact ⟨hb, hk⟩
        · rintro ⟨hb, hk⟩
          exact ⟨⟨fun h => hcK (h ▸ hk), hb⟩, ⟨fun h => hsB (h ▸ hb), hk⟩⟩
      rw [heq2, hBK]
    · rw [if_neg hmK]
      rw [erase_inter_right_of_not_mem B (Bd King) c hcK, hBK]

end Allie

namespace Allie
open Army PieceType Castle

/-- Invariant preservation for a non-castle move without a capture. -/
theorem inv_update_nocap (W B : BitBoard) (Bd : PieceType → BitBoard)
    (mover TT : PieceType) (s e : Fin 64)
    (hCB : W ∩ B = (∅ : BitBoard))
    (hPD : ∀ p q : PieceType, p ≠ q → Bd p ∩ Bd q = (∅ : BitBoard))
    (hU : W ∪ B = Bd King ∪ Bd Queen ∪ Bd Rook ∪ Bd Bishop ∪ Bd Knight ∪ Bd Pawn)
    (hWK : (W ∩ Bd King).card = 1) (hBK : (B ∩ Bd King).card = 1)
    (hTT : TT ≠ Unknown) (hKiff : mover = King ↔ TT = King)
    (hsW : s ∈ W) (hsM : s ∈ Bd mover)
    (heW : e ∉ W) (heB : e ∉ B)
    (heBd : ∀ q : PieceType, e ∉ Bd q) :
    (let W2 := insert e (W.erase s)
     let B2 := B
     let Bd2 : PieceType → BitBoard := fun q =>
       if TT = q then insert e (if mover = q then (Bd q).erase s else Bd q)
       else (if mover = q then (Bd q).erase s else Bd q)
     W2 ∩ B2 = (∅ : BitBoard) ∧
     (∀ p q : PieceType, p ≠ q → Bd2 p ∩ Bd2 q = (∅ : BitBoard)) ∧
     W2 ∪ B2 = Bd2 King ∪ Bd2 Queen ∪ Bd2 Rook ∪ Bd2 Bishop ∪ Bd2 Knight ∪ Bd2 Pawn ∧
     (W2 ∩ Bd2 King).card = 1 ∧ (B2 ∩ Bd2 King).card = 1) := by
  simp only []
  have hsB : s ∉ B := by
    intro h
    have hmem : s ∈ W ∩ B := Finset.mem_inter.mpr ⟨hsW, h⟩
    rw [hCB] at hmem
    exact absurd hmem (Finset.not_mem_empty s)
  have hOnly : ∀ p q : PieceType, p ≠ q → ∀ j, j ∈ Bd p → j ∉ Bd q := by
    intro p q hne j hp hq
    have hmem : j ∈ Bd p ∩ Bd q := Finset.mem_inter.mpr ⟨hp, hq⟩
    rw [hPD p q hne] at hmem
    exact absurd hmem (Finset.not_mem_empty j)
  have hbase : ∀ (q : PieceType) (j : Fin 64),
      (j ∈ (if mover = q then (Bd q).erase s else Bd q)) ↔
      (j ∈ Bd q ∧ (mover = q → j ≠ s)) := by
    intro q j
    by_cases hm : mover = q
    · rw [if_pos hm]
      simp only [Finset.mem_erase]
      constructor
      · rintro ⟨hjs, hjB⟩
        exact ⟨hjB, fun _ => hjs⟩
      · rintro ⟨hjB, hjs⟩
        exact ⟨hjs hm, hjB⟩
    · rw [if_neg hm]
      constructor
      · intro hjB
        exact ⟨hjB, fun h => absurd h hm⟩
      · rintro ⟨hjB, -⟩
        exact hjB
  have hBd2mem : ∀ (q : PieceType) (j : Fin 64),
      (j ∈ (if TT = q then insert e (if mover = q then (Bd q).erase s else Bd q)
       else (if mover = q then (Bd q).erase s else Bd q))) ↔
      ((j = e ∧ TT = q) ∨ (j ∈ Bd q ∧ (mover = q → j ≠ s))) := by
    intro q j
    by_cases hT : TT = q
    · rw [if_pos hT, Finset.mem_insert, hbase q j]
      constructor
      · rintro (rfl | h)
        · exact Or.inl ⟨rfl, hT⟩
        · exact Or.inr h
      · rintro (⟨rfl, -⟩ | h)
        · exact Or.inl rfl
        · exact Or.inr h
    · rw [if_neg hT, hbase q j]
      constructor
      · intro h
        exact Or.inr h
      · rintro (⟨-, h⟩ | h)
        · exact absurd h hT
        · exact h
  refine ⟨?_, ?_, ?_, ?_, ?_⟩
  · rw [Finset.eq_empty_iff_forall_not_mem]
    intro j hj
    rw [Finset.mem_inter, Finset.mem_insert, Finset.mem_erase] at hj
    obtain ⟨hw, hb⟩ := hj
    rcases hw with rfl | ⟨-, hjW⟩
    · exact heB hb
    · have hmem : j ∈ W ∩ B := Finset.mem_inter.mpr ⟨hjW, hb⟩
      rw [hCB] at hmem
      exact absurd hmem (Finset.not_mem_empty j)
  · intro p q hne
    rw [Finset.eq_empty_iff_forall_not_mem]
    intro j hj
    rw [Finset.mem_inter] at hj
    obtain ⟨hp, hq⟩ := hj
    rw [hBd2mem p j] at hp
    rw [hBd2mem q j] at hq
    rcases hp with ⟨rfl, hmp⟩ | ⟨hjp, -⟩
    · rcases hq with ⟨-, hmq⟩ | ⟨hjq, -⟩
      · exact hne (hmp.symm.trans hmq)
      · exact heBd q hjq
    · rcases hq with ⟨rfl, hmq⟩ | ⟨hjq, -⟩
      · exact heBd p hjp
      · exact hOnly p q hne j hjp hjq
  · have hUm : ∀ j : Fin 64, (j ∈ W ∨ j ∈ B) ↔
        (((((j ∈ Bd King ∨ j ∈ Bd Queen) ∨ j ∈ Bd Rook) ∨ j ∈ Bd Bishop) ∨ j ∈ Bd Knight) ∨
          j ∈ Bd Pawn) := by
      intro j
      have h := Finset.ext_iff.mp hU j
      simp only [Finset.mem_union] at h
      exact h
    ext j
    simp only [Finset.mem_union, Finset.mem_insert, Finset.mem_erase]
    rw [hBd2mem King j, hBd2mem Queen j, hBd2mem Rook j, hBd2mem Bishop j,
      hBd2mem Knight j, hBd2mem Pawn j]
    constructor
    · rintro ((hje | ⟨hjs, hjW⟩) | hjB)
      · exact bigOr_pieces (fun q => (j = e ∧ TT = q) ∨
          (j ∈ Bd q ∧ (mover = q → j ≠ s))) TT hTT (Or.inl ⟨hje, rfl⟩)
      · have hjq := (hUm j).mp (Or.inl hjW)
        rcases hjq with ((((h | h) | h) | h) | h) | h
        · exact Or.inl (Or.inl (Or.inl (Or.inl (Or.inl (Or.inr ⟨h, fun _ => hjs⟩)))))
        · exact Or.inl (Or.inl (Or.inl (Or.inl (Or.inr (Or.inr ⟨h, fun _ => hjs⟩)))))
        · exact Or.inl (Or.inl (Or.inl (Or.inr (Or.inr ⟨h, fun _ => hjs⟩))))
        · exact Or.inl (Or.inl (Or.inr (Or.inr ⟨h, fun _ => hjs⟩)))
        · exact Or.inl (Or.inr (Or.inr ⟨h, fun _ => hjs⟩))
        · exact Or.inr (Or.inr ⟨h, fun _ => hjs⟩)
      · have hjq := (hUm j).mp (Or.inr hjB)
        have hjns : j ≠ s := fun h => hsB (h ▸ hjB)
        rcases hjq with ((((h | h) | h) | h) | h) | h
        · exact Or.inl (Or.inl (Or.inl (Or.inl (Or.inl (Or.inr ⟨h, fun _ => hjns⟩)))))
        · exact Or.inl (Or.inl (Or.inl (Or.inl (Or.inr (Or.inr ⟨h, fun _ => hjns⟩)))))
        · exact Or.inl (Or.inl (Or.inl (Or.inr (Or.inr ⟨h, fun _ => hjns⟩))))
        · exact Or.inl (Or.inl (Or.inr (Or.inr ⟨h, fun _ => hjns⟩)))
        · exact Or.inl (Or.inr (Or.inr ⟨h, fun _ => hjns⟩))
        · exact Or.inr (Or.inr ⟨h, fun _ => hjns⟩)
    · have hback : ∀ q : PieceType, ((j = e ∧ TT = q) ∨
          (j ∈ Bd q ∧ (mover = q → j ≠ s))) →
          (j ∈ Bd q → j ∈ W ∨ j ∈ B) →
          ((j = e ∨ j ≠ s ∧ j ∈ W) ∨ j ∈ B) := by
        intro q hq hocc
        rcases hq with ⟨hje, -⟩ | ⟨hjq, hmq⟩
        · exact Or.inl (Or.inl hje)
        · rcases hocc hjq with hjW | hjB
          · refine Or.inl (Or.inr ⟨?_, hjW⟩)
            intro hjs
            by_cases hqm : mover = q
            · exact hmq hqm hjs
            · exact hOnly mover q hqm s hsM (hjs ▸ hjq)
          · exact Or.inr hjB
      rintro (((((h | h) | h) | h) | h) | h)
      · exact hback King h (fun hjq => (hUm j).mpr
          (Or.inl (Or.inl (Or.inl (Or.inl (Or.inl hjq))))))
      · exact hback Queen h (fun hjq => (hUm j).mpr
          (Or.inl (Or.inl (Or.inl (Or.inl (Or.inr hjq))))))
      · exact hback Rook h (fun hjq => (hUm j).mpr (Or.inl (Or.inl (Or.inl (Or.inr hjq)))))
      · exact hback Bishop h (fun hjq => (hUm j).mpr (Or.inl (Or.inl (Or.inr hjq))))
      · exact hback Knight h (fun hjq => (hUm j).mpr (Or.inl (Or.inr hjq)))
      · exact hback Pawn h (fun hjq => (hUm j).mpr (Or.inr hjq))
  · have hBdKform : (if TT = King then
        insert e (if mover = King then (Bd King).erase s else Bd King)
       else (if mover = King then (Bd King).erase s else Bd King)) =
        (if mover = King then insert e ((Bd King).erase s) else Bd King) := by
      by_cases hmK : mover = King
      · rw [if_pos (hKiff.mp hmK), if_pos hmK, if_pos hmK]
      · rw [if_neg (fun h => hmK (hKiff.mpr h)), if_neg hmK, if_neg hmK]
    rw [hBdKform]
    by_cases hmK : mover = King
    · rw [if_pos hmK]
      rw [insert_inter_insert, erase_inter_erase]
      have hsing : W ∩ Bd King = {s} :=
        eq_singleton_of_card_one _ s hWK (Finset.mem_inter.mpr ⟨hsW, hmK ▸ hsM⟩)
      rw [hsing, Finset.erase_singleton]
      simp
    · rw [if_neg hmK]
      have hsK : s ∉ Bd King := hOnly mover King hmK s hsM
      rw [Finset.insert_inter_of_not_mem (heBd King),
        erase_inter_right_of_not_mem W (Bd King) s hsK, hWK]
  · have hBdKform : (if TT = King then
        insert e (if mover = King then (Bd King).erase s else Bd King)
       else (if mover = King then (Bd King).erase s else Bd King)) =
        (if mover = King then insert e ((Bd King).erase s) else Bd King) := by
      by_cases hmK : mover = King
      · rw [if_pos (hKiff.mp hmK), if_pos hmK, if_pos hmK]
      · rw [if_neg (fun h => hmK (hKiff.mpr h)), if_neg hmK, if_neg hmK]
    rw [hBdKform]
    by_cases hmK : mover = King
    · rw [if_pos hmK]
      rw [Finset.inter_insert_of_not_mem heB]
      rw [inter_erase_of_not_mem B (Bd King) s hsB, hBK]
    · rw [if_neg hmK]
      exact hBK

end Allie

namespace Allie
open Army PieceType Castle

/-- Invariant preservation for a castle: the king leaves `s` for `kt`, the
castling rook leaves `rs` for `rt`, and nothing else moves. -/
theorem inv_update_castle (W B : BitBoard) (Bd : PieceType → BitBoard) (s rs rt kt : Fin 64)
    (hCB : W ∩ B = (∅ : BitBoard))
    (hPD : ∀ p q : PieceType, p ≠ q → Bd p ∩ Bd q = (∅ : BitBoard))
    (hU : W ∪ B = Bd King ∪ Bd Queen ∪ Bd Rook ∪ Bd Bishop ∪ Bd Knight ∪ Bd Pawn)
    (hWK : (W ∩ Bd King).card = 1) (hBK : (B ∩ Bd King).card = 1)
    (hBdU : Bd Unknown = (∅ : BitBoard))
    (hsW : s ∈ W) (hsK : s ∈ Bd King)
    (hrsW : rs ∈ W) (hrsR : rs ∈ Bd Rook)
    (hfreeRT : rt = s ∨ rt = rs ∨ (rt ∉ W ∧ rt ∉ B))
    (hfreeKT : kt = s ∨ kt = rs ∨ (kt ∉ W ∧ kt ∉ B))
    (hrtkt : rt ≠ kt) :
    (let W2 := insert kt (insert rt ((W.erase s).erase rs))
     let Bd2 : PieceType → BitBoard := fun q =>
       if q = King then insert kt ((Bd King).erase s)
       else if q = Rook then insert rt ((Bd Rook).erase rs)
       else Bd q
     W2 ∩ B = (∅ : BitBoard) ∧
     (∀ p q : PieceType, p ≠ q → Bd2 p ∩ Bd2 q = (∅ : BitBoard)) ∧
     W2 ∪ B = Bd2 King ∪ Bd2 Queen ∪ Bd2 Rook ∪ Bd2 Bishop ∪ Bd2 Knight ∪ Bd2 Pawn ∧
     (W2 ∩ Bd2 King).card = 1 ∧ (B ∩ Bd2 King).card = 1) := by
  simp only []
  have hOnly : ∀ p q : PieceType, p ≠ q → ∀ j, j ∈ Bd p → j ∉ Bd q := by
    intro p q hne j hp hq
    have hmem : j ∈ Bd p ∩ Bd q := Finset.mem_inter.mpr ⟨hp, hq⟩
    rw [hPD p q hne] at hmem
    exact absurd hmem (Finset.not_mem_empty j)
  have hWB : ∀ j : Fin 64, j ∈ W → j ∉ B := by
    intro j hw hb
    have hmem : j ∈ W ∩ B := Finset.mem_inter.mpr ⟨hw, hb⟩
    rw [hCB] at hmem
    exact absurd hmem (Finset.not_mem_empty j)
  have hUm : ∀ j : Fin 64, (j ∈ W ∨ j ∈ B) ↔
      (((((j ∈ Bd King ∨ j ∈ Bd Queen) ∨ j ∈ Bd Rook) ∨ j ∈ Bd Bishop) ∨ j ∈ Bd Knight) ∨
        j ∈ Bd Pawn) := by
    intro j
    have h := Finset.ext_iff.mp hU j
    simp only [Finset.mem_union] at h
    exact h
  have hInU : ∀ (q : PieceType) (j : Fin 64), j ∈ Bd q → j ∈ W ∨ j ∈ B := by
    intro q j hj
    cases q with
    | Unknown => exact absurd (hBdU ▸ hj) (Finset.not_mem_empty j)
    | King => exact (hUm j).mpr (Or.inl (Or.inl (Or.inl (Or.inl (Or.inl hj)))))
    | Queen => exact (hUm j).mpr (Or.inl (Or.inl (Or.inl (Or.inl (Or.inr hj)))))
    | Rook => exact (hUm j).mpr (Or.inl (Or.inl (Or.inl (Or.inr hj))))
    | Bishop => exact (hUm j).mpr (Or.inl (Or.inl (Or.inr hj)))
    | Knight => exact (hUm j).mpr (Or.inl (Or.inr hj))
    | Pawn => exact (hUm j).mpr (Or.inr hj)
  have hsrs : s ≠ rs := fun h => hOnly King Rook (by simp) s hsK (h ▸ hrsR)
  have hsB : s ∉ B := hWB s hsW
  have hrsB : rs ∉ B := hWB rs hrsW
  have hsR : s ∉ Bd Rook := hOnly King Rook (by simp) s hsK
  have hrsK : rs ∉ Bd King := hOnly Rook King (by simp) rs hrsR
  have hktB : kt ∉ B := by
    rcases hfreeKT with rfl | rfl | ⟨-, h⟩
    · exact hsB
    · exact hrsB
    · exact h
  have hrtB : rt ∉ B := by
    rcases hfreeRT with rfl | rfl | ⟨-, h⟩
    · exact hsB
    · exact hrsB
    · exact h
  have hktBd : ∀ q : PieceType, q ≠ King → kt ∈ Bd q → kt = rs ∧ q = Rook := by
    intro q hq hmem
    rcases hfreeKT with rfl | rfl | ⟨hW1, hB1⟩
    · exact absurd hmem (hOnly King q (fun h => hq h.symm) kt hsK)
    · by_cases hqR : q = Rook
      · exact ⟨rfl, hqR⟩
      · exact absurd hmem (hOnly Rook q (fun h => hqR h.symm) kt hrsR)
    · rcases hInU q kt hmem with h | h
      · exact absurd h hW1
      · exact absurd h hB1
  have hrtBd : ∀ q : PieceType, q ≠ Rook → rt ∈ Bd q → rt = s ∧ q = King := by
    intro q hq hmem
    rcases hfreeRT with rfl | rfl | ⟨hW1, hB1⟩
    · by_cases hqK : q = King
      · exact ⟨rfl, hqK⟩
      · exact absurd hmem (hOnly King q (fun h => hqK h.symm) rt hsK)
    · exact absurd hmem (hOnly Rook q (fun h => hq h.symm) rt hrsR)
    · rcases hInU q rt hmem with h | h
      · exact absurd h hW1
      · exact absurd h hB1
  have hBd2mem : ∀ (q : PieceType) (j : Fin 64),
      (j ∈ (if q = King then insert kt ((Bd King).erase s)
            else if q = Rook then insert rt ((Bd Rook).erase rs)
            else Bd q)) ↔
      ((q = King ∧ (j = kt ∨ (j ∈ Bd King ∧ j ≠ s))) ∨
       (q = Rook ∧ (j = rt ∨ (j ∈ Bd Rook ∧ j ≠ rs))) ∨
       (q ≠ King ∧ q ≠ Rook ∧ j ∈ Bd q)) := by
    intro q j
    by_cases hqK : q = King
    · rw [if_pos hqK]
      simp only [Finset.mem_insert, Finset.mem_erase]
      constructor
      · rintro (rfl | ⟨hjs, hjK⟩)
        · exact Or.inl ⟨hqK, Or.inl rfl⟩
        · exact Or.inl ⟨hqK, Or.inr ⟨hjK, hjs⟩⟩
      · rintro (⟨-, rfl | ⟨hjK, hjs⟩⟩ | ⟨hqR, -⟩ | ⟨hq1, -, -⟩)
        · exact Or.inl rfl
        · exact Or.inr ⟨hjs, hjK⟩
        · exact absurd hqK (by rw [hqR]; simp)
        · exact absurd hqK hq1
    · rw [if_neg hqK]
      by_cases hqR : q = Rook
      · rw [if_pos hqR]
        simp only [Finset.mem_insert, Finset.mem_erase]
        constructor
        · rintro (rfl | ⟨hjrs, hjR⟩)
          · exact Or.inr (Or.inl ⟨hqR, Or.inl rfl⟩)
          · exact Or.inr (Or.inl ⟨hqR, Or.inr ⟨hjR, hjrs⟩⟩)
        · rintro (⟨hqK2, -⟩ | ⟨-, rfl | ⟨hjR, hjrs⟩⟩ | ⟨-, hq2, -⟩)
          · exact absurd hqK2 hqK
          · exact Or.inl rfl
          · exact Or.inr ⟨hjrs, hjR⟩
          · exact absurd hqR hq2
      · rw [if_neg hqR]
        constructor
        · intro hj
          exact Or.inr (Or.inr ⟨hqK, hqR, hj⟩)
        · rintro (⟨hqK2, -⟩ | ⟨hqR2, -⟩ | ⟨-, -, hj⟩)
          · exact absurd hqK2 hqK
          · exact absurd hqR2 hqR
          · exact hj
  have hW2mem : ∀ j : Fin 64, (j ∈ insert kt (insert rt ((W.erase s).erase rs))) ↔
      (j = kt ∨ j = rt ∨ (j ∈ W ∧ j ≠ s ∧ j ≠ rs)) := by
    intro j
    simp only [Finset.mem_insert, Finset.mem_erase]
    constructor
    · rintro (rfl | rfl | ⟨hjrs, hjs, hjW⟩)
      · exact Or.inl rfl
      · exact Or.inr (Or.inl rfl)
      · exact Or.inr (Or.inr ⟨hjW, hjs, hjrs⟩)
    · rintro (rfl | rfl | ⟨hjW, hjs, hjrs⟩)
      · exact Or.inl rfl
      · exact Or.inr (Or.inl rfl)
      · exact Or.inr (Or.inr ⟨hjrs, hjs, hjW⟩)
  refine ⟨?_, ?_, ?_, ?_, ?_⟩
  · rw [Finset.eq_empty_iff_forall_not_mem]
    intro j hj
    rw [Finset.mem_inter] at hj
    obtain ⟨hw, hb⟩ := hj
    rcases (hW2mem j).mp hw with rfl | rfl | ⟨hjW, -, -⟩
    · exact hktB hb
    · exact hrtB hb
    · exact hWB j hjW hb
  · intro p q hne
    rw [Finset.eq_empty_iff_forall_not_mem]
    intro j hj
    rw [Finset.mem_inter] at hj
    obtain ⟨hp, hq⟩ := hj
    rw [hBd2mem p j] at hp
    rw [hBd2mem q j] at hq
    rcases hp with ⟨hpK, hjp⟩ | ⟨hpR, hjp⟩ | ⟨hpK, hpR, hjp⟩
    · rcases hq with ⟨hqK, hjq⟩ | ⟨hqR, hjq⟩ | ⟨hqK, hqR, hjq⟩
      · exact hne (hpK.trans hqK.symm)
      · rcases hjp with rfl | ⟨hjK, hjs⟩
        · rcases hjq with heq | ⟨hjR, hjrs⟩
          · exact hrtkt heq.symm
          · obtain ⟨hkr, -⟩ := hktBd Rook (by simp) hjR
            exact hjrs hkr
        · rcases hjq with rfl | ⟨hjR, -⟩
          · obtain ⟨hrts, -⟩ := hrtBd King (by simp) hjK
            exact hjs hrts
          · exact hOnly King Rook (by simp) j hjK hjR
      · rcases hjp with rfl | ⟨hjK, hjs⟩
        · obtain ⟨-, hq2⟩ := hktBd q (fun h => hqK h) hjq
          exact hqR hq2
        · exact hOnly King q (fun h => hqK h.symm) j hjK hjq
    · rcases hq with ⟨hqK, hjq⟩ | ⟨hqR, hjq⟩ | ⟨hqK, hqR, hjq⟩
      · rcases hjp with rfl | ⟨hjR, hjrs⟩
        · rcases hjq with heq | ⟨hjK, hjs⟩
          · exact hrtkt heq
          · obtain ⟨hrts, -⟩ := hrtBd King (by simp) hjK
            exact hjs hrts
        · rcases hjq with rfl | ⟨hjK, -⟩
          · obtain ⟨hkr, -⟩ := hktBd Rook (by simp) hjR
            exact hjrs hkr
          · exact hOnly Rook King (by simp) j hjR hjK
      · exact hne (hpR.trans hqR.symm)
      · rcases hjp with rfl | ⟨hjR, hjrs⟩
        · obtain ⟨-, hq2⟩ := hrtBd q (fun h => hqR h) hjq
          exact hqK hq2
        · exact hOnly Rook q (fun h => hqR h.symm) j hjR hjq
    · rcases hq with ⟨hqK, hjq⟩ | ⟨hqR, hjq⟩ | ⟨-, -, hjq⟩
      · rcases hjq with rfl | ⟨hjK, hjs⟩
        · obtain ⟨-, hp2⟩ := hktBd p (fun h => hpK h) hjp
          exact hpR hp2
        · exact hOnly King p (fun h => hpK h.symm) j hjK hjp
      · rcases hjq with rfl | ⟨hjR, hjrs⟩
        · obtain ⟨-, hp2⟩ := hrtBd p (fun h => hpR h) hjp
          exact hpK hp2
        · exact hOnly Rook p (fun h => hpR h.symm) j hjR hjp
      · exact hOnly p q hne j hjp hjq
  · ext j
    simp only [Finset.mem_union]
    rw [hW2mem j]
    simp only [eq_self_iff_true, if_true, reduceCtorEq, if_false, Finset.mem_insert,
      Finset.mem_erase]
    constructor
    · rintro ((rfl | rfl | ⟨hjW, hjs, hjrs⟩) | hjB)
      · exact Or.inl (Or.inl (Or.inl (Or.inl (Or.inl (Or.inl rfl)))))
      · exact Or.inl (Or.inl (Or.inl (Or.inr (Or.inl rfl))))
      · rcases (hUm j).mp (Or.inl hjW) with ((((h | h) | h) | h) | h) | h
        · exact Or.inl (Or.inl (Or.inl (Or.inl (Or.inl (Or.inr ⟨hjs, h⟩)))))
        · exact Or.inl (Or.inl (Or.inl (Or.inl (Or.inr h))))
        · exact Or.inl (Or.inl (Or.inl (Or.inr (Or.inr ⟨hjrs, h⟩))))
        · exact Or.inl (Or.inl (Or.inr h))
        · exact Or.inl (Or.inr h)
        · exact Or.inr h
      · rcases (hUm j).mp (Or.inr hjB) with ((((h | h) | h) | h) | h) | h
        · exact Or.inl (Or.inl (Or.inl (Or.inl (Or.inl
            (Or.inr ⟨fun h2 => hsB (h2 ▸ hjB), h⟩)))))
        · exact Or.inl (Or.inl (Or.inl (Or.inl (Or.inr h))))
        · exact Or.inl (Or.inl (Or.inl (Or.inr
            (Or.inr ⟨fun h2 => hrsB (h2 ▸ hjB), h⟩))))
        · exact Or.inl (Or.inl (Or.inr h))
        · exact Or.inl (Or.inr h)
        · exact Or.inr h
    · have hWside : ∀ q : PieceType, q ≠ King → q ≠ Rook → j ∈ Bd q →
          ((j = kt ∨ j = rt ∨ (j ∈ W ∧ j ≠ s ∧ j ≠ rs)) ∨ j ∈ B) := by
        intro q hq1 hq2 hjq
        rcases hInU q j hjq with hjW | hjB
        · refine Or.inl (Or.inr (Or.inr ⟨hjW, ?_, ?_⟩))
          · intro h2
            exact hOnly King q (fun h => hq1 h.symm) s hsK (h2 ▸ hjq)
          · intro h2
            exact hOnly Rook q (fun h => hq2 h.symm) rs hrsR (h2 ▸ hjq)
        · exact Or.inr hjB
      rintro (((((h | h) | h) | h) | h) | h)
      · rcases h with rfl | ⟨hjs, hjK⟩
        · exact Or.inl (Or.inl rfl)
        · rcases hInU King j hjK with hjW | hjB
          · exact Or.inl (Or.inr (Or.inr ⟨hjW, hjs, fun h2 => hrsK (h2 ▸ hjK)⟩))
          · exact Or.inr hjB
      · exact hWside Queen (by simp) (by simp) h
      · rcases h with rfl | ⟨hjrs, hjR⟩
        · exact Or.inl (Or.inr (Or.inl rfl))
        · rcases hInU Rook j hjR with hjW | hjB
          · exact Or.inl (Or.inr (Or.inr ⟨hjW, fun h2 => hsR (h2 ▸ hjR), hjrs⟩))
          · exact Or.inr hjB
      · exact hWside Bishop (by simp) (by simp) h
      · exact hWside Knight (by simp) (by simp) h
      · exact hWside Pawn (by simp) (by simp) h
  · have hset : insert kt (insert rt ((W.erase s).erase rs)) ∩ insert kt ((Bd King).erase s) =
        ({kt} : BitBoard) := by
      ext j
      rw [Finset.mem_inter, Finset.mem_singleton]
      rw [hW2mem j]
      simp only [Finset.mem_insert, Finset.mem_erase]
      constructor
      · rintro ⟨hw, hk⟩
        rcases hk with rfl | ⟨hjs, hjK⟩
        · rfl
        · rcases hw with rfl | rfl | ⟨hjW, hjs2, hjrs⟩
          · rfl
          · obtain ⟨hrts, -⟩ := hrtBd King (by simp) hjK
            exact absurd hrts hjs
          · have hsing : W ∩ Bd King = {s} :=
              eq_singleton_of_card_one _ s hWK (Finset.mem_inter.mpr ⟨hsW, hsK⟩)
            have hmem : j ∈ W ∩ Bd King := Finset.mem_inter.mpr ⟨hjW, hjK⟩
            rw [hsing, Finset.mem_singleton] at hmem
            exact absurd hmem hjs2
      · rintro rfl
        exact ⟨Or.inl rfl, Or.inl rfl⟩
    simp only [if_true]
    rw [hset, Finset.card_singleton]
  · simp only [if_true]
    rw [Finset.inter_insert_of_not_mem hktB, inter_erase_of_not_mem B _ s hsB]
    exact hBK

end Allie

namespace Allie
open Army PieceType Castle

theorem mem_board_mem_colors (g : Game)
    (hU : g.whitePositionBoard ∪ g.blackPositionBoard = piecesUnion g)
    (q : PieceType) (j : Fin 64) (hj : j ∈ g.board q) :
    j ∈ g.whitePositionBoard ∨ j ∈ g.blackPositionBoard := by
  have h := Finset.ext_iff.mp hU j
  rw [Finset.mem_union, mem_piecesUnion g j] at h
  apply h.mpr
  cases q with
  | Unknown => exact absurd hj (Finset.not_mem_empty j)
  | King => exact Or.inl hj
  | Queen => exact Or.inr (Or.inl hj)
  | Rook => exact Or.inr (Or.inr (Or.inl hj))
  | Bishop => exact Or.inr (Or.inr (Or.inr (Or.inl hj)))
  | Knight => exact Or.inr (Or.inr (Or.inr (Or.inr (Or.inl hj))))
  | Pawn => exact Or.inr (Or.inr (Or.inr (Or.inr (Or.inr hj))))

set_option maxHeartbeats 1000000 in
theorem processMove_inv_white (g : Game) (mv : Move) (hInv : g.boardInvariant)
    (hok : g.moveOk Army.White mv) :
    (g.processMove Army.White mv).boardInvariant := by
  obtain ⟨hs64, he64, hsCol, hsPiece, heNotMine, hNoKingCap, hEPc, hPromoC, hCastleC⟩ := hok
  obtain ⟨hCB, hPD, hU, hWK, hBK⟩ := hInv
  have hsW : (⟨mv.start.data, hs64⟩ : Fin 64) ∈ g.whitePositionBoard :=
    (testBit_eq_mem _ _).mp hsCol
  have hsM : (⟨mv.start.data, hs64⟩ : Fin 64) ∈ g.board mv.piece :=
    (testBit_eq_mem _ _).mp hsPiece
  have hMovNe : mv.piece ≠ Unknown := by
    intro h
    rw [h] at hsM
    exact absurd hsM (Finset.not_mem_empty _)
  by_cases hc : mv.castle = true
  · -- castle moves
    obtain ⟨hK, hEPf, heNotBlack, hrs64, hrsCol, hrsRook, hfreeRT, hfreeKT⟩ := hCastleC hc
    have hsK : (⟨mv.start.data, hs64⟩ : Fin 64) ∈ g.board King := by
      rw [hK] at hsM
      exact hsM
    have hcapF : ¬ (g.captureForMove Army.White mv = true) := by
      intro h
      unfold Game.captureForMove at h
      rw [Bool.or_eq_true] at h
      rcases h with h | h
      · unfold Game.hasPieceAt at h
        rw [heNotBlack] at h
        exact absurd h Bool.false_ne_true
      · rw [hEPf] at h
        exact absurd h Bool.false_ne_true
    by_cases hside : mv.castleSide = Castle.KingSide
    · -- king-side castle
      have hrsEq : castleRookStart g Army.White mv.castleSide =
          (Square.mk2 (g.fileOfKingsRook : Int) 0).data := by
        rw [hside]
        simp [castleRookStart, homeRank]
      have hrtEq : castleRookTo Army.White mv.castleSide = (Square.mk2 5 0).data := by
        rw [hside]
        simp [castleRookTo, homeRank]
      have hktEq : castleKingTo Army.White mv.castleSide = (Square.mk2 6 0).data := by
        rw [hside]
        simp [castleKingTo, homeRank]
      have hrs64b : (Square.mk2 (g.fileOfKingsRook : Int) 0).data < 64 := hrsEq ▸ hrs64
      have hrt64 : (Square.mk2 5 0).data < 64 := by decide
      have hkt64 : (Square.mk2 6 0).data < 64 := by decide
      have hrsW : (⟨(Square.mk2 (g.fileOfKingsRook : Int) 0).data, hrs64b⟩ : Fin 64) ∈
          g.whitePositionBoard := by
        apply (testBit_eq_mem _ _).mp
        have h2 := hrsCol
        rw [hrsEq] at h2
        exact h2
      have hrsR : (⟨(Square.mk2 (g.fileOfKingsRook : Int) 0).data, hrs64b⟩ : Fin 64) ∈
          g.board Rook := by
        apply (testBit_eq_mem _ _).mp
        have h2 := hrsRook
        rw [hrsEq] at h2
        exact h2
      have hfreeRT2 : (⟨(Square.mk2 5 0).data, hrt64⟩ : Fin 64) = ⟨mv.start.data, hs64⟩ ∨
          (⟨(Square.mk2 5 0).data, hrt64⟩ : Fin 64) =
            ⟨(Square.mk2 (g.fileOfKingsRook : Int) 0).data, hrs64b⟩ ∨
          ((⟨(Square.mk2 5 0).data, hrt64⟩ : Fin 64) ∉ g.whitePositionBoard ∧
           (⟨(Square.mk2 5 0).data, hrt64⟩ : Fin 64) ∉ g.blackPositionBoard) := by
        have h2 := hfreeRT
        unfold freeAfterCastle at h2
        rw [hrtEq, hrsEq] at h2
        rcases h2 with h2 | h2 | ⟨h2a, h2b⟩
        · exact Or.inl (Fin.ext h2)
        · exact Or.inr (Or.inl (Fin.ext h2))
        · exact Or.inr (Or.inr ⟨(testBit_false_eq_not_mem _ _).mp h2a,
            (testBit_false_eq_not_mem _ _).mp h2b⟩)
      have hfreeKT2 : (⟨(Square.mk2 6 0).data, hkt64⟩ : Fin 64) = ⟨mv.start.data, hs64⟩ ∨
          (⟨(Square.mk2 6 0).data, hkt64⟩ : Fin 64) =
            ⟨(Square.mk2 (g.fileOfKingsRook : Int) 0).data, hrs64b⟩ ∨
          ((⟨(Square.mk2 6 0).data, hkt64⟩ : Fin 64) ∉ g.whitePositionBoard ∧
           (⟨(Square.mk2 6 0).data, hkt64⟩ : Fin 64) ∉ g.blackPositionBoard) := by
        have h2 := hfreeKT
        unfold freeAfterCastle at h2
        rw [hktEq, hrsEq] at h2
        rcases h2 with h2 | h2 | ⟨h2a, h2b⟩
        · exact Or.inl (Fin.ext h2)
        · exact Or.inr (Or.inl (Fin.ext h2))
        · exact Or.inr (Or.inr ⟨(testBit_false_eq_not_mem _ _).mp h2a,
            (testBit_false_eq_not_mem _ _).mp h2b⟩)
      have hrtkt2 : (⟨(Square.mk2 5 0).data, hrt64⟩ : Fin 64) ≠
          (⟨(Square.mk2 6 0).data, hkt64⟩ : Fin 64) :=
        fun h => absurd (congrArg Fin.val h)
          (by decide : ¬ ((Square.mk2 5 0).data = (Square.mk2 6 0).data))
      have hres := inv_update_castle g.whitePositionBoard g.blackPositionBoard g.board
        ⟨mv.start.data, hs64⟩ ⟨(Square.mk2 (g.fileOfKingsRook : Int) 0).data, hrs64b⟩
        ⟨(Square.mk2 5 0).data, hrt64⟩ ⟨(Square.mk2 6 0).data, hkt64⟩
        hCB hPD hU hWK hBK rfl hsW hsK hrsW hrsR hfreeRT2 hfreeKT2 hrtkt2
      simp only [] at hres
      obtain ⟨hres1, hres2, hres3, hres4, hres5⟩ := hres
      have hW2 : (g.processMove Army.White mv).whitePositionBoard =
          insert (⟨(Square.mk2 6 0).data, hkt64⟩ : Fin 64)
            (insert (⟨(Square.mk2 5 0).data, hrt64⟩ : Fin 64)
              ((g.whitePositionBoard.erase ⟨mv.start.data, hs64⟩).erase
                ⟨(Square.mk2 (g.fileOfKingsRook : Int) 0).data, hrs64b⟩)) := by
        rw [processMove_white_whiteBoard, if_pos hc, if_pos hside,
          setBit_false_eq_erase _ _ hs64, setBit_false_eq_erase _ _ hrs64b,
          setBit_true_eq_insert _ _ hrt64, setBit_true_eq_insert _ _ hkt64]
      have hB2 : (g.processMove Army.White mv).blackPositionBoard =
          g.blackPositionBoard := by
        rw [processMove_white_blackBoard, if_neg hcapF]
      have hBoard : ∀ p : PieceType, (g.processMove Army.White mv).board p =
          (if p = King then
            insert (⟨(Square.mk2 6 0).data, hkt64⟩ : Fin 64)
              ((g.board King).erase ⟨mv.start.data, hs64⟩)
           else if p = Rook then
            insert (⟨(Square.mk2 5 0).data, hrt64⟩ : Fin 64)
              ((g.board Rook).erase ⟨(Square.mk2 (g.fileOfKingsRook : Int) 0).data, hrs64b⟩)
           else g.board p) := by
        intro p
        cases p
        case Unknown =>
          rw [if_neg (by simp : ¬ (Unknown = King)), if_neg (by simp : ¬ (Unknown = Rook))]
          rfl
        case King =>
          show (g.processMove Army.White mv).kingsBoard = _
          rw [processMove_white_kingsBoard]
          simp only []
          rw [if_neg hcapF, if_pos hK, if_pos hc, if_pos hside,
            setBit_false_eq_erase _ _ hs64, setBit_true_eq_insert _ _ hkt64]
          rfl
        case Queen =>
          show (g.processMove Army.White mv).queensBoard = _
          rw [processMove_white_queensBoard]
          simp only []
          rw [if_neg hcapF, if_neg (by rw [hK]; simp : ¬ (mv.piece = Queen)), if_pos hc,
            if_pos hside]
          rfl
        case Rook =>
          show (g.processMove Army.White mv).rooksBoard = _
          rw [processMove_white_rooksBoard]
          simp only []
          rw [if_neg hcapF, if_neg (by rw [hK]; simp : ¬ (mv.piece = Rook)), if_pos hc,
            if_pos hside, setBit_false_eq_erase _ _ hrs64b, setBit_true_eq_insert _ _ hrt64]
          rfl
        case Bishop =>
          show (g.processMove Army.White mv).bishopsBoard = _
          rw [processMove_white_bishopsBoard]
          simp only []
          rw [if_neg hcapF, if_neg (by rw [hK]; simp : ¬ (mv.piece = Bishop)), if_pos hc,
            if_pos hside]
          rfl
        case Knight =>
          show (g.processMove Army.White mv).knightsBoard = _
          rw [processMove_white_knightsBoard]
          simp only []
          rw [if_neg hcapF, if_neg (by rw [hK]; simp : ¬ (mv.piece = Knight)), if_pos hc,
            if_pos hside]
          rfl
        case Pawn =>
          show (g.processMove Army.White mv).pawnsBoard = _
          rw [processMove_white_pawnsBoard]
          simp only []
          rw [if_neg hcapF, if_neg (by rw [hK]; simp : ¬ (mv.piece = Pawn)), if_pos hc,
            if_pos hside]
          rfl
      refine ⟨?_, ?_, ?_, ?_, ?_⟩
      · rw [hW2, hB2]
        exact hres1
      · intro p q hne
        show (g.processMove Army.White mv).board p ∩
          (g.processMove Army.White mv).board q = (∅ : BitBoard)
        rw [hBoard p, hBoard q]
        exact hres2 p q hne
      · show (g.processMove Army.White mv).whitePositionBoard ∪
          (g.processMove Army.White mv).blackPositionBoard =
          (g.processMove Army.White mv).board King ∪
          (g.processMove Army.White mv).board Queen ∪
          (g.processMove Army.White mv).board Rook ∪
          (g.processMove Army.White mv).board Bishop ∪
          (g.processMove Army.White mv).board Knight ∪
          (g.processMove Army.White mv).board Pawn
        rw [hW2, hB2, hBoard King, hBoard Queen, hBoard Rook, hBoard Bishop,
          hBoard Knight, hBoard Pawn]
        exact hres3
      · show ((g.processMove Army.White mv).whitePositionBoard ∩
          (g.processMove Army.White mv).board King).card = 1
        rw [hW2, hBoard King]
        exact hres4
      · show ((g.processMove Army.White mv).blackPositionBoard ∩
          (g.processMove Army.White mv).board King).card = 1
        rw [hB2, hBoard King]
        exact hres5
    · -- queen-side castle
      have hsideQ : mv.castleSide = Castle.QueenSide := by
        cases hcs : mv.castleSide
        · exact absurd hcs hside
        · rfl
      have hrsEq : castleRookStart g Army.White mv.castleSide =
          (Square.mk2 (g.fileOfQueensRook : Int) 0).data := by
        rw [hsideQ]
        simp [castleRookStart, homeRank]
      have hrtEq : castleRookTo Army.White mv.castleSide = (Square.mk2 3 0).data := by
        rw [hsideQ]
        simp [castleRookTo, homeRank]
      have hktEq : castleKingTo Army.White mv.castleSide = (Square.mk2 2 0).data := by
        rw [hsideQ]
        simp [castleKingTo, homeRank]
      have hrs64b : (Square.mk2 (g.fileOfQueensRook : Int) 0).data < 64 := hrsEq ▸ hrs64
      have hrt64 : (Square.mk2 3 0).data < 64 := by decide
      have hkt64 : (Square.mk2 2 0).data < 64 := by decide
      have hrsW : (⟨(Square.mk2 (g.fileOfQueensRook : Int) 0).data, hrs64b⟩ : Fin 64) ∈
          g.whitePositionBoard := by
        apply (testBit_eq_mem _ _).mp
        have h2 := hrsCol
        rw [hrsEq] at h2
        exact h2
      have hrsR : (⟨(Square.mk2 (g.fileOfQueensRook : Int) 0).data, hrs64b⟩ : Fin 64) ∈
          g.board Rook := by
        apply (testBit_eq_mem _ _).mp
        have h2 := hrsRook
        rw [hrsEq] at h2
        exact h2
      have hfreeRT2 : (⟨(Square.mk2 3 0).data, hrt64⟩ : Fin 64) = ⟨mv.start.data, hs64⟩ ∨
          (⟨(Square.mk2 3 0).data, hrt64⟩ : Fin 64) =
            ⟨(Square.mk2 (g.fileOfQueensRook : Int) 0).data, hrs64b⟩ ∨
          ((⟨(Square.mk2 3 0).data, hrt64⟩ : Fin 64) ∉ g.whitePositionBoard ∧
           (⟨(Square.mk2 3 0).data, hrt64⟩ : Fin 64) ∉ g.blackPositionBoard) := by
        have h2 := hfreeRT
        unfold freeAfterCastle at h2
        rw [hrtEq, hrsEq] at h2
        rcases h2 with h2 | h2 | ⟨h2a, h2b⟩
        · exact Or.inl (Fin.ext h2)
        · exact Or.inr (Or.inl (Fin.ext h2))
        · exact Or.inr (Or.inr ⟨(testBit_false_eq_not_mem _ _).mp h2a,
            (testBit_false_eq_not_mem _ _).mp h2b⟩)
      have hfreeKT2 : (⟨(Square.mk2 2 0).data, hkt64⟩ : Fin 64) = ⟨mv.start.data, hs64⟩ ∨
          (⟨(Square.mk2 2 0).data, hkt64⟩ : Fin 64) =
            ⟨(Square.mk2 (g.fileOfQueensRook : Int) 0).data, hrs64b⟩ ∨
          ((⟨(Square.mk2 2 0).data, hkt64⟩ : Fin 64) ∉ g.whitePositionBoard ∧
           (⟨(Square.mk2 2 0).data, hkt64⟩ : Fin 64) ∉ g.blackPositionBoard) := by
        have h2 := hfreeKT
        unfold freeAfterCastle at h2
        rw [hktEq, hrsEq] at h2
        rcases h2 with h2 | h2 | ⟨h2a, h2b⟩
        · exact Or.inl (Fin.ext h2)
        · exact Or.inr (Or.inl (Fin.ext h2))
        · exact Or.inr (Or.inr ⟨(testBit_false_eq_not_mem _ _).mp h2a,
            (testBit_false_eq_not_mem _ _).mp h2b⟩)
      have hrtkt2 : (⟨(Square.mk2 3 0).data, hrt64⟩ : Fin 64) ≠
          (⟨(Square.mk2 2 0).data, hkt64⟩ : Fin 64) :=
        fun h => absurd (congrArg Fin.val h)
          (by decide : ¬ ((Square.mk2 3 0).data = (Square.mk2 2 0).data))
      have hres := inv_update_castle g.whitePositionBoard g.blackPositionBoard g.board
        ⟨mv.start.data, hs64⟩ ⟨(Square.mk2 (g.fileOfQueensRook : Int) 0).data, hrs64b⟩
        ⟨(Square.mk2 3 0).data, hrt64⟩ ⟨(Square.mk2 2 0).data, hkt64⟩
        hCB hPD hU hWK hBK rfl hsW hsK hrsW hrsR hfreeRT2 hfreeKT2 hrtkt2
      simp only [] at hres
      obtain ⟨hres1, hres2, hres3, hres4, hres5⟩ := hres
      have hW2 : (g.processMove Army.White mv).whitePositionBoard =
          insert (⟨(Square.mk2 2 0).data, hkt64⟩ : Fin 64)
            (insert (⟨(Square.mk2 3 0).data, hrt64⟩ : Fin 64)
              ((g.whitePositionBoard.erase ⟨mv.start.data, hs64⟩).erase
                ⟨(Square.mk2 (g.fileOfQueensRook : Int) 0).data, hrs64b⟩)) := by
        rw [processMove_white_whiteBoard, if_pos hc, if_neg hside,
          setBit_false_eq_erase _ _ hs64, setBit_false_eq_erase _ _ hrs64b,
          setBit_true_eq_insert _ _ hrt64, setBit_true_eq_insert _ _ hkt64]
      have hB2 : (g.processMove Army.White mv).blackPositionBoard =
          g.blackPositionBoard := by
        rw [processMove_white_blackBoard, if_neg hcapF]
      have hBoard : ∀ p : PieceType, (g.processMove Army.White mv).board p =
          (if p = King then
            insert (⟨(Square.mk2 2 0).data, hkt64⟩ : Fin 64)
              ((g.board King).erase ⟨mv.start.data, hs64⟩)
           else if p = Rook then
            insert (⟨(Square.mk2 3 0).data, hrt64⟩ : Fin 64)
              ((g.board Rook).erase ⟨(Square.mk2 (g.fileOfQueensRook : Int) 0).data, hrs64b⟩)
           else g.board p) := by
        intro p
        cases p
        case Unknown =>
          rw [if_neg (by simp : ¬ (Unknown = King)), if_neg (by simp : ¬ (Unknown = Rook))]
          rfl
        case King =>
          show (g.processMove Army.White mv).kingsBoard = _
          rw [processMove_white_kingsBoard]
          simp only []
          rw [if_neg hcapF, if_pos hK, if_pos hc, if_neg hside,
            setBit_false_eq_erase _ _ hs64, setBit_true_eq_insert _ _ hkt64]
          rfl
        case Queen =>
          show (g.processMove Army.White mv).queensBoard = _
          rw [processMove_white_queensBoard]
          simp only []
          rw [if_neg hcapF, if_neg (by rw [hK]; simp : ¬ (mv.piece = Queen)), if_pos hc,
            if_neg hside]
          rfl
        case Rook =>
          show (g.processMove Army.White mv).rooksBoard = _
          rw [processMove_white_rooksBoard]
          simp only []
          rw [if_neg hcapF, if_neg (by rw [hK]; simp : ¬ (mv.piece = Rook)), if_pos hc,
            if_neg hside, setBit_false_eq_erase _ _ hrs64b, setBit_true_eq_insert _ _ hrt64]
          rfl
        case Bishop =>
          show (g.processMove Army.White mv).bishopsBoard = _
          rw [processMove_white_bishopsBoard]
          simp only []
          rw [if_neg hcapF, if_neg (by rw [hK]; simp : ¬ (mv.piece = Bishop)), if_pos hc,
            if_neg hside]
          rfl
        case Knight =>
          show (g.processMove Army.White mv).knightsBoard = _
          rw [processMove_white_knightsBoard]
          simp only []
          rw [if_neg hcapF, if_neg (by rw [hK]; simp : ¬ (mv.piece = Knight)), if_pos hc,
            if_neg hside]
          rfl
        case Pawn =>
          show (g.processMove Army.White mv).pawnsBoard = _
          rw [processMove_white_pawnsBoard]
          simp only []
          rw [if_neg hcapF, if_neg (by rw [hK]; simp : ¬ (mv.piece = Pawn)), if_pos hc,
            if_neg hside]
          rfl
      refine ⟨?_, ?_, ?_, ?_, ?_⟩
      · rw [hW2, hB2]
        exact hres1
      · intro p q hne
        show (g.processMove Army.White mv).board p ∩
          (g.processMove Army.White mv).board q = (∅ : BitBoard)
        rw [hBoard p, hBoard q]
        exact hres2 p q hne
      · show (g.processMove Army.White mv).whitePositionBoard ∪
          (g.processMove Army.White mv).blackPositionBoard =
          (g.processMove Army.White mv).board King ∪
          (g.processMove Army.White mv).board Queen ∪
          (g.processMove Army.White mv).board Rook ∪
          (g.processMove Army.White mv).board Bishop ∪
          (g.processMove Army.White mv).board Knight ∪
          (g.processMove Army.White mv).board Pawn
        rw [hW2, hB2, hBoard King, hBoard Queen, hBoard Rook, hBoard Bishop,
          hBoard Knight, hBoard Pawn]
        exact hres3
      · show ((g.processMove Army.White mv).whitePositionBoard ∩
          (g.processMove Army.White mv).board King).card = 1
        rw [hW2, hBoard King]
        exact hres4
      · show ((g.processMove Army.White mv).blackPositionBoard ∩
          (g.processMove Army.White mv).board King).card = 1
        rw [hB2, hBoard King]
        exact hres5
  · -- non-castle moves
    have hcF : mv.castle = false := by
      cases hcv : mv.castle
      · rfl
      · exact absurd hcv hc
    have heW : (⟨mv.endSq.data, he64⟩ : Fin 64) ∉ g.whitePositionBoard :=
      (testBit_false_eq_not_mem _ _).mp (heNotMine hcF)
    by_cases hcap : g.captureForMove Army.White mv = true
    · -- a capture
      have hcap64 : capturedIndex Army.White mv < 64 := by
        by_cases hep : mv.enPassant = true
        · exact (hEPc hep).1
        · unfold capturedIndex
          rw [if_neg (fun h => hep h)]
          exact he64
      have hcB : (⟨capturedIndex Army.White mv, hcap64⟩ : Fin 64) ∈ g.blackPositionBoard := by
        by_cases hep : mv.enPassant = true
        · exact (testBit_eq_mem _ _).mp (hEPc hep).2.1
        · have hcore : g.hasPieceAt mv.endSq.data Army.Black = true := by
            unfold Game.captureForMove at hcap
            rw [Bool.or_eq_true] at hcap
            rcases hcap with h | h
            · exact h
            · exact absurd h hep
          have hx : (⟨mv.endSq.data, he64⟩ : Fin 64) ∈ g.blackPositionBoard :=
            (testBit_eq_mem _ _).mp hcore
          have hce : capturedIndex Army.White mv = mv.endSq.data := by
            unfold capturedIndex
            rw [if_neg (fun h => hep h)]
          have hfe : (⟨capturedIndex Army.White mv, hcap64⟩ : Fin 64) =
              (⟨mv.endSq.data, he64⟩ : Fin 64) := Fin.ext hce
          rw [hfe]
          exact hx
      have hOcc : (⟨capturedIndex Army.White mv, hcap64⟩ : Fin 64) ∈ g.whitePositionBoard ∨
          (⟨capturedIndex Army.White mv, hcap64⟩ : Fin 64) ∈ g.blackPositionBoard :=
        Or.inr hcB
      obtain ⟨hcT, htcU, htcUniq⟩ := pieceTypeAt_spec g ⟨hCB, hPD, hU, hWK, hBK⟩ _ hOcc
      have htcK : g.pieceTypeAt (capturedIndex Army.White mv) ≠ King := by
        intro h
        have hKmem := (testBit_false_eq_not_mem (g.board King)
          (⟨capturedIndex Army.White mv, hcap64⟩ : Fin 64)).mp (hNoKingCap hcap)
        rw [h] at hcT
        exact hKmem hcT
      have heB2 : (⟨mv.endSq.data, he64⟩ : Fin 64) ∉
          g.blackPositionBoard.erase ⟨capturedIndex Army.White mv, hcap64⟩ := by
        by_cases hep : mv.enPassant = true
        · intro hmem
          exact (testBit_false_eq_not_mem _ _).mp (hEPc hep).2.2 (Finset.mem_of_mem_erase hmem)
        · have hce : capturedIndex Army.White mv = mv.endSq.data := by
            unfold capturedIndex
            rw [if_neg (fun h => hep h)]
          intro hmem
          rw [Finset.mem_erase] at hmem
          exact hmem.1 (by rw [Fin.mk.injEq]; exact hce.symm)
      have heBd : ∀ q : PieceType, (⟨mv.endSq.data, he64⟩ : Fin 64) ∈ g.board q →
          q = g.pieceTypeAt (capturedIndex Army.White mv) ∧
            (⟨capturedIndex Army.White mv, hcap64⟩ : Fin 64) = ⟨mv.endSq.data, he64⟩ := by
        intro q hq
        by_cases hep : mv.enPassant = true
        · exfalso
          rcases mem_board_mem_colors g hU q _ hq with h | h
          · exact heW h
          · exact (testBit_false_eq_not_mem _ _).mp (hEPc hep).2.2 h
        · have hce : capturedIndex Army.White mv = mv.endSq.data := by
            unfold capturedIndex
            rw [if_neg (fun h => hep h)]
          have hfe : (⟨capturedIndex Army.White mv, hcap64⟩ : Fin 64) =
              (⟨mv.endSq.data, he64⟩ : Fin 64) := by
            rw [Fin.mk.injEq]
            exact hce
          constructor
          · exact htcUniq q (by rw [hfe]; exact hq)
          · exact hfe
      by_cases hpr : mv.promotion ≠ Unknown
      · obtain ⟨hpP, hpK⟩ := hPromoC hpr
        have hres := inv_update_cap g.whitePositionBoard g.blackPositionBoard g.board
          mv.piece (g.pieceTypeAt (capturedIndex Army.White mv)) mv.promotion
          ⟨mv.start.data, hs64⟩ ⟨mv.endSq.data, he64⟩ ⟨capturedIndex Army.White mv, hcap64⟩
          hCB hPD hU hWK hBK hpr
          (by constructor
              · intro h
                rw [hpP] at h
                exact absurd h (by simp)
              · intro h
                exact absurd h hpK)
          hsW hsM hcB hcT htcK heW heB2 heBd
        simp only [] at hres
        obtain ⟨hres1, hres2, hres3, hres4, hres5⟩ := hres
        have hW2 : (g.processMove Army.White mv).whitePositionBoard =
            insert (⟨mv.endSq.data, he64⟩ : Fin 64)
              (g.whitePositionBoard.erase ⟨mv.start.data, hs64⟩) := by
          rw [processMove_white_whiteBoard, if_neg hc,
            setBit_false_eq_erase _ _ hs64, setBit_true_eq_insert _ _ he64]
        have hB2 : (g.processMove Army.White mv).blackPositionBoard =
            g.blackPositionBoard.erase ⟨capturedIndex Army.White mv, hcap64⟩ := by
          rw [processMove_white_blackBoard, if_pos hcap, setBit_false_eq_erase _ _ hcap64]
        have hBoard : ∀ p : PieceType, (g.processMove Army.White mv).board p =
            (if mv.promotion = p then
              insert (⟨mv.endSq.data, he64⟩ : Fin 64)
                (if mv.piece = p then
                  ((if g.pieceTypeAt (capturedIndex Army.White mv) = p then
                      (g.board p).erase ⟨capturedIndex Army.White mv, hcap64⟩
                    else g.board p)).erase ⟨mv.start.data, hs64⟩
                 else (if g.pieceTypeAt (capturedIndex Army.White mv) = p then
                      (g.board p).erase ⟨capturedIndex Army.White mv, hcap64⟩
                    else g.board p))
             else
              (if mv.piece = p then
                  ((if g.pieceTypeAt (capturedIndex Army.White mv) = p then
                      (g.board p).erase ⟨capturedIndex Army.White mv, hcap64⟩
                    else g.board p)).erase ⟨mv.start.data, hs64⟩
                 else (if g.pieceTypeAt (capturedIndex Army.White mv) = p then
                      (g.board p).erase ⟨capturedIndex Army.White mv, hcap64⟩
                    else g.board p))) := by
          intro p
          cases p
          case Unknown =>
            rw [if_neg hpr, if_neg hMovNe, if_neg htcU]
            rfl
          case King =>
            show (g.processMove Army.White mv).kingsBoard = _
            rw [processMove_white_kingsBoard]
            simp only []
            rw [if_neg hc, if_pos hpr, if_pos hcap, setBit_false_eq_erase _ _ hcap64,
              setBit_false_eq_erase _ _ hs64, setBit_true_eq_insert _ _ he64]
            rfl
          case Queen =>
            show (g.processMove Army.White mv).queensBoard = _
            rw [processMove_white_queensBoard]
            simp only []
            rw [if_neg hc, if_pos hpr, if_pos hcap, setBit_false_eq_erase _ _ hcap64,
              setBit_false_eq_erase _ _ hs64, setBit_true_eq_insert _ _ he64]
            rfl
          case Rook =>
            show (g.processMove Army.White mv).rooksBoard = _
            rw [processMove_white_rooksBoard]
            simp only []
            rw [if_neg hc, if_pos hpr, if_pos hcap, setBit_false_eq_erase _ _ hcap64,
              setBit_false_eq_erase _ _ hs64, setBit_true_eq_insert _ _ he64]
            rfl
          case Bishop =>
            show (g.processMove Army.White mv).bishopsBoard = _
            rw [processMove_white_bishopsBoard]
            simp only []
            rw [if_neg hc, if_pos hpr, if_pos hcap, setBit_false_eq_erase _ _ hcap64,
              setBit_false_eq_erase _ _ hs64, setBit_true_eq_insert _ _ he64]
            rfl
          case Knight =>
            show (g.processMove Army.White mv).knightsBoard = _
            rw [processMove_white_knightsBoard]
            simp only []
            rw [if_neg hc, if_pos hpr, if_pos hcap, setBit_false_eq_erase _ _ hcap64,
              setBit_false_eq_erase _ _ hs64, setBit_true_eq_insert _ _ he64]
            rfl
          case Pawn =>
            show (g.processMove Army.White mv).pawnsBoard = _
            rw [processMove_white_pawnsBoard]
            simp only []
            rw [if_neg hc, if_pos hpr, if_pos hcap, setBit_false_eq_erase _ _ hcap64,
              setBit_false_eq_erase _ _ hs64, setBit_true_eq_insert _ _ he64]
            rfl
        refine ⟨?_, ?_, ?_, ?_, ?_⟩
        · rw [hW2, hB2]
          exact hres1
        · intro p q hne
          show (g.processMove Army.White mv).board p ∩
            (g.processMove Army.White mv).board q = (∅ : BitBoard)
          rw [hBoard p, hBoard q]
          exact hres2 p q hne
        · show (g.processMove Army.White mv).whitePositionBoard ∪
            (g.processMove Army.White mv).blackPositionBoard =
            (g.processMove Army.White mv).board King ∪
            (g.processMove Army.White mv).board Queen ∪
            (g.processMove Army.White mv).board Rook ∪
            (g.processMove Army.White mv).board Bishop ∪
            (g.processMove Army.White mv).board Knight ∪
            (g.processMove Army.White mv).board Pawn
          rw [hW2, hB2, hBoard King, hBoard Queen, hBoard Rook, hBoard Bishop,
            hBoard Knight, hBoard Pawn]
          exact hres3
        · show ((g.processMove Army.White mv).whitePositionBoard ∩
            (g.processMove Army.White mv).board King).card = 1
          rw [hW2, hBoard King]
          exact hres4
        · show ((g.processMove Army.White mv).blackPositionBoard ∩
            (g.processMove Army.White mv).board King).card = 1
          rw [hB2, hBoard King]
          exact hres5
      · have hres := inv_update_cap g.whitePositionBoard g.blackPositionBoard g.board
          mv.piece (g.pieceTypeAt (capturedIndex Army.White mv)) mv.piece
          ⟨mv.start.data, hs64⟩ ⟨mv.endSq.data, he64⟩ ⟨capturedIndex Army.White mv, hcap64⟩
          hCB hPD hU hWK hBK hMovNe Iff.rfl
          hsW hsM hcB hcT htcK heW heB2 heBd
        simp only [] at hres
        obtain ⟨hres1, hres2, hres3, hres4, hres5⟩ := hres
        have hW2 : (g.processMove Army.White mv).whitePositionBoard =
            insert (⟨mv.endSq.data, he64⟩ : Fin 64)
              (g.whitePositionBoard.erase ⟨mv.start.data, hs64⟩) := by
          rw [processMove_white_whiteBoard, if_neg hc,
            setBit_false_eq_erase _ _ hs64, setBit_true_eq_insert _ _ he64]
        have hB2 : (g.processMove Army.White mv).blackPositionBoard =
            g.blackPositionBoard.erase ⟨capturedIndex Army.White mv, hcap64⟩ := by
          rw [processMove_white_blackBoard, if_pos hcap, setBit_false_eq_erase _ _ hcap64]
        have hBoard : ∀ p : PieceType, (g.processMove Army.White mv).board p =
            (if mv.piece = p then
              insert (⟨mv.endSq.data, he64⟩ : Fin 64)
                (if mv.piece = p then
                  ((if g.pieceTypeAt (capturedIndex Army.White mv) = p then
                      (g.board p).erase ⟨capturedIndex Army.White mv, hcap64⟩
                    else g.board p)).erase ⟨mv.start.data, hs64⟩
                 else (if g.pieceTypeAt (capturedIndex Army.White mv) = p then
                      (g.board p).erase ⟨capturedIndex Army.White mv, hcap64⟩
                    else g.board p))
             else
              (if mv.piece = p then
                  ((if g.pieceTypeAt (capturedIndex Army.White mv) = p then
                      (g.board p).erase ⟨capturedIndex Army.White mv, hcap64⟩
                    else g.board p)).erase ⟨mv.start.data, hs64⟩
                 else (if g.pieceTypeAt (capturedIndex Army.White mv) = p then
                      (g.board p).erase ⟨capturedIndex Army.White mv, hcap64⟩
                    else g.board p))) := by
          intro p
          have hnp : ¬ (mv.promotion ≠ Unknown) := hpr
          cases p
          case Unknown =>
            rw [if_neg hMovNe, if_neg hMovNe, if_neg htcU]
            rfl
          case King =>
            show (g.processMove Army.White mv).kingsBoard = _
            rw [processMove_white_kingsBoard]
            simp only []
            rw [if_neg hc, if_neg hnp, if_pos hcap, setBit_false_eq_erase _ _ hcap64,
              setBit_false_eq_erase _ _ hs64, setBit_true_eq_insert _ _ he64]
            rfl
          case Queen =>
            show (g.processMove Army.White mv).queensBoard = _
            rw [processMove_white_queensBoard]
            simp only []
            rw [if_neg hc, if_neg hnp, if_pos hcap, setBit_false_eq_erase _ _ hcap64,
              setBit_false_eq_erase _ _ hs64, setBit_true_eq_insert _ _ he64]
            rfl
          case Rook =>
            show (g.processMove Army.White mv).rooksBoard = _
            rw [processMove_white_rooksBoard]
            simp only []
            rw [if_neg hc, if_neg hnp, if_pos hcap, setBit_false_eq_erase _ _ hcap64,
              setBit_false_eq_erase _ _ hs64, setBit_true_eq_insert _ _ he64]
            rfl
          case Bishop =>
            show (g.processMove Army.White mv).bishopsBoard = _
            rw [processMove_white_bishopsBoard]
            simp only []
            rw [if_neg hc, if_neg hnp, if_pos hcap, setBit_false_eq_erase _ _ hcap64,
              setBit_false_eq_erase _ _ hs64, setBit_true_eq_insert _ _ he64]
            rfl
          case Knight =>
            show (g.processMove Army.White mv).knightsBoard = _
            rw [processMove_white_knightsBoard]
            simp only []
            rw [if_neg hc, if_neg hnp, if_pos hcap, setBit_false_eq_erase _ _ hcap64,
              setBit_false_eq_erase _ _ hs64, setBit_true_eq_insert _ _ he64]
            rfl
          case Pawn =>
            show (g.processMove Army.White mv).pawnsBoard = _
            rw [processMove_white_pawnsBoard]
            simp only []
            rw [if_neg hc, if_neg hnp, if_pos hcap, setBit_false_eq_erase _ _ hcap64,
              setBit_false_eq_erase _ _ hs64, setBit_true_eq_insert _ _ he64]
            rfl
        refine ⟨?_, ?_, ?_, ?_, ?_⟩
        · rw [hW2, hB2]
          exact hres1
        · intro p q hne
          show (g.processMove Army.White mv).board p ∩
            (g.processMove Army.White mv).board q = (∅ : BitBoard)
          rw [hBoard p, hBoard q]
          exact hres2 p q hne
        · show (g.processMove Army.White mv).whitePositionBoard ∪
            (g.processMove Army.White mv).blackPositionBoard =
            (g.processMove Army.White mv).board King ∪
            (g.processMove Army.White mv).board Queen ∪
            (g.processMove Army.White mv).board Rook ∪
            (g.processMove Army.White mv).board Bishop ∪
            (g.processMove Army.White mv).board Knight ∪
            (g.processMove Army.White mv).board Pawn
          rw [hW2, hB2, hBoard King, hBoard Queen, hBoard Rook, hBoard Bishop,
            hBoard Knight, hBoard Pawn]
          exact hres3
        · show ((g.processMove Army.White mv).whitePositionBoard ∩
            (g.processMove Army.White mv).board King).card = 1
          rw [hW2, hBoard King]
          exact hres4
        · show ((g.processMove Army.White mv).blackPositionBoard ∩
            (g.processMove Army.White mv).board King).card = 1
          rw [hB2, hBoard King]
          exact hres5
    · have hepF : mv.enPassant = false := by
        unfold Game.captureForMove at hcap
        cases hev : mv.enPassant
        · rfl
        · exact absurd (by rw [hev, Bool.or_true]) hcap
      have heB : (⟨mv.endSq.data, he64⟩ : Fin 64) ∉ g.blackPositionBoard := by
        intro hmem
        apply hcap
        unfold Game.captureForMove
        rw [Bool.or_eq_true]
        left
        exact (testBit_eq_mem g.blackPositionBoard ⟨mv.endSq.data, he64⟩).mpr hmem
      have heBd : ∀ q : PieceType, (⟨mv.endSq.data, he64⟩ : Fin 64) ∉ g.board q := by
        intro q hq
        rcases mem_board_mem_colors g hU q _ hq with h | h
        · exact heW h
        · exact heB h
      by_cases hpr : mv.promotion ≠ Unknown
      · obtain ⟨hpP, hpK⟩ := hPromoC hpr
        have hres := inv_update_nocap g.whitePositionBoard g.blackPositionBoard g.board
          mv.piece mv.promotion ⟨mv.start.data, hs64⟩ ⟨mv.endSq.data, he64⟩
          hCB hPD hU hWK hBK hpr
          (by constructor
              · intro h
                rw [hpP] at h
                exact absurd h (by simp)
              · intro h
                exact absurd h hpK)
          hsW hsM heW heB heBd
        simp only [] at hres
        obtain ⟨hres1, hres2, hres3, hres4, hres5⟩ := hres
        have hW2 : (g.processMove Army.White mv).whitePositionBoard =
            insert (⟨mv.endSq.data, he64⟩ : Fin 64)
              (g.whitePositionBoard.erase ⟨mv.start.data, hs64⟩) := by
          rw [processMove_white_whiteBoard, if_neg hc,
            setBit_false_eq_erase _ _ hs64, setBit_true_eq_insert _ _ he64]
        have hB2 : (g.processMove Army.White mv).blackPositionBoard =
            g.blackPositionBoard := by
          rw [processMove_white_blackBoard, if_neg hcap]
        have hBoard : ∀ p : PieceType, (g.processMove Army.White mv).board p =
            (if mv.promotion = p then
              insert (⟨mv.endSq.data, he64⟩ : Fin 64)
                (if mv.piece = p then (g.board p).erase ⟨mv.start.data, hs64⟩ else g.board p)
             else
              (if mv.piece = p then (g.board p).erase ⟨mv.start.data, hs64⟩
               else g.board p)) := by
          intro p
          cases p
          case Unknown =>
            rw [if_neg hpr, if_neg hMovNe]
            rfl
          case King =>
            show (g.processMove Army.White mv).kingsBoard = _
            rw [processMove_white_kingsBoard]
            simp only []
            rw [if_neg hc, if_pos hpr, if_neg hcap,
              setBit_false_eq_erase _ _ hs64, setBit_true_eq_insert _ _ he64]
            rfl
          case Queen =>
            show (g.processMove Army.White mv).queensBoard = _
            rw [processMove_white_queensBoard]
            simp only []
            rw [if_neg hc, if_pos hpr, if_neg hcap,
              setBit_false_eq_erase _ _ hs64, setBit_true_eq_insert _ _ he64]
            rfl
          case Rook =>
            show (g.processMove Army.White mv).rooksBoard = _
            rw [processMove_white_rooksBoard]
            simp only []
            rw [if_neg hc, if_pos hpr, if_neg hcap,
              setBit_false_eq_erase _ _ hs64, setBit_true_eq_insert _ _ he64]
            rfl
          case Bishop =>
            show (g.processMove Army.White mv).bishopsBoard = _
            rw [processMove_white_bishopsBoard]
            simp only []
            rw [if_neg hc, if_pos hpr, if_neg hcap,
              setBit_false_eq_erase _ _ hs64, setBit_true_eq_insert _ _ he64]
            rfl
          case Knight =>
            show (g.processMove Army.White mv).knightsBoard = _
            rw [processMove_white_knightsBoard]
            simp only []
            rw [if_neg hc, if_pos hpr, if_neg hcap,
              setBit_false_eq_erase _ _ hs64, setBit_true_eq_insert _ _ he64]
            rfl
          case Pawn =>
            show (g.processMove Army.White mv).pawnsBoard = _
            rw [processMove_white_pawnsBoard]
            simp only []
            rw [if_neg hc, if_pos hpr, if_neg hcap,
              setBit_false_eq_erase _ _ hs64, setBit_true_eq_insert _ _ he64]
            rfl
        refine ⟨?_, ?_, ?_, ?_, ?_⟩
        · rw [hW2, hB2]
          exact hres1
        · intro p q hne
          show (g.processMove Army.White mv).board p ∩
            (g.processMove Army.White mv).board q = (∅ : BitBoard)
          rw [hBoard p, hBoard q]
          exact hres2 p q hne
        · show (g.processMove Army.White mv).whitePositionBoard ∪
            (g.processMove Army.White mv).blackPositionBoard =
            (g.processMove Army.White mv).board King ∪
            (g.processMove Army.White mv).board Queen ∪
            (g.processMove Army.White mv).board Rook ∪
            (g.processMove Army.White mv).board Bishop ∪
            (g.processMove Army.White mv).board Knight ∪
            (g.processMove Army.White mv).board Pawn
          rw [hW2, hB2, hBoard King, hBoard Queen, hBoard Rook, hBoard Bishop,
            hBoard Knight, hBoard Pawn]
          exact hres3
        · show ((g.processMove Army.White mv).whitePositionBoard ∩
            (g.processMove Army.White mv).board King).card = 1
          rw [hW2, hBoard King]
          exact hres4
        · show ((g.processMove Army.White mv).blackPositionBoard ∩
            (g.processMove Army.White mv).board King).card = 1
          rw [hB2, hBoard King]
          exact hres5
      · have hnp : ¬ (mv.promotion ≠ Unknown) := hpr
        have hres := inv_update_nocap g.whitePositionBoard g.blackPositionBoard g.board
          mv.piece mv.piece ⟨mv.start.data, hs64⟩ ⟨mv.endSq.data, he64⟩
          hCB hPD hU hWK hBK hMovNe Iff.rfl
          hsW hsM heW heB heBd
        simp only [] at hres
        obtain ⟨hres1, hres2, hres3, hres4, hres5⟩ := hres
        have hW2 : (g.processMove Army.White mv).whitePositionBoard =
            insert (⟨mv.endSq.data, he64⟩ : Fin 64)
              (g.whitePositionBoard.erase ⟨mv.start.data, hs64⟩) := by
          rw [processMove_white_whiteBoard, if_neg hc,
            setBit_false_eq_erase _ _ hs64, setBit_true_eq_insert _ _ he64]
        have hB2 : (g.processMove Army.White mv).blackPositionBoard =
            g.blackPositionBoard := by
          rw [processMove_white_blackBoard, if_neg hcap]
        have hBoard : ∀ p : PieceType, (g.processMove Army.White mv).board p =
            (if mv.piece = p then
              insert (⟨mv.endSq.data, he64⟩ : Fin 64)
                (if mv.piece = p then (g.board p).erase ⟨mv.start.data, hs64⟩ else g.board p)
             else
              (if mv.piece = p then (g.board p).erase ⟨mv.start.data, hs64⟩
               else g.board p)) := by
          intro p
          cases p
          case Unknown =>
            rw [if_neg hMovNe, if_neg hMovNe]
            rfl
          case King =>
            show (g.processMove Army.White mv).kingsBoard = _
            rw [processMove_white_kingsBoard]
            simp only []
            rw [if_neg hc, if_neg hnp, if_neg hcap,
              setBit_false_eq_erase _ _ hs64, setBit_true_eq_insert _ _ he64]
            rfl
          case Queen =>
            show (g.processMove Army.White mv).queensBoard = _
            rw [processMove_white_queensBoard]
            simp only []
            rw [if_neg hc, if_neg hnp, if_neg hcap,
              setBit_false_eq_erase _ _ hs64, setBit_true_eq_insert _ _ he64]
            rfl
          case Rook =>
            show (g.processMove Army.White mv).rooksBoard = _
            rw [processMove_white_rooksBoard]
            simp only []
            rw [if_neg hc, if_neg hnp, if_neg hcap,
              setBit_false_eq_erase _ _ hs64, setBit_true_eq_insert _ _ he64]
            rfl
          case Bishop =>
            show (g.processMove Army.White mv).bishopsBoard = _
            rw [processMove_white_bishopsBoard]
            simp only []
            rw [if_neg hc, if_neg hnp, if_neg hcap,
              setBit_false_eq_erase _ _ hs64, setBit_true_eq_insert _ _ he64]
            rfl
          case Knight =>
            show (g.processMove Army.White mv).knightsBoard = _
            rw [processMove_white_knightsBoard]
            simp only []
            rw [if_neg hc, if_neg hnp, if_neg hcap,
              setBit_false_eq_erase _ _ hs64, setBit_true_eq_insert _ _ he64]
            rfl
          case Pawn =>
            show (g.processMove Army.White mv).pawnsBoard = _
            rw [processMove_white_pawnsBoard]
            simp only []
            rw [if_neg hc, if_neg hnp, if_neg hcap,
              setBit_false_eq_erase _ _ hs64, setBit_true_eq_insert _ _ he64]
            rfl
        refine ⟨?_, ?_, ?_, ?_, ?_⟩
        · rw [hW2, hB2]
          exact hres1
        · intro p q hne
          show (g.processMove Army.White mv).board p ∩
            (g.processMove Army.White mv).board q = (∅ : BitBoard)
          rw [hBoard p, hBoard q]
          exact hres2 p q hne
        · show (g.processMove Army.White mv).whitePositionBoard ∪
            (g.processMove Army.White mv).blackPositionBoard =
            (g.processMove Army.White mv).board King ∪
            (g.processMove Army.White mv).board Queen ∪
            (g.processMove Army.White mv).board Rook ∪
            (g.processMove Army.White mv).board Bishop ∪
            (g.processMove Army.White mv).board Knight ∪
            (g.processMove Army.White mv).board Pawn
          rw [hW2, hB2, hBoard King, hBoard Queen, hBoard Rook, hBoard Bishop,
            hBoard Knight, hBoard Pawn]
          exact hres3
        · show ((g.processMove Army.White mv).whitePositionBoard ∩
            (g.processMove Army.White mv).board King).card = 1
          rw [hW2, hBoard King]
          exact hres4
        · show ((g.processMove Army.White mv).blackPositionBoard ∩
            (g.processMove Army.White mv).board King).card = 1
          rw [hB2, hBoard King]
          exact hres5

set_option maxHeartbeats 1000000 in
theorem processMove_inv_black (g : Game) (mv : Move) (hInv : g.boardInvariant)
    (hok : g.moveOk Army.Black mv) :
    (g.processMove Army.Black mv).boardInvariant := by
  obtain ⟨hs64, he64, hsCol, hsPiece, heNotMine, hNoKingCap, hEPc, hPromoC, hCastleC⟩ := hok
  obtain ⟨hCB, hPD, hU, hWK, hBK⟩ := hInv
  have hsW : (⟨mv.start.data, hs64⟩ : Fin 64) ∈ g.blackPositionBoard :=
    (testBit_eq_mem _ _).mp hsCol
  have hsM : (⟨mv.start.data, hs64⟩ : Fin 64) ∈ g.board mv.piece :=
    (testBit_eq_mem _ _).mp hsPiece
  have hMovNe : mv.piece ≠ Unknown := by
    intro h
    rw [h] at hsM
    exact absurd hsM (Finset.not_mem_empty _)
  by_cases hc : mv.castle = true
  · -- castle moves
    obtain ⟨hK, hEPf, heNotBlack, hrs64, hrsCol, hrsRook, hfreeRT, hfreeKT⟩ := hCastleC hc
    have hsK : (⟨mv.start.data, hs64⟩ : Fin 64) ∈ g.board King := by
      rw [hK] at hsM
      exact hsM
    have hcapF : ¬ (g.captureForMove Army.Black mv = true) := by
      intro h
      unfold Game.captureForMove at h
      rw [Bool.or_eq_true] at h
      rcases h with h | h
      · unfold Game.hasPieceAt at h
        rw [heNotBlack] at h
        exact absurd h Bool.false_ne_true
      · rw [hEPf] at h
        exact absurd h Bool.false_ne_true
    by_cases hside : mv.castleSide = Castle.KingSide
    · -- king-side castle
      have hrsEq : castleRookStart g Army.Black mv.castleSide =
          (Square.mk2 (g.fileOfKingsRook : Int) 7).data := by
        rw [hside]
        simp [castleRookStart, homeRank]
      have hrtEq : castleRookTo Army.Black mv.castleSide = (Square.mk2 5 7).data := by
        rw [hside]
        simp [castleRookTo, homeRank]
      have hktEq : castleKingTo Army.Black mv.castleSide = (Square.mk2 6 7).data := by
        rw [hside]
        simp [castleKingTo, homeRank]
      have hrs64b : (Square.mk2 (g.fileOfKingsRook : Int) 7).data < 64 := hrsEq ▸ hrs64
      have hrt64 : (Square.mk2 5 7).data < 64 := by decide
      have hkt64 : (Square.mk2 6 7).data < 64 := by decide
      have hrsW : (⟨(Square.mk2 (g.fileOfKingsRook : Int) 7).data, hrs64b⟩ : Fin 64) ∈
          g.blackPositionBoard := by
        apply (testBit_eq_mem _ _).mp
        have h2 := hrsCol
        rw [hrsEq] at h2
        exact h2
      have hrsR : (⟨(Square.mk2 (g.fileOfKingsRook : Int) 7).data, hrs64b⟩ : Fin 64) ∈
          g.board Rook := by
        apply (testBit_eq_mem _ _).mp
        have h2 := hrsRook
        rw [hrsEq] at h2
        exact h2
      have hfreeRT2 : (⟨(Square.mk2 5 7).data, hrt64⟩ : Fin 64) = ⟨mv.start.data, hs64⟩ ∨
          (⟨(Square.mk2 5 7).data, hrt64⟩ : Fin 64) =
            ⟨(Square.mk2 (g.fileOfKingsRook : Int) 7).data, hrs64b⟩ ∨
          ((⟨(Square.mk2 5 7).data, hrt64⟩ : Fin 64) ∉ g.blackPositionBoard ∧
           (⟨(Square.mk2 5 7).data, hrt64⟩ : Fin 64) ∉ g.whitePositionBoard) := by
        have h2 := hfreeRT
        unfold freeAfterCastle at h2
        rw [hrtEq, hrsEq] at h2
        rcases h2 with h2 | h2 | ⟨h2a, h2b⟩
        · exact Or.inl (Fin.ext h2)
        · exact Or.inr (Or.inl (Fin.ext h2))
        · exact Or.inr (Or.inr ⟨(testBit_false_eq_not_mem _ _).mp h2b,
            (testBit_false_eq_not_mem _ _).mp h2a⟩)
      have hfreeKT2 : (⟨(Square.mk2 6 7).data, hkt64⟩ : Fin 64) = ⟨mv.start.data, hs64⟩ ∨
          (⟨(Square.mk2 6 7).data, hkt64⟩ : Fin 64) =
            ⟨(Square.mk2 (g.fileOfKingsRook : Int) 7).data, hrs64b⟩ ∨
          ((⟨(Square.mk2 6 7).data, hkt64⟩ : Fin 64) ∉ g.blackPositionBoard ∧
           (⟨(Square.mk2 6 7).data, hkt64⟩ : Fin 64) ∉ g.whitePositionBoard) := by
        have h2 := hfreeKT
        unfold freeAfterCastle at h2
        rw [hktEq, hrsEq] at h2
        rcases h2 with h2 | h2 | ⟨h2a, h2b⟩
        · exact Or.inl (Fin.ext h2)
        · exact Or.inr (Or.inl (Fin.ext h2))
        · exact Or.inr (Or.inr ⟨(testBit_false_eq_not_mem _ _).mp h2b,
            (testBit_false_eq_not_mem _ _).mp h2a⟩)
      have hrtkt2 : (⟨(Square.mk2 5 7).data, hrt64⟩ : Fin 64) ≠
          (⟨(Square.mk2 6 7).data, hkt64⟩ : Fin 64) :=
        fun h => absurd (congrArg Fin.val h)
          (by decide : ¬ ((Square.mk2 5 7).data = (Square.mk2 6 7).data))
      have hres := inv_update_castle g.blackPositionBoard g.whitePositionBoard g.board
        ⟨mv.start.data, hs64⟩ ⟨(Square.mk2 (g.fileOfKingsRook : Int) 7).data, hrs64b⟩
        ⟨(Square.mk2 5 7).data, hrt64⟩ ⟨(Square.mk2 6 7).data, hkt64⟩
        (by rw [Finset.inter_comm]; exact hCB) hPD (by rw [Finset.union_comm]; exact hU) hBK hWK rfl hsW hsK hrsW hrsR hfreeRT2 hfreeKT2 hrtkt2
      simp only [] at hres
      obtain ⟨hres1, hres2, hres3, hres4, hres5⟩ := hres
      have hW2 : (g.processMove Army.Black mv).blackPositionBoard =
          insert (⟨(Square.mk2 6 7).data, hkt64⟩ : Fin 64)
            (insert (⟨(Square.mk2 5 7).data, hrt64⟩ : Fin 64)
              ((g.blackPositionBoard.erase ⟨mv.start.data, hs64⟩).erase
                ⟨(Square.mk2 (g.fileOfKingsRook : Int) 7).data, hrs64b⟩)) := by
        rw [processMove_black_blackBoard, if_pos hc, if_pos hside,
          setBit_false_eq_erase _ _ hs64, setBit_false_eq_erase _ _ hrs64b,
          setBit_true_eq_insert _ _ hrt64, setBit_true_eq_insert _ _ hkt64]
      have hB2 : (g.processMove Army.Black mv).whitePositionBoard =
          g.whitePositionBoard := by
        rw [processMove_black_whiteBoard, if_neg hcapF]
      have hBoard : ∀ p : PieceType, (g.processMove Army.Black mv).board p =
          (if p = King then
            insert (⟨(Square.mk2 6 7).data, hkt64⟩ : Fin 64)
              ((g.board King).erase ⟨mv.start.data, hs64⟩)
           else if p = Rook then
            insert (⟨(Square.mk2 5 7).data, hrt64⟩ : Fin 64)
              ((g.board Rook).erase ⟨(Square.mk2 (g.fileOfKingsRook : Int) 7).data, hrs64b⟩)
           else g.board p) := by
        intro p
        cases p
        case Unknown =>
          rw [if_neg (by simp : ¬ (Unknown = King)), if_neg (by simp : ¬ (Unknown = Rook))]
          rfl
        case King =>
          show (g.processMove Army.Black mv).kingsBoard = _
          rw [processMove_black_kingsBoard]
          simp only []
          rw [if_neg hcapF, if_pos hK, if_pos hc, if_pos hside,
            setBit_false_eq_erase _ _ hs64, setBit_true_eq_insert _ _ hkt64]
          rfl
        case Queen =>
          show (g.processMove Army.Black mv).queensBoard = _
          rw [processMove_black_queensBoard]
          simp only []
          rw [if_neg hcapF, if_neg (by rw [hK]; simp : ¬ (mv.piece = Queen)), if_pos hc,
            if_pos hside]
          rfl
        case Rook =>
          show (g.processMove Army.Black mv).rooksBoard = _
          rw [processMove_black_rooksBoard]
          simp only []
          rw [if_neg hcapF, if_neg (by rw [hK]; simp : ¬ (mv.piece = Rook)), if_pos hc,
            if_pos hside, setBit_false_eq_erase _ _ hrs64b, setBit_true_eq_insert _ _ hrt64]
          rfl
        case Bishop =>
          show (g.processMove Army.Black mv).bishopsBoard = _
          rw [processMove_black_bishopsBoard]
          simp only []
          rw [if_neg hcapF, if_neg (by rw [hK]; simp : ¬ (mv.piece = Bishop)), if_pos hc,
            if_pos hside]
          rfl
        case Knight =>
          show (g.processMove Army.Black mv).knightsBoard = _
          rw [processMove_black_knightsBoard]
          simp only []
          rw [if_neg hcapF, if_neg (by rw [hK]; simp : ¬ (mv.piece = Knight)), if_pos hc,
            if_pos hside]
          rfl
        case Pawn =>
          show (g.processMove Army.Black mv).pawnsBoard = _
          rw [processMove_black_pawnsBoard]
          simp only []
          rw [if_neg hcapF, if_neg (by rw [hK]; simp : ¬ (mv.piece = Pawn)), if_pos hc,
            if_pos hside]
          rfl
      refine ⟨?_, ?_, ?_, ?_, ?_⟩
      · rw [hW2, hB2]
        exact (Finset.inter_comm _ _).trans hres1
      · intro p q hne
        show (g.processMove Army.Black mv).board p ∩
          (g.processMove Army.Black mv).board q = (∅ : BitBoard)
        rw [hBoard p, hBoard q]
        exact hres2 p q hne
      · show (g.processMove Army.Black mv).whitePositionBoard ∪
          (g.processMove Army.Black mv).blackPositionBoard =
          (g.processMove Army.Black mv).board King ∪
          (g.processMove Army.Black mv).board Queen ∪
          (g.processMove Army.Black mv).board Rook ∪
          (g.processMove Army.Black mv).board Bishop ∪
          (g.processMove Army.Black mv).board Knight ∪
          (g.processMove Army.Black mv).board Pawn
        rw [hW2, hB2, hBoard King, hBoard Queen, hBoard Rook, hBoard Bishop,
          hBoard Knight, hBoard Pawn]
        exact (Finset.union_comm _ _).trans hres3
      · show ((g.processMove Army.Black mv).whitePositionBoard ∩
          (g.processMove Army.Black mv).board King).card = 1
        rw [hB2, hBoard King]
        exact hres5
      · show ((g.processMove Army.Black mv).blackPositionBoard ∩
          (g.processMove Army.Black mv).board King).card = 1
        rw [hW2, hBoard King]
        exact hres4
    · -- queen-side castle
      have hsideQ : mv.castleSide = Castle.QueenSide := by
        cases hcs : mv.castleSide
        · exact absurd hcs hside
        · rfl
      have hrsEq : castleRookStart g Army.Black mv.castleSide =
          (Square.mk2 (g.fileOfQueensRook : Int) 7).data := by
        rw [hsideQ]
        simp [castleRookStart, homeRank]
      have hrtEq : castleRookTo Army.Black mv.castleSide = (Square.mk2 3 7).data := by
        rw [hsideQ]
        simp [castleRookTo, homeRank]
      have hktEq : castleKingTo Army.Black mv.castleSide = (Square.mk2 2 7).data := by
        rw [hsideQ]
        simp [castleKingTo, homeRank]
      have hrs64b : (Square.mk2 (g.fileOfQueensRook : Int) 7).data < 64 := hrsEq ▸ hrs64
      have hrt64 : (Square.mk2 3 7).data < 64 := by decide
      have hkt64 : (Square.mk2 2 7).data < 64 := by decide
      have hrsW : (⟨(Square.mk2 (g.fileOfQueensRook : Int) 7).data, hrs64b⟩ : Fin 64) ∈
          g.blackPositionBoard := by
        apply (testBit_eq_mem _ _).mp
        have h2 := hrsCol
        rw [hrsEq] at h2
        exact h2
      have hrsR : (⟨(Square.mk2 (g.fileOfQueensRook : Int) 7).data, hrs64b⟩ : Fin 64) ∈
          g.board Rook := by
        apply (testBit_eq_mem _ _).mp
        have h2 := hrsRook
        rw [hrsEq] at h2
        exact h2
      have hfreeRT2 : (⟨(Square.mk2 3 7).data, hrt64⟩ : Fin 64) = ⟨mv.start.data, hs64⟩ ∨
          (⟨(Square.mk2 3 7).data, hrt64⟩ : Fin 64) =
            ⟨(Square.mk2 (g.fileOfQueensRook : Int) 7).data, hrs64b⟩ ∨
          ((⟨(Square.mk2 3 7).data, hrt64⟩ : Fin 64) ∉ g.blackPositionBoard ∧
           (⟨(Square.mk2 3 7).data, hrt64⟩ : Fin 64) ∉ g.whitePositionBoard) := by
        have h2 := hfreeRT
        unfold freeAfterCastle at h2
        rw [hrtEq, hrsEq] at h2
        rcases h2 with h2 | h2 | ⟨h2a, h2b⟩
        · exact Or.inl (Fin.ext h2)
        · exact Or.inr (Or.inl (Fin.ext h2))
        · exact Or.inr (Or.inr ⟨(testBit_false_eq_not_mem _ _).mp h2b,
            (testBit_false_eq_not_mem _ _).mp h2a⟩)
      have hfreeKT2 : (⟨(Square.mk2 2 7).data, hkt64⟩ : Fin 64) = ⟨mv.start.data, hs64⟩ ∨
          (⟨(Square.mk2 2 7).data, hkt64⟩ : Fin 64) =
            ⟨(Square.mk2 (g.fileOfQueensRook : Int) 7).data, hrs64b⟩ ∨
          ((⟨(Square.mk2 2 7).data, hkt64⟩ : Fin 64) ∉ g.blackPositionBoard ∧
           (⟨(Square.mk2 2 7).data, hkt64⟩ : Fin 64) ∉ g.whitePositionBoard) := by
        have h2 := hfreeKT
        unfold freeAfterCastle at h2
        rw [hktEq, hrsEq] at h2
        rcases h2 with h2 | h2 | ⟨h2a, h2b⟩
        · exact Or.inl (Fin.ext h2)
        · exact Or.inr (Or.inl (Fin.ext h2))
        · exact Or.inr (Or.inr ⟨(testBit_false_eq_not_mem _ _).mp h2b,
            (testBit_false_eq_not_mem _ _).mp h2a⟩)
      have hrtkt2 : (⟨(Square.mk2 3 7).data, hrt64⟩ : Fin 64) ≠
          (⟨(Square.mk2 2 7).data, hkt64⟩ : Fin 64) :=
        fun h => absurd (congrArg Fin.val h)
          (by decide : ¬ ((Square.mk2 3 7).data = (Square.mk2 2 7).data))
      have hres := inv_update_castle g.blackPositionBoard g.whitePositionBoard g.board
        ⟨mv.start.data, hs64⟩ ⟨(Square.mk2 (g.fileOfQueensRook : Int) 7).data, hrs64b⟩
        ⟨(Square.mk2 3 7).data, hrt64⟩ ⟨(Square.mk2 2 7).data, hkt64⟩
        (by rw [Finset.inter_comm]; exact hCB) hPD (by rw [Finset.union_comm]; exact hU) hBK hWK rfl hsW hsK hrsW hrsR hfreeRT2 hfreeKT2 hrtkt2
      simp only [] at hres
      obtain ⟨hres1, hres2, hres3, hres4, hres5⟩ := hres
      have hW2 : (g.processMove Army.Black mv).blackPositionBoard =
          insert (⟨(Square.mk2 2 7).data, hkt64⟩ : Fin 64)
            (insert (⟨(Square.mk2 3 7).data, hrt64⟩ : Fin 64)
              ((g.blackPositionBoard.erase ⟨mv.start.data, hs64⟩).erase
                ⟨(Square.mk2 (g.fileOfQueensRook : Int) 7).data, hrs64b⟩)) := by
        rw [processMove_black_blackBoard, if_pos hc, if_neg hside,
          setBit_false_eq_erase _ _ hs64, setBit_false_eq_erase _ _ hrs64b,
          setBit_true_eq_insert _ _ hrt64, setBit_true_eq_insert _ _ hkt64]
      have hB2 : (g.processMove Army.Black mv).whitePositionBoard =
          g.whitePositionBoard := by
        rw [processMove_black_whiteBoard, if_neg hcapF]
      have hBoard : ∀ p : PieceType, (g.processMove Army.Black mv).board p =
          (if p = King then
            insert (⟨(Square.mk2 2 7).data, hkt64⟩ : Fin 64)
              ((g.board King).erase ⟨mv.start.data, hs64⟩)
           else if p = Rook then
            insert (⟨(Square.mk2 3 7).data, hrt64⟩ : Fin 64)
              ((g.board Rook).erase ⟨(Square.mk2 (g.fileOfQueensRook : Int) 7).data, hrs64b⟩)
           else g.board p) := by
        intro p
        cases p
        case Unknown =>
          rw [if_neg (by simp : ¬ (Unknown = King)), if_neg (by simp : ¬ (Unknown = Rook))]
          rfl
        case King =>
          show (g.processMove Army.Black mv).kingsBoard = _
          rw [processMove_black_kingsBoard]
          simp only []
          rw [if_neg hcapF, if_pos hK, if_pos hc, if_neg hside,
            setBit_false_eq_erase _ _ hs64, setBit_true_eq_insert _ _ hkt64]
          rfl
        case Queen =>
          show (g.processMove Army.Black mv).queensBoard = _
          rw [processMove_black_queensBoard]
          simp only []
          rw [if_neg hcapF, if_neg (by rw [hK]; simp : ¬ (mv.piece = Queen)), if_pos hc,
            if_neg hside]
          rfl
        case Rook =>
          show (g.processMove Army.Black mv).rooksBoard = _
          rw [processMove_black_rooksBoard]
          simp only []
          rw [if_neg hcapF, if_neg (by rw [hK]; simp : ¬ (mv.piece = Rook)), if_pos hc,
            if_neg hside, setBit_false_eq_erase _ _ hrs64b, setBit_true_eq_insert _ _ hrt64]
          rfl
        case Bishop =>
          show (g.processMove Army.Black mv).bishopsBoard = _
          rw [processMove_black_bishopsBoard]
          simp only []
          rw [if_neg hcapF, if_neg (by rw [hK]; simp : ¬ (mv.piece = Bishop)), if_pos hc,
            if_neg hside]
          rfl
        case Knight =>
          show (g.processMove Army.Black mv).knightsBoard = _
          rw [processMove_black_knightsBoard]
          simp only []
          rw [if_neg hcapF, if_neg (by rw [hK]; simp : ¬ (mv.piece = Knight)), if_pos hc,
            if_neg hside]
          rfl
        case Pawn =>
          show (g.processMove Army.Black mv).pawnsBoard = _
          rw [processMove_black_pawnsBoard]
          simp only []
          rw [if_neg hcapF, if_neg (by rw [hK]; simp : ¬ (mv.piece = Pawn)), if_pos hc,
            if_neg hside]
          rfl
      refine ⟨?_, ?_, ?_, ?_, ?_⟩
      · rw [hW2, hB2]
        exact (Finset.inter_comm _ _).trans hres1
      · intro p q hne
        show (g.processMove Army.Black mv).board p ∩
          (g.processMove Army.Black mv).board q = (∅ : BitBoard)
        rw [hBoard p, hBoard q]
        exact hres2 p q hne
      · show (g.processMove Army.Black mv).whitePositionBoard ∪
          (g.processMove Army.Black mv).blackPositionBoard =
          (g.processMove Army.Black mv).board King ∪
          (g.processMove Army.Black mv).board Queen ∪
          (g.processMove Army.Black mv).board Rook ∪
          (g.processMove Army.Black mv).board Bishop ∪
          (g.processMove Army.Black mv).board Knight ∪
          (g.processMove Army.Black mv).board Pawn
        rw [hW2, hB2, hBoard King, hBoard Queen, hBoard Rook, hBoard Bishop,
          hBoard Knight, hBoard Pawn]
        exact (Finset.union_comm _ _).trans hres3
      · show ((g.processMove Army.Black mv).whitePositionBoard ∩
          (g.processMove Army.Black mv).board King).card = 1
        rw [hB2, hBoard King]
        exact hres5
      · show ((g.processMove Army.Black mv).blackPositionBoard ∩
          (g.processMove Army.Black mv).board King).card = 1
        rw [hW2, hBoard King]
        exact hres4
  · -- non-castle moves
    have hcF : mv.castle = false := by
      cases hcv : mv.castle
      · rfl
      · exact absurd hcv hc
    have heW : (⟨mv.endSq.data, he64⟩ : Fin 64) ∉ g.blackPositionBoard :=
      (testBit_false_eq_not_mem _ _).mp (heNotMine hcF)
    by_cases hcap : g.captureForMove Army.Black mv = true
    · -- a capture
      have hcap64 : capturedIndex Army.Black mv < 64 := by
        by_cases hep : mv.enPassant = true
        · exact (hEPc hep).1
        · unfold capturedIndex
          rw [if_neg (fun h => hep h)]
          exact he64
      have hcB : (⟨capturedIndex Army.Black mv, hcap64⟩ : Fin 64) ∈ g.whitePositionBoard := by
        by_cases hep : mv.enPassant = true
        · exact (testBit_eq_mem _ _).mp (hEPc hep).2.1
        · have hcore : g.hasPieceAt mv.endSq.data Army.White = true := by
            unfold Game.captureForMove at hcap
            rw [Bool.or_eq_true] at hcap
            rcases hcap with h | h
            · exact h
            · exact absurd h hep
          have hx : (⟨mv.endSq.data, he64⟩ : Fin 64) ∈ g.whitePositionBoard :=
            (testBit_eq_mem _ _).mp hcore
          have hce : capturedIndex Army.Black mv = mv.endSq.data := by
            unfold capturedIndex
            rw [if_neg (fun h => hep h)]
          have hfe : (⟨capturedIndex Army.Black mv, hcap64⟩ : Fin 64) =
              (⟨mv.endSq.data, he64⟩ : Fin 64) := Fin.ext hce
          rw [hfe]
          exact hx
      have hOcc : (⟨capturedIndex Army.Black mv, hcap64⟩ : Fin 64) ∈ g.whitePositionBoard ∨
          (⟨capturedIndex Army.Black mv, hcap64⟩ : Fin 64) ∈ g.blackPositionBoard :=
        Or.inl hcB
      obtain ⟨hcT, htcU, htcUniq⟩ := pieceTypeAt_spec g ⟨hCB, hPD, hU, hWK, hBK⟩ _ hOcc
      have htcK : g.pieceTypeAt (capturedIndex Army.Black mv) ≠ King := by
        intro h
        have hKmem := (testBit_false_eq_not_mem (g.board King)
          (⟨capturedIndex Army.Black mv, hcap64⟩ : Fin 64)).mp (hNoKingCap hcap)
        rw [h] at hcT
        exact hKmem hcT
      have heB2 : (⟨mv.endSq.data, he64⟩ : Fin 64) ∉
          g.whitePositionBoard.erase ⟨capturedIndex Army.Black mv, hcap64⟩ := by
        by_cases hep : mv.enPassant = true
        · intro hmem
          exact (testBit_false_eq_not_mem _ _).mp (hEPc hep).2.2 (Finset.mem_of_mem_erase hmem)
        · have hce : capturedIndex Army.Black mv = mv.endSq.data := by
            unfold capturedIndex
            rw [if_neg (fun h => hep h)]
          intro hmem
          rw [Finset.mem_erase] at hmem
          exact hmem.1 (by rw [Fin.mk.injEq]; exact hce.symm)
      have heBd : ∀ q : PieceType, (⟨mv.endSq.data, he64⟩ : Fin 64) ∈ g.board q →
          q = g.pieceTypeAt (capturedIndex Army.Black mv) ∧
            (⟨capturedIndex Army.Black mv, hcap64⟩ : Fin 64) = ⟨mv.endSq.data, he64⟩ := by
        intro q hq
        by_cases hep : mv.enPassant = true
        · exfalso
          rcases mem_board_mem_colors g hU q _ hq with h | h
          · exact (testBit_false_eq_not_mem _ _).mp (hEPc hep).2.2 h
          · exact heW h
        · have hce : capturedIndex Army.Black mv = mv.endSq.data := by
            unfold capturedIndex
            rw [if_neg (fun h => hep h)]
          have hfe : (⟨capturedIndex Army.Black mv, hcap64⟩ : Fin 64) =
              (⟨mv.endSq.data, he64⟩ : Fin 64) := by
            rw [Fin.mk.injEq]
            exact hce
          constructor
          · exact htcUniq q (by rw [hfe]; exact hq)
          · exact hfe
      by_cases hpr : mv.promotion ≠ Unknown
      · obtain ⟨hpP, hpK⟩ := hPromoC hpr
        have hres := inv_update_cap g.blackPositionBoard g.whitePositionBoard g.board
          mv.piece (g.pieceTypeAt (capturedIndex Army.Black mv)) mv.promotion
          ⟨mv.start.data, hs64⟩ ⟨mv.endSq.data, he64⟩ ⟨capturedIndex Army.Black mv, hcap64⟩
          (by rw [Finset.inter_comm]; exact hCB) hPD (by rw [Finset.union_comm]; exact hU) hBK hWK hpr
          (by constructor
              · intro h
                rw [hpP] at h
                exact absurd h (by simp)
              · intro h
                exact absurd h hpK)
          hsW hsM hcB hcT htcK heW heB2 heBd
        simp only [] at hres
        obtain ⟨hres1, hres2, hres3, hres4, hres5⟩ := hres
        have hW2 : (g.processMove Army.Black mv).blackPositionBoard =
            insert (⟨mv.endSq.data, he64⟩ : Fin 64)
              (g.blackPositionBoard.erase ⟨mv.start.data, hs64⟩) := by
          rw [processMove_black_blackBoard, if_neg hc,
            setBit_false_eq_erase _ _ hs64, setBit_true_eq_insert _ _ he64]
        have hB2 : (g.processMove Army.Black mv).whitePositionBoard =
            g.whitePositionBoard.erase ⟨capturedIndex Army.Black mv, hcap64⟩ := by
          rw [processMove_black_whiteBoard, if_pos hcap, setBit_false_eq_erase _ _ hcap64]
        have hBoard : ∀ p : PieceType, (g.processMove Army.Black mv).board p =
            (if mv.promotion = p then
              insert (⟨mv.endSq.data, he64⟩ : Fin 64)
                (if mv.piece = p then
                  ((if g.pieceTypeAt (capturedIndex Army.Black mv) = p then
                      (g.board p).erase ⟨capturedIndex Army.Black mv, hcap64⟩
                    else g.board p)).erase ⟨mv.start.data, hs64⟩
                 else (if g.pieceTypeAt (capturedIndex Army.Black mv) = p then
                      (g.board p).erase ⟨capturedIndex Army.Black mv, hcap64⟩
                    else g.board p))
             else
              (if mv.piece = p then
                  ((if g.pieceTypeAt (capturedIndex Army.Black mv) = p then
                      (g.board p).erase ⟨capturedIndex Army.Black mv, hcap64⟩
                    else g.board p)).erase ⟨mv.start.data, hs64⟩
                 else (if g.pieceTypeAt (capturedIndex Army.Black mv) = p then
                      (g.board p).erase ⟨capturedIndex Army.Black mv, hcap64⟩
                    else g.board p))) := by
          intro p
          cases p
          case Unknown =>
            rw [if_neg hpr, if_neg hMovNe, if_neg htcU]
            rfl
          case King =>
            show (g.processMove Army.Black mv).kingsBoard = _
            rw [processMove_black_kingsBoard]
            simp only []
            rw [if_neg hc, if_pos hpr, if_pos hcap, setBit_false_eq_erase _ _ hcap64,
              setBit_false_eq_erase _ _ hs64, setBit_true_eq_insert _ _ he64]
            rfl
          case Queen =>
            show (g.processMove Army.Black mv).queensBoard = _
            rw [processMove_black_queensBoard]
            simp only []
            rw [if_neg hc, if_pos hpr, if_pos hcap, setBit_false_eq_erase _ _ hcap64,
              setBit_false_eq_erase _ _ hs64, setBit_true_eq_insert _ _ he64]
            rfl
          case Rook =>
            show (g.processMove Army.Black mv).rooksBoard = _
            rw [processMove_black_rooksBoard]
            simp only []
            rw [if_neg hc, if_pos hpr, if_pos hcap, setBit_false_eq_erase _ _ hcap64,
              setBit_false_eq_erase _ _ hs64, setBit_true_eq_insert _ _ he64]
            rfl
          case Bishop =>
            show (g.processMove Army.Black mv).bishopsBoard = _
            rw [processMove_black_bishopsBoard]
            simp only []
            rw [if_neg hc, if_pos hpr, if_pos hcap, setBit_false_eq_erase _ _ hcap64,
              setBit_false_eq_erase _ _ hs64, setBit_true_eq_insert _ _ he64]
            rfl
          case Knight =>
            show (g.processMove Army.Black mv).knightsBoard = _
            rw [processMove_black_knightsBoard]
            simp only []
            rw [if_neg hc, if_pos hpr, if_pos hcap, setBit_false_eq_erase _ _ hcap64,
              setBit_false_eq_erase _ _ hs64, setBit_true_eq_insert _ _ he64]
            rfl
          case Pawn =>
            show (g.processMove Army.Black mv).pawnsBoard = _
            rw [processMove_black_pawnsBoard]
            simp only []
            rw [if_neg hc, if_pos hpr, if_pos hcap, setBit_false_eq_erase _ _ hcap64,
              setBit_false_eq_erase _ _ hs64, setBit_true_eq_insert _ _ he64]
            rfl
        refine ⟨?_, ?_, ?_, ?_, ?_⟩
        · rw [hW2, hB2]
          exact (Finset.inter_comm _ _).trans hres1
        · intro p q hne
          show (g.processMove Army.Black mv).board p ∩
            (g.processMove Army.Black mv).board q = (∅ : BitBoard)
          rw [hBoard p, hBoard q]
          exact hres2 p q hne
        · show (g.processMove Army.Black mv).whitePositionBoard ∪
            (g.processMove Army.Black mv).blackPositionBoard =
            (g.processMove Army.Black mv).board King ∪
            (g.processMove Army.Black mv).board Queen ∪
            (g.processMove Army.Black mv).board Rook ∪
            (g.processMove Army.Black mv).board Bishop ∪
            (g.processMove Army.Black mv).board Knight ∪
            (g.processMove Army.Black mv).board Pawn
          rw [hW2, hB2, hBoard King, hBoard Queen, hBoard Rook, hBoard Bishop,
            hBoard Knight, hBoard Pawn]
          exact (Finset.union_comm _ _).trans hres3
        · show ((g.processMove Army.Black mv).whitePositionBoard ∩
            (g.processMove Army.Black mv).board King).card = 1
          rw [hB2, hBoard King]
          exact hres5
        · show ((g.processMove Army.Black mv).blackPositionBoard ∩
            (g.processMove Army.Black mv).board King).card = 1
          rw [hW2, hBoard King]
          exact hres4
      · have hres := inv_update_cap g.blackPositionBoard g.whitePositionBoard g.board
          mv.piece (g.pieceTypeAt (capturedIndex Army.Black mv)) mv.piece
          ⟨mv.start.data, hs64⟩ ⟨mv.endSq.data, he64⟩ ⟨capturedIndex Army.Black mv, hcap64⟩
          (by rw [Finset.inter_comm]; exact hCB) hPD (by rw [Finset.union_comm]; exact hU) hBK hWK hMovNe Iff.rfl
          hsW hsM hcB hcT htcK heW heB2 heBd
        simp only [] at hres
        obtain ⟨hres1, hres2, hres3, hres4, hres5⟩ := hres
        have hW2 : (g.processMove Army.Black mv).blackPositionBoard =
            insert (⟨mv.endSq.data, he64⟩ : Fin 64)
              (g.blackPositionBoard.erase ⟨mv.start.data, hs64⟩) := by
          rw [processMove_black_blackBoard, if_neg hc,
            setBit_false_eq_erase _ _ hs64, setBit_true_eq_insert _ _ he64]
        have hB2 : (g.processMove Army.Black mv).whitePositionBoard =
            g.whitePositionBoard.erase ⟨capturedIndex Army.Black mv, hcap64⟩ := by
          rw [processMove_black_whiteBoard, if_pos hcap, setBit_false_eq_erase _ _ hcap64]
        have hBoard : ∀ p : PieceType, (g.processMove Army.Black mv).board p =
            (if mv.piece = p then
              insert (⟨mv.endSq.data, he64⟩ : Fin 64)
                (if mv.piece = p then
                  ((if g.pieceTypeAt (capturedIndex Army.Black mv) = p then
                      (g.board p).erase ⟨capturedIndex Army.Black mv, hcap64⟩
                    else g.board p)).erase ⟨mv.start.data, hs64⟩
                 else (if g.pieceTypeAt (capturedIndex Army.Black mv) = p then
                      (g.board p).erase ⟨capturedIndex Army.Black mv, hcap64⟩
                    else g.board p))
             else
              (if mv.piece = p then
                  ((if g.pieceTypeAt (capturedIndex Army.Black mv) = p then
                      (g.board p).erase ⟨capturedIndex Army.Black mv, hcap64⟩
                    else g.board p)).erase ⟨mv.start.data, hs64⟩
                 else (if g.pieceTypeAt (capturedIndex Army.Black mv) = p then
                      (g.board p).erase ⟨capturedIndex Army.Black mv, hcap64⟩
                    else g.board p))) := by
          intro p
          have hnp : ¬ (mv.promotion ≠ Unknown) := hpr
          cases p
          case Unknown =>
            rw [if_neg hMovNe, if_neg hMovNe, if_neg htcU]
            rfl
          case King =>
            show (g.processMove Army.Black mv).kingsBoard = _
            rw [processMove_black_kingsBoard]
            simp only []
            rw [if_neg hc, if_neg hnp, if_pos hcap, setBit_false_eq_erase _ _ hcap64,
              setBit_false_eq_erase _ _ hs64, setBit_true_eq_insert _ _ he64]
            rfl
          case Queen =>
            show (g.processMove Army.Black mv).queensBoard = _
            rw [processMove_black_queensBoard]
            simp only []
            rw [if_neg hc, if_neg hnp, if_pos hcap, setBit_false_eq_erase _ _ hcap64,
              setBit_false_eq_erase _ _ hs64, setBit_true_eq_insert _ _ he64]
            rfl
          case Rook =>
            show (g.processMove Army.Black mv).rooksBoard = _
            rw [processMove_black_rooksBoard]
            simp only []
            rw [if_neg hc, if_neg hnp, if_pos hcap, setBit_false_eq_erase _ _ hcap64,
              setBit_false_eq_erase _ _ hs64, setBit_true_eq_insert _ _ he64]
            rfl
          case Bishop =>
            show (g.processMove Army.Black mv).bishopsBoard = _
            rw [processMove_black_bishopsBoard]
            simp only []
            rw [if_neg hc, if_neg hnp, if_pos hcap, setBit_false_eq_erase _ _ hcap64,
              setBit_false_eq_erase _ _ hs64, setBit_true_eq_insert _ _ he64]
            rfl
          case Knight =>
            show (g.processMove Army.Black mv).knightsBoard = _
            rw [processMove_black_knightsBoard]
            simp only []
            rw [if_neg hc, if_neg hnp, if_pos hcap, setBit_false_eq_erase _ _ hcap64,
              setBit_false_eq_erase _ _ hs64, setBit_true_eq_insert _ _ he64]
            rfl
          case Pawn =>
            show (g.processMove Army.Black mv).pawnsBoard = _
            rw [processMove_black_pawnsBoard]
            simp only []
            rw [if_neg hc, if_neg hnp, if_pos hcap, setBit_false_eq_erase _ _ hcap64,
              setBit_false_eq_erase _ _ hs64, setBit_true_eq_insert _ _ he64]
            rfl
        refine ⟨?_, ?_, ?_, ?_, ?_⟩
        · rw [hW2, hB2]
          exact (Finset.inter_comm _ _).trans hres1
        · intro p q hne
          show (g.processMove Army.Black mv).board p ∩
            (g.processMove Army.Black mv).board q = (∅ : BitBoard)
          rw [hBoard p, hBoard q]
          exact hres2 p q hne
        · show (g.processMove Army.Black mv).whitePositionBoard ∪
            (g.processMove Army.Black mv).blackPositionBoard =
            (g.processMove Army.Black mv).board King ∪
            (g.processMove Army.Black mv).board Queen ∪
            (g.processMove Army.Black mv).board Rook ∪
            (g.processMove Army.Black mv).board Bishop ∪
            (g.processMove Army.Black mv).board Knight ∪
            (g.processMove Army.Black mv).board Pawn
          rw [hW2, hB2, hBoard King, hBoard Queen, hBoard Rook, hBoard Bishop,
            hBoard Knight, hBoard Pawn]
          exact (Finset.union_comm _ _).trans hres3
        · show ((g.processMove Army.Black mv).whitePositionBoard ∩
            (g.processMove Army.Black mv).board King).card = 1
          rw [hB2, hBoard King]
          exact hres5
        · show ((g.processMove Army.Black mv).blackPositionBoard ∩
            (g.processMove Army.Black mv).board King).card = 1
          rw [hW2, hBoard King]
          exact hres4
    · have hepF : mv.enPassant = false := by
        unfold Game.captureForMove at hcap
        cases hev : mv.enPassant
        · rfl
        · exact absurd (by rw [hev, Bool.or_true]) hcap
      have heB : (⟨mv.endSq.data, he64⟩ : Fin 64) ∉ g.whitePositionBoard := by
        intro hmem
        apply hcap
        unfold Game.captureForMove
        rw [Bool.or_eq_true]
        left
        exact (testBit_eq_mem g.whitePositionBoard ⟨mv.endSq.data, he64⟩).mpr hmem
      have heBd : ∀ q : PieceType, (⟨mv.endSq.data, he64⟩ : Fin 64) ∉ g.board q := by
        intro q hq
        rcases mem_board_mem_colors g hU q _ hq with h | h
        · exact heB h
        · exact heW h
      by_cases hpr : mv.promotion ≠ Unknown
      · obtain ⟨hpP, hpK⟩ := hPromoC hpr
        have hres := inv_update_nocap g.blackPositionBoard g.whitePositionBoard g.board
          mv.piece mv.promotion ⟨mv.start.data, hs64⟩ ⟨mv.endSq.data, he64⟩
          (by rw [Finset.inter_comm]; exact hCB) hPD (by rw [Finset.union_comm]; exact hU) hBK hWK hpr
          (by constructor
              · intro h
                rw [hpP] at h
                exact absurd h (by simp)
              · intro h
                exact absurd h hpK)
          hsW hsM heW heB heBd
        simp only [] at hres
        obtain ⟨hres1, hres2, hres3, hres4, hres5⟩ := hres
        have hW2 : (g.processMove Army.Black mv).blackPositionBoard =
            insert (⟨mv.endSq.data, he64⟩ : Fin 64)
              (g.blackPositionBoard.erase ⟨mv.start.data, hs64⟩) := by
          rw [processMove_black_blackBoard, if_neg hc,
            setBit_false_eq_erase _ _ hs64, setBit_true_eq_insert _ _ he64]
        have hB2 : (g.processMove Army.Black mv).whitePositionBoard =
            g.whitePositionBoard := by
          rw [processMove_black_whiteBoard, if_neg hcap]
        have hBoard : ∀ p : PieceType, (g.processMove Army.Black mv).board p =
            (if mv.promotion = p then
              insert (⟨mv.endSq.data, he64⟩ : Fin 64)
                (if mv.piece = p then (g.board p).erase ⟨mv.start.data, hs64⟩ else g.board p)
             else
              (if mv.piece = p then (g.board p).erase ⟨mv.start.data, hs64⟩
               else g.board p)) := by
          intro p
          cases p
          case Unknown =>
            rw [if_neg hpr, if_neg hMovNe]
            rfl
          case King =>
            show (g.processMove Army.Black mv).kingsBoard = _
            rw [processMove_black_kingsBoard]
            simp only []
            rw [if_neg hc, if_pos hpr, if_neg hcap,
              setBit_false_eq_erase _ _ hs64, setBit_true_eq_insert _ _ he64]
            rfl
          case Queen =>
            show (g.processMove Army.Black mv).queensBoard = _
            rw [processMove_black_queensBoard]
            simp only []
            rw [if_neg hc, if_pos hpr, if_neg hcap,
              setBit_false_eq_erase _ _ hs64, setBit_true_eq_insert _ _ he64]
            rfl
          case Rook =>
            show (g.processMove Army.Black mv).rooksBoard = _
            rw [processMove_black_rooksBoard]
            simp only []
            rw [if_neg hc, if_pos hpr, if_neg hcap,
              setBit_false_eq_erase _ _ hs64, setBit_true_eq_insert _ _ he64]
            rfl
          case Bishop =>
            show (g.processMove Army.Black mv).bishopsBoard = _
            rw [processMove_black_bishopsBoard]
            simp only []
            rw [if_neg hc, if_pos hpr, if_neg hcap,
              setBit_false_eq_erase _ _ hs64, setBit_true_eq_insert _ _ he64]
            rfl
          case Knight =>
            show (g.processMove Army.Black mv).knightsBoard = _
            rw [processMove_black_knightsBoard]
            simp only []
            rw [if_neg hc, if_pos hpr, if_neg hcap,
              setBit_false_eq_erase _ _ hs64, setBit_true_eq_insert _ _ he64]
            rfl
          case Pawn =>
            show (g.processMove Army.Black mv).pawnsBoard = _
            rw [processMove_black_pawnsBoard]
            simp only []
            rw [if_neg hc, if_pos hpr, if_neg hcap,
              setBit_false_eq_erase _ _ hs64, setBit_true_eq_insert _ _ he64]
            rfl
        refine ⟨?_, ?_, ?_, ?_, ?_⟩
        · rw [hW2, hB2]
          exact (Finset.inter_comm _ _).trans hres1
        · intro p q hne
          show (g.processMove Army.Black mv).board p ∩
            (g.processMove Army.Black mv).board q = (∅ : BitBoard)
          rw [hBoard p, hBoard q]
          exact hres2 p q hne
        · show (g.processMove Army.Black mv).whitePositionBoard ∪
            (g.processMove Army.Black mv).blackPositionBoard =
            (g.processMove Army.Black mv).board King ∪
            (g.processMove Army.Black mv).board Queen ∪
            (g.processMove Army.Black mv).board Rook ∪
            (g.processMove Army.Black mv).board Bishop ∪
            (g.processMove Army.Black mv).board Knight ∪
            (g.processMove Army.Black mv).board Pawn
          rw [hW2, hB2, hBoard King, hBoard Queen, hBoard Rook, hBoard Bishop,
            hBoard Knight, hBoard Pawn]
          exact (Finset.union_comm _ _).trans hres3
        · show ((g.processMove Army.Black mv).whitePositionBoard ∩
            (g.processMove Army.Black mv).board King).card = 1
          rw [hB2, hBoard King]
          exact hres5
        · show ((g.processMove Army.Black mv).blackPositionBoard ∩
            (g.processMove Army.Black mv).board King).card = 1
          rw [hW2, hBoard King]
          exact hres4
      · have hnp : ¬ (mv.promotion ≠ Unknown) := hpr
        have hres := inv_update_nocap g.blackPositionBoard g.whitePositionBoard g.board
          mv.piece mv.piece ⟨mv.start.data, hs64⟩ ⟨mv.endSq.data, he64⟩
          (by rw [Finset.inter_comm]; exact hCB) hPD (by rw [Finset.union_comm]; exact hU) hBK hWK hMovNe Iff.rfl
          hsW hsM heW heB heBd
        simp only [] at hres
        obtain ⟨hres1, hres2, hres3, hres4, hres5⟩ := hres
        have hW2 : (g.processMove Army.Black mv).blackPositionBoard =
            insert (⟨mv.endSq.data, he64⟩ : Fin 64)
              (g.blackPositionBoard.erase ⟨mv.start.data, hs64⟩) := by
          rw [processMove_black_blackBoard, if_neg hc,
            setBit_false_eq_erase _ _ hs64, setBit_true_eq_insert _ _ he64]
        have hB2 : (g.processMove Army.Black mv).whitePositionBoard =
            g.whitePositionBoard := by
          rw [processMove_black_whiteBoard, if_neg hcap]
        have hBoard : ∀ p : PieceType, (g.processMove Army.Black mv).board p =
            (if mv.piece = p then
              insert (⟨mv.endSq.data, he64⟩ : Fin 64)
                (if mv.piece = p then (g.board p).erase ⟨mv.start.data, hs64⟩ else g.board p)
             else
              (if mv.piece = p then (g.board p).erase ⟨mv.start.data, hs64⟩
               else g.board p)) := by
          intro p
          cases p
          case Unknown =>
            rw [if_neg hMovNe, if_neg hMovNe]
            rfl
          case King =>
            show (g.processMove Army.Black mv).kingsBoard = _
            rw [processMove_black_kingsBoard]
            simp only []
            rw [if_neg hc, if_neg hnp, if_neg hcap,
              setBit_false_eq_erase _ _ hs64, setBit_true_eq_insert _ _ he64]
            rfl
          case Queen =>
            show (g.processMove Army.Black mv).queensBoard = _
            rw [processMove_black_queensBoard]
            simp only []
            rw [if_neg hc, if_neg hnp, if_neg hcap,
              setBit_false_eq_erase _ _ hs64, setBit_true_eq_insert _ _ he64]
            rfl
          case Rook =>
            show (g.processMove Army.Black mv).rooksBoard = _
            rw [processMove_black_rooksBoard]
            simp only []
            rw [if_neg hc, if_neg hnp, if_neg hcap,
              setBit_false_eq_erase _ _ hs64, setBit_true_eq_insert _ _ he64]
            rfl
          case Bishop =>
            show (g.processMove Army.Black mv).bishopsBoard = _
            rw [processMove_black_bishopsBoard]
            simp only []
            rw [if_neg hc, if_neg hnp, if_neg hcap,
              setBit_false_eq_erase _ _ hs64, setBit_true_eq_insert _ _ he64]
            rfl
          case Knight =>
            show (g.processMove Army.Black mv).knightsBoard = _
            rw [processMove_black_knightsBoard]
            simp only []
            rw [if_neg hc, if_neg hnp, if_neg hcap,
              setBit_false_eq_erase _ _ hs64, setBit_true_eq_insert _ _ he64]
            rfl
          case Pawn =>
            show (g.processMove Army.Black mv).pawnsBoard = _
            rw [processMove_black_pawnsBoard]
            simp only []
            rw [if_neg hc, if_neg hnp, if_neg hcap,
              setBit_false_eq_erase _ _ hs64, setBit_true_eq_insert _ _ he64]
            rfl
        refine ⟨?_, ?_, ?_, ?_, ?_⟩
        · rw [hW2, hB2]
          exact (Finset.inter_comm _ _).trans hres1
        · intro p q hne
          show (g.processMove Army.Black mv).board p ∩
            (g.processMove Army.Black mv).board q = (∅ : BitBoard)
          rw [hBoard p, hBoard q]
          exact hres2 p q hne
        · show (g.processMove Army.Black mv).whitePositionBoard ∪
            (g.processMove Army.Black mv).blackPositionBoard =
            (g.processMove Army.Black mv).board King ∪
            (g.processMove Army.Black mv).board Queen ∪
            (g.processMove Army.Black mv).board Rook ∪
            (g.processMove Army.Black mv).board Bishop ∪
            (g.processMove Army.Black mv).board Knight ∪
            (g.processMove Army.Black mv).board Pawn
          rw [hW2, hB2, hBoard King, hBoard Queen, hBoard Rook, hBoard Bishop,
            hBoard Knight, hBoard Pawn]
          exact (Finset.union_comm _ _).trans hres3
        · show ((g.processMove Army.Black mv).whitePositionBoard ∩
            (g.processMove Army.Black mv).board King).card = 1
          rw [hB2, hBoard King]
          exact hres5
        · show ((g.processMove Army.Black mv).blackPositionBoard ∩
            (g.processMove Army.Black mv).board King).card = 1
          rw [hW2, hBoard King]
          exact hres4


end Allie

namespace Allie
open Army PieceType Castle

/-- The placement triples `setFen` parses from a FEN text. -/
def fenTriples (f : List Char) : List (Square × Army × PieceType) :=
  scanPlacement (splitOn '/' ((splitOn ' ' f).headD []))

/-- Well-formedness of a FEN placement as parsed by the scanning loop:
distinct in-range squares, known piece kinds, and exactly one king of each
color. -/
def wellFormedFen (f : List Char) : Prop :=
  ((fenTriples f).map (fun t => t.1.data)).Nodup ∧
  (∀ t ∈ fenTriples f, t.1.data < 64 ∧ t.2.2 ≠ Unknown) ∧
  (fenTriples f).countP (fun t => decide (t.2.1 = Army.White ∧ t.2.2 = King)) = 1 ∧
  (fenTriples f).countP (fun t => decide (t.2.1 = Army.Black ∧ t.2.2 = King)) = 1

instance (f : List Char) : Decidable (wellFormedFen f) := by
  unfold wellFormedFen
  infer_instance

/-- One step of the placement fold of `setFen`. -/
def placeTriple (g : Game) (t : Square × Army × PieceType) : Game :=
  g.togglePieceAt t.1.data t.2.1 t.2.2 true

/-- The parsed-field reset `setFen` performs before placing the pieces. -/
def setFenBase (g0 : Game) : Game :=
  { g0 with
    activeArmy := Army.White,
    halfMoveClock := 0,
    halfMoveNumber := 2,
    fileOfKingsRook := 0,
    fileOfQueensRook := 0,
    enPassantTarget := Square.invalid,
    whitePositionBoard := (∅ : BitBoard),
    blackPositionBoard := (∅ : BitBoard),
    kingsBoard := (∅ : BitBoard),
    queensBoard := (∅ : BitBoard),
    rooksBoard := (∅ : BitBoard),
    bishopsBoard := (∅ : BitBoard),
    knightsBoard := (∅ : BitBoard),
    pawnsBoard := (∅ : BitBoard),
    hasWhiteKingCastle := false,
    hasBlackKingCastle := false,
    hasWhiteQueenCastle := false,
    hasBlackQueenCastle := false }

theorem togglePieceAt_board (g : Game) (i : Nat) (a : Army) (p : PieceType) (v : Bool)
    (q : PieceType) (hq : q ≠ Unknown) :
    (g.togglePieceAt i a p v).board q =
      if p = q then (g.board q).setBit i v else g.board q := by
  cases q
  case King => exact togglePieceAt_kings g i a p v
  case Queen => exact togglePieceAt_queens g i a p v
  case Rook => exact togglePieceAt_rooks g i a p v
  case Bishop => exact togglePieceAt_bishops g i a p v
  case Knight => exact togglePieceAt_knights g i a p v
  case Pawn => exact togglePieceAt_pawns g i a p v
  case Unknown => exact absurd rfl hq

/-- Membership in the white board of the placement fold. -/
theorem fold_mem_white (ts : List (Square × Army × PieceType)) (g : Game) (j : Fin 64) :
    j ∈ (ts.foldl placeTriple g).whitePositionBoard ↔
      j ∈ g.whitePositionBoard ∨
        ∃ t, t ∈ ts ∧ t.1.data = j.val ∧ t.2.1 = Army.White := by
  induction ts generalizing g with
  | nil =>
    simp only [List.foldl_nil]
    constructor
    · exact fun h => Or.inl h
    · rintro (h | ⟨t, ht, -, -⟩)
      · exact h
      · exact absurd ht (List.not_mem_nil t)
  | cons t rest ih =>
    rw [List.foldl_cons, ih]
    have hstep : j ∈ (placeTriple g t).whitePositionBoard ↔
        j ∈ g.whitePositionBoard ∨ (t.1.data = j.val ∧ t.2.1 = Army.White) := by
      unfold placeTriple
      cases ha : t.2.1 with
      | White =>
        rw [togglePieceAt_white_white, mem_setBit_true]
        constructor
        · rintro (hv | hj)
          · exact Or.inr ⟨hv.symm, rfl⟩
          · exact Or.inl hj
        · rintro (hj | ⟨hv, -⟩)
          · exact Or.inr hj
          · exact Or.inl hv.symm
      | Black =>
        rw [togglePieceAt_white_black]
        constructor
        · exact fun h => Or.inl h
        · rintro (hj | ⟨-, harmy⟩)
          · exact hj
          · exact absurd harmy (by simp)
    rw [hstep]
    constructor
    · rintro ((hj | ⟨hv, ha⟩) | ⟨u, hu, hv, ha⟩)
      · exact Or.inl hj
      · exact Or.inr ⟨t, List.mem_cons_self t rest, hv, ha⟩
      · exact Or.inr ⟨u, List.mem_cons_of_mem t hu, hv, ha⟩
    · rintro (hj | ⟨u, hu, hv, ha⟩)
      · exact Or.inl (Or.inl hj)
      · rcases List.mem_cons.mp hu with rfl | hu2
        · exact Or.inl (Or.inr ⟨hv, ha⟩)
        · exact Or.inr ⟨u, hu2, hv, ha⟩

/-- Membership in the black board of the placement fold. -/
theorem fold_mem_black (ts : List (Square × Army × PieceType)) (g : Game) (j : Fin 64) :
    j ∈ (ts.foldl placeTriple g).blackPositionBoard ↔
      j ∈ g.blackPositionBoard ∨
        ∃ t, t ∈ ts ∧ t.1.data = j.val ∧ t.2.1 = Army.Black := by
  induction ts generalizing g with
  | nil =>
    simp only [List.foldl_nil]
    constructor
    · exact fun h => Or.inl h
    · rintro (h | ⟨t, ht, -, -⟩)
      · exact h
      · exact absurd ht (List.not_mem_nil t)
  | cons t rest ih =>
    rw [List.foldl_cons, ih]
    have hstep : j ∈ (placeTriple g t).blackPositionBoard ↔
        j ∈ g.blackPositionBoard ∨ (t.1.data = j.val ∧ t.2.1 = Army.Black) := by
      unfold placeTriple
      cases ha : t.2.1 with
      | Black =>
        rw [togglePieceAt_black_black, mem_setBit_true]
        constructor
        · rintro (hv | hj)
          · exact Or.inr ⟨hv.symm, rfl⟩
          · exact Or.inl hj
        · rintro (hj | ⟨hv, -⟩)
          · exact Or.inr hj
          · exact Or.inl hv.symm
      | White =>
        rw [togglePieceAt_black_white]
        constructor
        · exact fun h => Or.inl h
        · rintro (hj | ⟨-, harmy⟩)
          · exact hj
          · exact absurd harmy (by simp)
    rw [hstep]
    constructor
    · rintro ((hj | ⟨hv, ha⟩) | ⟨u, hu, hv, ha⟩)
      · exact Or.inl hj
      · exact Or.inr ⟨t, List.mem_cons_self t rest, hv, ha⟩
      · exact Or.inr ⟨u, List.mem_cons_of_mem t hu, hv, ha⟩
    · rintro (hj | ⟨u, hu, hv, ha⟩)
      · exact Or.inl (Or.inl hj)
      · rcases List.mem_cons.mp hu with rfl | hu2
        · exact Or.inl (Or.inr ⟨hv, ha⟩)
        · exact Or.inr ⟨u, hu2, hv, ha⟩

/-- Membership in a piece board of the placement fold. -/
theorem fold_mem_board (q : PieceType) (hq : q ≠ Unknown)
    (ts : List (Square × Army × PieceType)) (g : Game) (j : Fin 64) :
    j ∈ (ts.foldl placeTriple g).board q ↔
      j ∈ g.board q ∨ ∃ t, t ∈ ts ∧ t.1.data = j.val ∧ t.2.2 = q := by
  induction ts generalizing g with
  | nil =>
    simp only [List.foldl_nil]
    constructor
    · exact fun h => Or.inl h
    · rintro (h | ⟨t, ht, -, -⟩)
      · exact h
      · exact absurd ht (List.not_mem_nil t)
  | cons t rest ih =>
    rw [List.foldl_cons, ih]
    have hstep : j ∈ (placeTriple g t).board q ↔
        j ∈ g.board q ∨ (t.1.data = j.val ∧ t.2.2 = q) := by
      unfold placeTriple
      rw [togglePieceAt_board g t.1.data t.2.1 t.2.2 true q hq]
      by_cases hp : t.2.2 = q
      · rw [if_pos hp, mem_setBit_true]
        constructor
        · rintro (hv | hj)
          · exact Or.inr ⟨hv.symm, hp⟩
          · exact Or.inl hj
        · rintro (hj | ⟨hv, -⟩)
          · exact Or.inr hj
          · exact Or.inl hv.symm
      · rw [if_neg hp]
        constructor
        · exact fun h => Or.inl h
        · rintro (hj | ⟨-, hpq⟩)
          · exact hj
          · exact absurd hpq hp
    rw [hstep]
    constructor
    · rintro ((hj | ⟨hv, ha⟩) | ⟨u, hu, hv, ha⟩)
      · exact Or.inl hj
      · exact Or.inr ⟨t, List.mem_cons_self t rest, hv, ha⟩
      · exact Or.inr ⟨u, List.mem_cons_of_mem t hu, hv, ha⟩
    · rintro (hj | ⟨u, hu, hv, ha⟩)
      · exact Or.inl (Or.inl hj)
      · rcases List.mem_cons.mp hu with rfl | hu2
        · exact Or.inl (Or.inr ⟨hv, ha⟩)
        · exact Or.inr ⟨u, hu2, hv, ha⟩

end Allie

namespace Allie
open Army PieceType Castle

theorem countP_one_exists {α : Type} (p : α → Bool) :
    ∀ l : List α, l.countP p = 1 →
      ∃ a, a ∈ l ∧ p a = true ∧ ∀ b, b ∈ l → p b = true → b = a
  | [], h => by simp [List.countP_nil] at h
  | x :: xs, h => by
    by_cases hx : p x = true
    · have hxs : xs.countP p = 0 := by
        rw [List.countP_cons_of_pos p xs hx] at h
        omega
      refine ⟨x, List.mem_cons_self x xs, hx, ?_⟩
      intro b hb hpb
      rcases List.mem_cons.mp hb with rfl | hb2
      · rfl
      · have hnb := List.countP_eq_zero.mp hxs b hb2
        exact absurd hpb hnb
    · rw [List.countP_cons_of_neg p xs hx] at h
      obtain ⟨a, ha, hpa, huniq⟩ := countP_one_exists p xs h
      refine ⟨a, List.mem_cons_of_mem x ha, hpa, ?_⟩
      intro b hb hpb
      rcases List.mem_cons.mp hb with rfl | hb2
      · exact absurd hpb hx
      · exact huniq b hb2 hpb

/-- The placement fold of `setFen`, run from empty boards over a well-formed
triple list, establishes the board invariants. -/
theorem fold_invariant (ts : List (Square × Army × PieceType))
    (hnd : (ts.map (fun t => t.1.data)).Nodup)
    (hok : ∀ t ∈ ts, t.1.data < 64 ∧ t.2.2 ≠ Unknown)
    (hwk : ts.countP (fun t => decide (t.2.1 = Army.White ∧ t.2.2 = King)) = 1)
    (hbk : ts.countP (fun t => decide (t.2.1 = Army.Black ∧ t.2.2 = King)) = 1)
    (g0 : Game)
    (hw0 : g0.whitePositionBoard = (∅ : BitBoard))
    (hb0 : g0.blackPositionBoard = (∅ : BitBoard))
    (hbd0 : ∀ p, g0.board p = (∅ : BitBoard)) :
    (ts.foldl placeTriple g0).boardInvariant := by
  have hinj : ∀ a, a ∈ ts → ∀ b, b ∈ ts → a.1.data = b.1.data → a = b := by
    intro a ha b hb hab
    exact List.inj_on_of_nodup_map hnd ha hb hab
  have hW : ∀ j : Fin 64, j ∈ (ts.foldl placeTriple g0).whitePositionBoard ↔
      ∃ t, t ∈ ts ∧ t.1.data = j.val ∧ t.2.1 = Army.White := by
    intro j
    rw [fold_mem_white, hw0]
    constructor
    · rintro (hj | h)
      · exact absurd hj (Finset.not_mem_empty j)
      · exact h
    · exact fun h => Or.inr h
  have hB : ∀ j : Fin 64, j ∈ (ts.foldl placeTriple g0).blackPositionBoard ↔
      ∃ t, t ∈ ts ∧ t.1.data = j.val ∧ t.2.1 = Army.Black := by
    intro j
    rw [fold_mem_black, hb0]
    constructor
    · rintro (hj | h)
      · exact absurd hj (Finset.not_mem_empty j)
      · exact h
    · exact fun h => Or.inr h
  have hBd : ∀ q, q ≠ Unknown → ∀ j : Fin 64, (j ∈ (ts.foldl placeTriple g0).board q ↔
      ∃ t, t ∈ ts ∧ t.1.data = j.val ∧ t.2.2 = q) := by
    intro q hq j
    rw [fold_mem_board q hq, hbd0 q]
    constructor
    · rintro (hj | h)
      · exact absurd hj (Finset.not_mem_empty j)
      · exact h
    · exact fun h => Or.inr h
  refine ⟨?_, ?_, ?_, ?_, ?_⟩
  · apply Finset.eq_empty_iff_forall_not_mem.mpr
    intro j hj
    rw [Finset.mem_inter] at hj
    obtain ⟨t1, ht1, hd1, ha1⟩ := (hW j).mp hj.1
    obtain ⟨t2, ht2, hd2, ha2⟩ := (hB j).mp hj.2
    have h12 := hinj t1 ht1 t2 ht2 (by rw [hd1, hd2])
    rw [h12] at ha1
    rw [ha1] at ha2
    exact absurd ha2 (by decide)
  · intro p q hne
    by_cases hpU : p = Unknown
    · subst hpU
      rw [show (ts.foldl placeTriple g0).board Unknown = (∅ : BitBoard) from rfl]
      exact Finset.empty_inter _
    by_cases hqU : q = Unknown
    · subst hqU
      rw [show (ts.foldl placeTriple g0).board Unknown = (∅ : BitBoard) from rfl]
      exact Finset.inter_empty _
    apply Finset.eq_empty_iff_forall_not_mem.mpr
    intro j hj
    rw [Finset.mem_inter] at hj
    obtain ⟨t1, ht1, hd1, hp1⟩ := (hBd p hpU j).mp hj.1
    obtain ⟨t2, ht2, hd2, hp2⟩ := (hBd q hqU j).mp hj.2
    have h12 := hinj t1 ht1 t2 ht2 (by rw [hd1, hd2])
    rw [h12] at hp1
    rw [hp1] at hp2
    exact hne hp2
  · apply Finset.ext
    intro j
    rw [Finset.mem_union, mem_piecesUnion]
    have hocc : ∀ q, q ≠ Unknown → j ∈ (ts.foldl placeTriple g0).board q →
        j ∈ (ts.foldl placeTriple g0).whitePositionBoard ∨
        j ∈ (ts.foldl placeTriple g0).blackPositionBoard := by
      intro q hq hj
      obtain ⟨t, ht, hd, -⟩ := (hBd q hq j).mp hj
      cases ha : t.2.1 with
      | White => exact Or.inl ((hW j).mpr ⟨t, ht, hd, ha⟩)
      | Black => exact Or.inr ((hB j).mpr ⟨t, ht, hd, ha⟩)
    constructor
    · rintro (hj | hj)
      · obtain ⟨t, ht, hd, -⟩ := (hW j).mp hj
        have hu := (hok t ht).2
        have hmem : j ∈ (ts.foldl placeTriple g0).board t.2.2 :=
          (hBd t.2.2 hu j).mpr ⟨t, ht, hd, rfl⟩
        cases hc : t.2.2 with
        | King => rw [hc] at hmem; exact Or.inl hmem
        | Queen => rw [hc] at hmem; exact Or.inr (Or.inl hmem)
        | Rook => rw [hc] at hmem; exact Or.inr (Or.inr (Or.inl hmem))
        | Bishop => rw [hc] at hmem; exact Or.inr (Or.inr (Or.inr (Or.inl hmem)))
        | Knight => rw [hc] at hmem; exact Or.inr (Or.inr (Or.inr (Or.inr (Or.inl hmem))))
        | Pawn => rw [hc] at hmem; exact Or.inr (Or.inr (Or.inr (Or.inr (Or.inr hmem))))
        | Unknown => exact absurd hc hu
      · obtain ⟨t, ht, hd, -⟩ := (hB j).mp hj
        have hu := (hok t ht).2
        have hmem : j ∈ (ts.foldl placeTriple g0).board t.2.2 :=
          (hBd t.2.2 hu j).mpr ⟨t, ht, hd, rfl⟩
        cases hc : t.2.2 with
        | King => rw [hc] at hmem; exact Or.inl hmem
        | Queen => rw [hc] at hmem; exact Or.inr (Or.inl hmem)
        | Rook => rw [hc] at hmem; exact Or.inr (Or.inr (Or.inl hmem))
        | Bishop => rw [hc] at hmem; exact Or.inr (Or.inr (Or.inr (Or.inl hmem)))
        | Knight => rw [hc] at hmem; exact Or.inr (Or.inr (Or.inr (Or.inr (Or.inl hmem))))
        | Pawn => rw [hc] at hmem; exact Or.inr (Or.inr (Or.inr (Or.inr (Or.inr hmem))))
        | Unknown => exact absurd hc hu
    · rintro (hj | hj | hj | hj | hj | hj)
      · exact hocc King (by decide) hj
      · exact hocc Queen (by decide) hj
      · exact hocc Rook (by decide) hj
      · exact hocc Bishop (by decide) hj
      · exact hocc Knight (by decide) hj
      · exact hocc Pawn (by decide) hj
  · obtain ⟨t0, ht0, hp0, huniq⟩ := countP_one_exists _ ts hwk
    have hp0a : t0.2.1 = Army.White ∧ t0.2.2 = King := of_decide_eq_true hp0
    have h64 : t0.1.data < 64 := (hok t0 ht0).1
    have hsingle : (ts.foldl placeTriple g0).whitePositionBoard ∩
        (ts.foldl placeTriple g0).kingsBoard = {(⟨t0.1.data, h64⟩ : Fin 64)} := by
      apply Finset.ext
      intro j
      rw [Finset.mem_inter, Finset.mem_singleton]
      constructor
      · rintro ⟨hjw, hjk⟩
        obtain ⟨t1, ht1, hd1, ha1⟩ := (hW j).mp hjw
        have hjk2 : j ∈ (ts.foldl placeTriple g0).board King := hjk
        obtain ⟨t2, ht2, hd2, hc2⟩ := (hBd King (by decide) j).mp hjk2
        have h12 := hinj t1 ht1 t2 ht2 (by rw [hd1, hd2])
        have hpred : decide (t1.2.1 = Army.White ∧ t1.2.2 = King) = true :=
          decide_eq_true ⟨ha1, by rw [h12]; exact hc2⟩
        have ht10 := huniq t1 ht1 hpred
        apply Fin.ext
        show j.val = t0.1.data
        rw [← hd1, ht10]
      · rintro rfl
        exact ⟨(hW _).mpr ⟨t0, ht0, rfl, hp0a.1⟩,
          (hBd King (by decide) _).mpr ⟨t0, ht0, rfl, hp0a.2⟩⟩
    rw [hsingle]
    exact Finset.card_singleton _
  · obtain ⟨t0, ht0, hp0, huniq⟩ := countP_one_exists _ ts hbk
    have hp0a : t0.2.1 = Army.Black ∧ t0.2.2 = King := of_decide_eq_true hp0
    have h64 : t0.1.data < 64 := (hok t0 ht0).1
    have hsingle : (ts.foldl placeTriple g0).blackPositionBoard ∩
        (ts.foldl placeTriple g0).kingsBoard = {(⟨t0.1.data, h64⟩ : Fin 64)} := by
      apply Finset.ext
      intro j
      rw [Finset.mem_inter, Finset.mem_singleton]
      constructor
      · rintro ⟨hjw, hjk⟩
        obtain ⟨t1, ht1, hd1, ha1⟩ := (hB j).mp hjw
        have hjk2 : j ∈ (ts.foldl placeTriple g0).board King := hjk
        obtain ⟨t2, ht2, hd2, hc2⟩ := (hBd King (by decide) j).mp hjk2
        have h12 := hinj t1 ht1 t2 ht2 (by rw [hd1, hd2])
        have hpred : decide (t1.2.1 = Army.Black ∧ t1.2.2 = King) = true :=
          decide_eq_true ⟨ha1, by rw [h12]; exact hc2⟩
        have ht10 := huniq t1 ht1 hpred
        apply Fin.ext
        show j.val = t0.1.data
        rw [← hd1, ht10]
      · rintro rfl
        exact ⟨(hB _).mpr ⟨t0, ht0, rfl, hp0a.1⟩,
          (hBd King (by decide) _).mpr ⟨t0, ht0, rfl, hp0a.2⟩⟩
    rw [hsingle]
    exact Finset.card_singleton _

end Allie

namespace Allie
open Army PieceType Castle

theorem applyCastlingChar_white (wk bk : Square) (wr br : List Square) (g : Game) (c : Char) :
    (applyCastlingChar wk bk wr br g c).whitePositionBoard = g.whitePositionBoard := by
  unfold applyCastlingChar
  split
  · simp only []
    split
    · rfl
    · rfl
  · simp only []
    split
    · rfl
    · rfl

theorem foldl_applyCastlingChar_white (wk bk : Square) (wr br : List Square)
    (cs : List Char) (g : Game) :
    (cs.foldl (applyCastlingChar wk bk wr br) g).whitePositionBoard = g.whitePositionBoard := by
  induction cs generalizing g with
  | nil => rfl
  | cons c cs ih => rw [List.foldl_cons, ih, applyCastlingChar_white]

theorem applyCastlingChar_black (wk bk : Square) (wr br : List Square) (g : Game) (c : Char) :
    (applyCastlingChar wk bk wr br g c).blackPositionBoard = g.blackPositionBoard := by
  unfold applyCastlingChar
  split
  · simp only []
    split
    · rfl
    · rfl
  · simp only []
    split
    · rfl
    · rfl

theorem foldl_applyCastlingChar_black (wk bk : Square) (wr br : List Square)
    (cs : List Char) (g : Game) :
    (cs.foldl (applyCastlingChar wk bk wr br) g).blackPositionBoard = g.blackPositionBoard := by
  induction cs generalizing g with
  | nil => rfl
  | cons c cs ih => rw [List.foldl_cons, ih, applyCastlingChar_black]

theorem applyCastlingChar_kings (wk bk : Square) (wr br : List Square) (g : Game) (c : Char) :
    (applyCastlingChar wk bk wr br g c).kingsBoard = g.kingsBoard := by
  unfold applyCastlingChar
  split
  · simp only []
    split
    · rfl
    · rfl
  · simp only []
    split
    · rfl
    · rfl

theorem foldl_applyCastlingChar_kings (wk bk : Square) (wr br : List Square)
    (cs : List Char) (g : Game) :
    (cs.foldl (applyCastlingChar wk bk wr br) g).kingsBoard = g.kingsBoard := by
  induction cs generalizing g with
  | nil => rfl
  | cons c cs ih => rw [List.foldl_cons, ih, applyCastlingChar_kings]

theorem applyCastlingChar_queens (wk bk : Square) (wr br : List Square) (g : Game) (c : Char) :
    (applyCastlingChar wk bk wr br g c).queensBoard = g.queensBoard := by
  unfold applyCastlingChar
  split
  · simp only []
    split
    · rfl
    · rfl
  · simp only []
    split
    · rfl
    · rfl

theorem foldl_applyCastlingChar_queens (wk bk : Square) (wr br : List Square)
    (cs : List Char) (g : Game) :
    (cs.foldl (applyCastlingChar wk bk wr br) g).queensBoard = g.queensBoard := by
  induction cs generalizing g with
  | nil => rfl
  | cons c cs ih => rw [List.foldl_cons, ih, applyCastlingChar_queens]

theorem applyCastlingChar_rooks (wk bk : Square) (wr br : List Square) (g : Game) (c : Char) :
    (applyCastlingChar wk bk wr br g c).rooksBoard = g.rooksBoard := by
  unfold applyCastlingChar
  split
  · simp only []
    split
    · rfl
    · rfl
  · simp only []
    split
    · rfl
    · rfl

theorem foldl_applyCastlingChar_rooks (wk bk : Square) (wr br : List Square)
    (cs : List Char) (g : Game) :
    (cs.foldl (applyCastlingChar wk bk wr br) g).rooksBoard = g.rooksBoard := by
  induction cs generalizing g with
  | nil => rfl
  | cons c cs ih => rw [List.foldl_cons, ih, applyCastlingChar_rooks]

theorem applyCastlingChar_bishops (wk bk : Square) (wr br : List Square) (g : Game) (c : Char) :
    (applyCastlingChar wk bk wr br g c).bishopsBoard = g.bishopsBoard := by
  unfold applyCastlingChar
  split
  · simp only []
    split
    · rfl
    · rfl
  · simp only []
    split
    · rfl
    · rfl

theorem foldl_applyCastlingChar_bishops (wk bk : Square) (wr br : List Square)
    (cs : List Char) (g : Game) :
    (cs.foldl (applyCastlingChar wk bk wr br) g).bishopsBoard = g.bishopsBoard := by
  induction cs generalizing g with
  | nil => rfl
  | cons c cs ih => rw [List.foldl_cons, ih, applyCastlingChar_bishops]

theorem applyCastlingChar_knights (wk bk : Square) (wr br : List Square) (g : Game) (c : Char) :
    (applyCastlingChar wk bk wr br g c).knightsBoard = g.knightsBoard := by
  unfold applyCastlingChar
  split
  · simp only []
    split
    · rfl
    · rfl
  · simp only []
    split
    · rfl
    · rfl

theorem foldl_applyCastlingChar_knights (wk bk : Square) (wr br : List Square)
    (cs : List Char) (g : Game) :
    (cs.foldl (applyCastlingChar wk bk wr br) g).knightsBoard = g.knightsBoard := by
  induction cs generalizing g with
  | nil => rfl
  | cons c cs ih => rw [List.foldl_cons, ih, applyCastlingChar_knights]

theorem applyCastlingChar_pawns (wk bk : Square) (wr br : List Square) (g : Game) (c : Char) :
    (applyCastlingChar wk bk wr br g c).pawnsBoard = g.pawnsBoard := by
  unfold applyCastlingChar
  split
  · simp only []
    split
    · rfl
    · rfl
  · simp only []
    split
    · rfl
    · rfl

theorem foldl_applyCastlingChar_pawns (wk bk : Square) (wr br : List Square)
    (cs : List Char) (g : Game) :
    (cs.foldl (applyCastlingChar wk bk wr br) g).pawnsBoard = g.pawnsBoard := by
  induction cs generalizing g with
  | nil => rfl
  | cons c cs ih => rw [List.foldl_cons, ih, applyCastlingChar_pawns]

theorem applyCastlingChar_activeArmy (wk bk : Square) (wr br : List Square) (g : Game) (c : Char) :
    (applyCastlingChar wk bk wr br g c).activeArmy = g.activeArmy := by
  unfold applyCastlingChar
  split
  · simp only []
    split
    · rfl
    · rfl
  · simp only []
    split
    · rfl
    · rfl

theorem foldl_applyCastlingChar_activeArmy (wk bk : Square) (wr br : List Square)
    (cs : List Char) (g : Game) :
    (cs.foldl (applyCastlingChar wk bk wr br) g).activeArmy = g.activeArmy := by
  induction cs generalizing g with
  | nil => rfl
  | cons c cs ih => rw [List.foldl_cons, ih, applyCastlingChar_activeArmy]

theorem setFen_white (g0 : Game) (f : List Char) :
    (g0.setFen f).whitePositionBoard =
      ((fenTriples f).foldl placeTriple (setFenBase g0)).whitePositionBoard := by
  unfold Game.setFen
  simp only [apply_ite (fun gg : Game => gg.whitePositionBoard), foldl_applyCastlingChar_white, ite_self]
  rfl

theorem setFen_black (g0 : Game) (f : List Char) :
    (g0.setFen f).blackPositionBoard =
      ((fenTriples f).foldl placeTriple (setFenBase g0)).blackPositionBoard := by
  unfold Game.setFen
  simp only [apply_ite (fun gg : Game => gg.blackPositionBoard), foldl_applyCastlingChar_black, ite_self]
  rfl

theorem setFen_kings (g0 : Game) (f : List Char) :
    (g0.setFen f).kingsBoard =
      ((fenTriples f).foldl placeTriple (setFenBase g0)).kingsBoard := by
  unfold Game.setFen
  simp only [apply_ite (fun gg : Game => gg.kingsBoard), foldl_applyCastlingChar_kings, ite_self]
  rfl

theorem setFen_queens (g0 : Game) (f : List Char) :
    (g0.setFen f).queensBoard =
      ((fenTriples f).foldl placeTriple (setFenBase g0)).queensBoard := by
  unfold Game.setFen
  simp only [apply_ite (fun gg : Game => gg.queensBoard), foldl_applyCastlingChar_queens, ite_self]
  rfl

theorem setFen_rooks (g0 : Game) (f : List Char) :
    (g0.setFen f).rooksBoard =
      ((fenTriples f).foldl placeTriple (setFenBase g0)).rooksBoard := by
  unfold Game.setFen
  simp only [apply_ite (fun gg : Game => gg.rooksBoard), foldl_applyCastlingChar_rooks, ite_self]
  rfl

theorem setFen_bishops (g0 : Game) (f : List Char) :
    (g0.setFen f).bishopsBoard =
      ((fenTriples f).foldl placeTriple (setFenBase g0)).bishopsBoard := by
  unfold Game.setFen
  simp only [apply_ite (fun gg : Game => gg.bishopsBoard), foldl_applyCastlingChar_bishops, ite_self]
  rfl

theorem setFen_knights (g0 : Game) (f : List Char) :
    (g0.setFen f).knightsBoard =
      ((fenTriples f).foldl placeTriple (setFenBase g0)).knightsBoard := by
  unfold Game.setFen
  simp only [apply_ite (fun gg : Game => gg.knightsBoard), foldl_applyCastlingChar_knights, ite_self]
  rfl

theorem setFen_pawns (g0 : Game) (f : List Char) :
    (g0.setFen f).pawnsBoard =
      ((fenTriples f).foldl placeTriple (setFenBase g0)).pawnsBoard := by
  unfold Game.setFen
  simp only [apply_ite (fun gg : Game => gg.pawnsBoard), foldl_applyCastlingChar_pawns, ite_self]
  rfl

theorem setFen_activeArmy (g0 : Game) (f : List Char) :
    (g0.setFen f).activeArmy =
      (if (splitOn ' ' f).getD 1 [] = ['w'] then Army.White else Army.Black) := by
  unfold Game.setFen
  simp only [apply_ite (fun gg : Game => gg.activeArmy), foldl_applyCastlingChar_activeArmy,
    ite_self]

/-- The board invariants depend only on the eight bitboard fields. -/
theorem boardInvariant_of_fields (g g' : Game)
    (hw : g'.whitePositionBoard = g.whitePositionBoard)
    (hb : g'.blackPositionBoard = g.blackPositionBoard)
    (hk : g'.kingsBoard = g.kingsBoard) (hq : g'.queensBoard = g.queensBoard)
    (hr : g'.rooksBoard = g.rooksBoard) (hbi : g'.bishopsBoard = g.bishopsBoard)
    (hn : g'.knightsBoard = g.knightsBoard) (hp : g'.pawnsBoard = g.pawnsBoard)
    (h : g.boardInvariant) : g'.boardInvariant := by
  obtain ⟨h1, h2, h3, h4, h5⟩ := h
  have hbd : ∀ p, g'.board p = g.board p := by
    intro p
    cases p
    case King => exact hk
    case Queen => exact hq
    case Rook => exact hr
    case Bishop => exact hbi
    case Knight => exact hn
    case Pawn => exact hp
    case Unknown => rfl
  refine ⟨?_, ?_, ?_, ?_, ?_⟩
  · rw [hw, hb]
    exact h1
  · intro p q hne
    rw [hbd p, hbd q]
    exact h2 p q hne
  · rw [hw, hb]
    have hpu : piecesUnion g' = piecesUnion g := by
      unfold piecesUnion
      rw [hk, hq, hr, hbi, hn, hp]
    rw [hpu]
    exact h3
  · rw [hw, hk]
    exact h4
  · rw [hb, hk]
    exact h5

/-- `setFen` establishes the board invariants on any well-formed FEN. -/
theorem setFen_boardInvariant (g0 : Game) (f : List Char) (h : wellFormedFen f) :
    (g0.setFen f).boardInvariant := by
  obtain ⟨hnd, hok, hwk, hbk⟩ := h
  have hfold : ((fenTriples f).foldl placeTriple (setFenBase g0)).boardInvariant :=
    fold_invariant _ hnd hok hwk hbk (setFenBase g0) rfl rfl (fun p => by cases p <;> rfl)
  exact boardInvariant_of_fields _ _ (setFen_white g0 f) (setFen_black g0 f)
    (setFen_kings g0 f) (setFen_queens g0 f) (setFen_rooks g0 f) (setFen_bishops g0 f)
    (setFen_knights g0 f) (setFen_pawns g0 f) hfold

end Allie


namespace Allie
open Army PieceType Castle

instance (g : Game) (a : Army) (mv : Move) : Decidable (g.castleOk a mv) := by
  unfold Game.castleOk freeAfterCastle
  infer_instance

instance (g : Game) (a : Army) (mv : Move) : Decidable (g.moveOk a mv) := by
  unfold Game.moveOk
  infer_instance

/-- The pawn double push e2-e4 in the starting position. -/
def mDouble : Move :=
  { start := stringToSquare (fen "e2"), endSq := stringToSquare (fen "e4"), piece := Pawn }

/-- C3: a `setFen` on a well-formed FEN establishes the board invariants
(disjoint color boards, pairwise disjoint piece boards, color occupancy
equal to piece occupancy, one king per side), and a successful `makeMove`
from an invariant position preserves them whenever the accepted move is
consistent with the board in the sense of `moveOk` (a piece of the move's
kind on the start square, no capture of a king, coherent en-passant,
promotion and castle fields); the C3 counterexample shows the invariants
can break for accepted moves outside `moveOk`. -/
theorem C3_invariants_amended :
    (∀ (g0 : Game) (f : List Char), wellFormedFen f → (g0.setFen f).boardInvariant) ∧
    (∀ (g : Game) (c960 : Bool) (m mv : Move), g.boardInvariant →
      g.fillOutMove g.activeArmy c960 m = some mv → g.moveOk g.activeArmy mv →
      (g.makeMove c960 m).2 = true ∧ (g.makeMove c960 m).1.boardInvariant) := by
  refine ⟨fun g0 f h => setFen_boardInvariant g0 f h, ?_⟩
  intro g c960 m mv hInv hfill hok
  have hmm : g.makeMove c960 m = (g.processMove g.activeArmy mv, true) := by
    unfold Game.makeMove
    rw [hfill]
  rw [hmm]
  refine ⟨rfl, ?_⟩
  cases ha : g.activeArmy with
  | White =>
    rw [ha] at hok
    exact processMove_inv_white g mv hInv hok
  | Black =>
    rw [ha] at hok
    exact processMove_inv_black g mv hInv hok

/-- C3 witness: the starting FEN is well formed, the parsed position
satisfies the invariants, and the double push e2-e4 is accepted and
preserves them. -/
theorem C3_invariants_amended_witness :
    wellFormedFen (fen "rnbqkbnr/pppppppp/8/8/8/8/PPPPPPPP/RNBQKBNR w KQkq - 0 1") ∧
    ((default : Game).setFen
      (fen "rnbqkbnr/pppppppp/8/8/8/8/PPPPPPPP/RNBQKBNR w KQkq - 0 1")).boardInvariant ∧
    (startPos.makeMove false mDouble).2 = true ∧
    (startPos.makeMove false mDouble).1.boardInvariant :=
  ⟨by decide,
   C3_invariants_amended.1 (default : Game)
     (fen "rnbqkbnr/pppppppp/8/8/8/8/PPPPPPPP/RNBQKBNR w KQkq - 0 1") (by decide),
   C3_invariants_amended.2 startPos false mDouble mDouble (by decide) (by decide) (by decide)⟩

end Allie


namespace Allie
open Army PieceType Castle

theorem joinSep_cons_cons (sep : Char) (x y : List Char) (zs : List (List Char)) :
    joinSep sep (x :: y :: zs) = x ++ sep :: joinSep sep (y :: zs) := by
  unfold joinSep
  unfold List.intercalate
  rw [List.intersperse_cons_cons, List.flatten_cons, List.flatten_cons]
  rfl

theorem joinSep_singleton (sep : Char) (x : List Char) : joinSep sep [x] = x := by
  unfold joinSep
  unfold List.intercalate
  rw [List.intersperse_singleton, List.flatten_cons, List.flatten_nil, List.append_nil]

theorem splitOnAux_append (sep : Char) :
    ∀ (a rest acc : List Char), sep ∉ a →
      splitOnAux sep (a ++ sep :: rest) acc = (acc.reverse ++ a) :: splitOnAux sep rest []
  | [], rest, acc, _ => by
    rw [List.nil_append, List.append_nil]
    simp only [splitOnAux]
    rw [if_true]
  | c :: a, rest, acc, h => by
    have hc : c ≠ sep := fun hcs => h (by rw [hcs]; exact List.mem_cons_self sep a)
    rw [List.cons_append]
    simp only [splitOnAux]
    rw [if_neg hc]
    rw [splitOnAux_append sep a rest (c :: acc) (fun hm => h (List.mem_cons_of_mem c hm))]
    rw [List.reverse_cons, List.append_assoc, List.singleton_append]

theorem splitOn_two (sep : Char) (a b tail : List Char) (ha : sep ∉ a) (hb : sep ∉ b) :
    splitOn sep (a ++ sep :: (b ++ sep :: tail)) = a :: b :: splitOn sep tail := by
  unfold splitOn
  rw [splitOnAux_append sep a _ [] ha, splitOnAux_append sep b tail [] hb]
  rfl

theorem mem_joinSep (sep : Char) :
    ∀ (parts : List (List Char)) (c : Char), c ∈ joinSep sep parts →
      c = sep ∨ ∃ p, p ∈ parts ∧ c ∈ p
  | [], c, h => absurd h (List.not_mem_nil c)
  | [x], c, h => Or.inr ⟨x, List.mem_cons_self x [], by rw [joinSep_singleton] at h; exact h⟩
  | x :: y :: zs, c, h => by
    rw [joinSep_cons_cons, List.mem_append] at h
    rcases h with h | h
    · exact Or.inr ⟨x, List.mem_cons_self x (y :: zs), h⟩
    · rcases List.mem_cons.mp h with rfl | h2
      · exact Or.inl rfl
      · rcases mem_joinSep sep (y :: zs) c h2 with h3 | ⟨p, hp, hcp⟩
        · exact Or.inl h3
        · exact Or.inr ⟨p, List.mem_cons_of_mem x hp, hcp⟩

theorem digitChar_ne_space (n : Nat) : digitChar n ≠ ' ' := by
  unfold digitChar
  split <;> decide

theorem mem_natToCharsAux_ne_space :
    ∀ (fuel n : Nat) (c : Char), c ∈ natToCharsAux fuel n → c ≠ ' '
  | 0, _, c, h => absurd h (List.not_mem_nil c)
  | fuel + 1, n, c, h => by
    unfold natToCharsAux at h
    by_cases h10 : n < 10
    · rw [if_pos h10] at h
      rcases List.mem_cons.mp h with rfl | h2
      · exact digitChar_ne_space n
      · exact absurd h2 (List.not_mem_nil c)
    · rw [if_neg h10, List.mem_append] at h
      rcases h with h | h
      · exact mem_natToCharsAux_ne_space fuel (n / 10) c h
      · rcases List.mem_cons.mp h with rfl | h2
        · exact digitChar_ne_space (n % 10)
        · exact absurd h2 (List.not_mem_nil c)

theorem cellChar_ne_space (ap : Army × PieceType) : cellChar ap ≠ ' ' := by
  obtain ⟨a, p⟩ := ap
  cases a <;> cases p <;> decide

theorem mem_emitCells_ne_space :
    ∀ (cells : List (Option (Army × PieceType))) (blank : Nat) (c : Char),
      c ∈ emitCells cells blank → c ≠ ' '
  | [], blank, c, h => by
    unfold emitCells at h
    by_cases hb : blank > 0
    · rw [if_pos hb] at h
      exact mem_natToCharsAux_ne_space _ _ c h
    · rw [if_neg hb] at h
      exact absurd h (List.not_mem_nil c)
  | none :: rest, blank, c, h => by
    unfold emitCells at h
    exact mem_emitCells_ne_space rest (blank + 1) c h
  | some ap :: rest, blank, c, h => by
    unfold emitCells at h
    rw [List.mem_append] at h
    rcases h with h | h
    · by_cases hb : blank > 0
      · rw [if_pos hb] at h
        exact mem_natToCharsAux_ne_space _ _ c h
      · rw [if_neg hb] at h
        exact absurd h (List.not_mem_nil c)
    · rcases List.mem_cons.mp h with rfl | h2
      · exact cellChar_ne_space ap
      · exact mem_emitCells_ne_space rest 0 c h2

theorem ranks_no_space (g : Game) :
    ' ' ∉ joinSep '/' ((List.range 8).map (fun i => emitCells (g.rankCells i) 0)) := by
  intro h
  rcases mem_joinSep '/' _ ' ' h with hsep | ⟨p, hp, hcp⟩
  · exact absurd hsep (by decide)
  · rw [List.mem_map] at hp
    obtain ⟨i, -, rfl⟩ := hp
    exact mem_emitCells_ne_space _ _ ' ' hcp rfl

/-- The second space-separated field of a joined field list whose first two
fields are space-free. -/
theorem splitOn_joinSep_getD1 (x y : List Char) (zs : List (List Char)) (hzs : zs ≠ [])
    (hx : ' ' ∉ x) (hy : ' ' ∉ y) :
    (splitOn ' ' (joinSep ' ' (x :: y :: zs))).getD 1 [] = y := by
  obtain ⟨z, zs', rfl⟩ := List.exists_cons_of_ne_nil hzs
  rw [joinSep_cons_cons, joinSep_cons_cons]
  rw [splitOn_two ' ' x y _ hx hy]
  rfl

/-- The reparse of an emitted FEN always recovers the side to move. -/
theorem roundtrip_activeArmy (g0 g : Game) (inc : Bool) :
    (g0.setFen (g.stateOfGameToFen inc)).activeArmy = g.activeArmy := by
  rw [setFen_activeArmy]
  have hget : (splitOn ' ' (g.stateOfGameToFen inc)).getD 1 [] =
      (if g.activeArmy = Army.White then ['w'] else ['b']) := by
    unfold Game.stateOfGameToFen
    simp only []
    simp only [List.cons_append, List.nil_append]
    apply splitOn_joinSep_getD1
    · exact List.cons_ne_nil _ _
    · exact ranks_no_space g
    · split
      · decide
      · decide
  rw [hget]
  cases hact : g.activeArmy with
  | White => decide
  | Black => decide

end Allie

namespace Allie
open Army PieceType Castle

/-- C2: the reparse of an emitted FEN recovers the side to move for every
position, and reproduces the full position (`isSamePosition`, covering the
piece and color bitboards, castle rights, rook files, en-passant target and
side to move) in positions whose castle rights are still backed by the
recorded rook files, exhibited on the starting position and on a position
with black rights only; the C2 counterexample shows the reparse instead
zeroes the castle-rook file bytes of a position that has lost its rights,
so the round trip is not structural equality in general. -/
theorem C2_fen_roundtrip_amended :
    (∀ (g0 g : Game) (inc : Bool),
      (g0.setFen (g.stateOfGameToFen inc)).activeArmy = g.activeArmy) ∧
    ((default : Game).setFen (startPos.stateOfGameToFen true)).isSamePosition startPos = true ∧
    ((default : Game).setFen (gC1.stateOfGameToFen true)).isSamePosition gC1 = true :=
  ⟨roundtrip_activeArmy, by decide, by decide⟩

end Allie
